import Mathlib

/-!
# rotox: a verification development

Shallow embedding of the connection-forwarding core of `isacskoglund/rotox`
(hub round-robin dispatch, probe dial-and-splice, and the adapter that turns a
framed bidirectional gRPC stream into a byte-stream `Conn`), followed by
theorems about it.

Conventions of the embedding:

* a Go `error` value is `Option GoError` (`none` is `nil`);
* a Go `[]byte` is a `List UInt8`; a destination buffer is passed in and the
  modified buffer is returned;
* collaborators behind interfaces (the gRPC stream, an `io.Reader`, an
  `io.Writer`, a dialer) are explicit state machines whose answers are
  scripted in their state, so that every run of the code is a function of
  the initial state;
* loops that the Go code does not bound carry a fuel argument and return
  `none` when it runs out.
-/

namespace Rotox

/-! ## Errors -/

/-- A byte slice. -/
abbrev Bytes := List UInt8

/-- The Go type a fault code is instantiated at (`fault[T]`). -/
inductive CodeType where
  | str
  | forwardErrorCode
  deriving DecidableEq, Repr

/-- The error values that occur in the program. -/
inductive GoError where
  /-- The sentinel `io.EOF` -/
  | eof
  /-- The sentinel `net.ErrClosed` -/
  | errClosed
  /-- An error made by `errors.New(msg)` or by `fmt.Errorf` without `%w` -/
  | plain (msg : String)
  /-- A gRPC status error with a non-OK code -/
  | status (code : Nat) (msg : String)
  /-- A `*net.DNSError`; the flag is `IsTimeout` -/
  | dns (msg : String) (isTimeout : Bool)
  /-- A `*net.OpError` around `Err` -/
  | op (inner : GoError)
  /-- Any other error that implements `net.Error`; the flag is `Timeout()` -/
  | netErr (msg : String) (timeout : Bool)
  /-- An error made by `fmt.Errorf("msg: %w", inner)` -/
  | wrap (msg : String) (inner : GoError)
  /-- The fault made by `fault.New(msg, code)` -/
  | faultNew (ty : CodeType) (msg : String) (code : String)
  /-- The fault made by `fault.Wrap(inner, msg, code)` with `inner` non-nil -/
  | faultWrap (ty : CodeType) (msg : String) (code : String) (inner : GoError)
  deriving DecidableEq, Repr

/-- gRPC status codes (`google.golang.org/grpc/codes`). -/
def codes.OK : Nat := 0
def codes.Canceled : Nat := 1
def codes.Unknown : Nat := 2
def codes.Internal : Nat := 13

/-- The status carried by an error or by an error it wraps (`status.FromError`). -/
def GoError.grpcStatus : GoError → Option Nat
  | .status c _ => some c
  | .op e => e.grpcStatus
  | .wrap _ e => e.grpcStatus
  | .faultWrap _ _ _ e => e.grpcStatus
  | _ => none

/-- The function `status.Code`: `OK` for nil, the carried code of a status error, `Unknown`
otherwise. -/
def status.Code : Option GoError → Nat
  | none => codes.OK
  | some e => e.grpcStatus.getD codes.Unknown

/-- The function `isNormalClosedErr` of `grpc_transport/conn.go`. -/
def isNormalClosedErr (err : Option GoError) : Bool :=
  err == some GoError.eof || status.Code err == codes.Canceled

/-! ## The framed stream behind the adapter (`bidiStream`) -/

/-- The two implementations of `bidiStream`. -/
inductive StreamKind where
  | client
  | server
  deriving DecidableEq, Repr

/-- The answer of one `Recv`. -/
inductive RecvResult where
  | data (payload : Bytes)
  | fail (err : GoError)
  deriving DecidableEq, Repr

/-- A `bidiStream`: its scripted answers and a record of what was done to it. -/
structure BidiStream where
  /-- which wrapper this is (`bidiClientStream` or `bidiServerStream`) -/
  kind : StreamKind
  /-- answers of the coming `Recv` calls, in order -/
  incoming : List RecvResult
  /-- answer of every `Recv` once `incoming` is used up -/
  final : GoError
  /-- answers of the coming `Send` calls, in order (`none` is success); success once used up -/
  sendResults : List (Option GoError)
  /-- payloads of the successful `Send` calls, oldest first -/
  sent : List Bytes
  /-- number of `Send` calls made -/
  sendCalls : Nat
  /-- number of `Recv` calls made -/
  recvCalls : Nat
  /-- answer of `CloseSend` on the client side -/
  closeSendResult : Option GoError
  /-- number of `CloseSend` calls made -/
  closeSendCalls : Nat
  deriving DecidableEq, Repr

/-- One `Send` on the stream. -/
def BidiStream.Send (s : BidiStream) (src : Bytes) : Option GoError × BidiStream :=
  match s.sendResults with
  | [] => (none, { s with sent := s.sent ++ [src], sendCalls := s.sendCalls + 1 })
  | none :: rest =>
    (none, { s with sendResults := rest, sent := s.sent ++ [src], sendCalls := s.sendCalls + 1 })
  | some e :: rest => (some e, { s with sendResults := rest, sendCalls := s.sendCalls + 1 })

/-- One `Recv` on the stream. -/
def BidiStream.Recv (s : BidiStream) : RecvResult × BidiStream :=
  match s.incoming with
  | [] => (.fail s.final, { s with recvCalls := s.recvCalls + 1 })
  | r :: rest => (r, { s with incoming := rest, recvCalls := s.recvCalls + 1 })

/-- The method `Close` of the stream: `CloseSend` on the client wrapper, nothing on the server
wrapper. -/
def BidiStream.Close (s : BidiStream) : Option GoError × BidiStream :=
  match s.kind with
  | .client => (s.closeSendResult, { s with closeSendCalls := s.closeSendCalls + 1 })
  | .server => (none, s)

/-! ## The adapter `grpcConn` -/

/-- The struct `grpcConn`. -/
structure grpcConn where
  stream : BidiStream
  closed : Bool
  buf : Bytes
  offset : Nat
  readFromBufSize : Nat
  name : String
  deriving DecidableEq, Repr

/-- The constructor `newClientConn`, over the wrapped stream. -/
def newClientConn (stream : BidiStream) (name : String) (readFromBufSize : Nat) : grpcConn :=
  { stream := { stream with kind := .client }, closed := false, buf := [], offset := 0,
    readFromBufSize := readFromBufSize, name := name }

/-- The constructor `newServerConn`, over the wrapped stream. -/
def newServerConn (stream : BidiStream) (name : String) (readFromBufSize : Nat) : grpcConn :=
  { stream := { stream with kind := .server }, closed := false, buf := [], offset := 0,
    readFromBufSize := readFromBufSize, name := name }

/-- What a call returning `(int, error)` gives back, with the connection afterwards. -/
structure IOResult where
  n : Nat
  err : Option GoError
  conn : grpcConn
  deriving DecidableEq, Repr

/-- The method `grpcConn.Write`. -/
def grpcConn.Write (conn : grpcConn) (src : Bytes) : IOResult :=
  if conn.closed then
    ⟨0, some .errClosed, conn⟩
  else if src.length = 0 then
    ⟨0, none, conn⟩
  else
    match conn.stream.Send src with
    | (some err, s) => ⟨0, some err, { conn with stream := s }⟩
    | (none, s) => ⟨src.length, none, { conn with stream := s }⟩

/-- The builtin `copy(dst, src)`: the number of bytes copied and `dst` afterwards. -/
def copy (dst src : Bytes) : Nat × Bytes :=
  (min dst.length src.length, src.take dst.length ++ dst.drop src.length)

/-- The method `grpcConn.fillSlice`: bytes copied, whether `dst` is full, `dst` and the
connection afterwards. -/
def grpcConn.fillSlice (conn : grpcConn) (dst : Bytes) : Nat × Bool × Bytes × grpcConn :=
  let (n, dst1) := copy dst (conn.buf.drop conn.offset)
  (n, decide (n ≥ dst.length), dst1, { conn with offset := conn.offset + n })

/-- What `Read` gives back: the count, the error, the destination buffer and the connection
afterwards. -/
structure ReadResult where
  n : Nat
  err : Option GoError
  dst : Bytes
  conn : grpcConn
  deriving DecidableEq, Repr

/-- The loop of `grpcConn.Read`; `m` bytes of `dst` are already filled. -/
def grpcConn.readLoop : Nat → grpcConn → Bytes → Nat → Option ReadResult
  | 0, _, _, _ => none
  | fuel + 1, conn, dst, m =>
    match conn.fillSlice (dst.drop m) with
    | (n, isFull, tail, conn1) =>
      let dst1 := dst.take m ++ tail
      let m1 := m + n
      if isFull then
        some ⟨m1, none, dst1, conn1⟩
      else
        match conn1.stream.Recv with
        | (.fail err, s) => some ⟨m1, some err, dst1, { conn1 with stream := s }⟩
        | (.data src, s) =>
          grpcConn.readLoop fuel { conn1 with stream := s, buf := src, offset := 0 } dst1 m1

/-- The method `grpcConn.Read`. -/
def grpcConn.Read (fuel : Nat) (conn : grpcConn) (dst : Bytes) : Option ReadResult :=
  if conn.closed then
    some ⟨0, some .errClosed, dst, conn⟩
  else
    conn.readLoop fuel dst 0

/-- The method `grpcConn.Close`. -/
def grpcConn.Close (conn : grpcConn) : Option GoError × grpcConn :=
  match conn.stream.Close with
  | (err, s) => (err, { conn with stream := s })

/-- The method `grpcConn.Name`. -/
def grpcConn.Name (conn : grpcConn) : String := conn.name

/-! ## Bulk copy: `ReadFrom` and `WriteTo` -/

/-- An `io.Reader`: it hands out `data` in order and answers `final` once `data` is used up. -/
structure Reader where
  /-- the bytes not handed out yet -/
  data : Bytes
  /-- a limit on the size of each coming read (short reads); no limit once used up -/
  caps : List Nat
  /-- the error once `data` is used up -/
  final : GoError
  /-- whether the error already comes with the last bytes -/
  eager : Bool
  deriving DecidableEq, Repr

/-- One `Read` of the reader into a buffer of length `size`: the bytes placed at the start of
the buffer, the error, and the reader afterwards. -/
def Reader.Read (r : Reader) (size : Nat) : Bytes × Option GoError × Reader :=
  match r.data with
  | [] => ([], some r.final, { r with caps := r.caps.tail })
  | _ :: _ =>
    let k := match r.caps with
      | [] => size
      | c :: _ => min c size
    let rest := r.data.drop k
    (r.data.take k,
      if rest.isEmpty && r.eager then some r.final else none,
      { r with data := rest, caps := r.caps.tail })

/-- An `io.Writer`: it records what it accepts, and may fail after a number of bytes. -/
structure Writer where
  /-- the bytes accepted by each `Write` call, oldest first -/
  chunks : List Bytes
  /-- the room left before every `Write` fails with the error; `none` accepts everything -/
  failAfter : Option (Nat × GoError)
  deriving DecidableEq, Repr

/-- One `Write` on the writer. -/
def Writer.Write (w : Writer) (p : Bytes) : Nat × Option GoError × Writer :=
  match w.failAfter with
  | none => (p.length, none, { w with chunks := w.chunks ++ [p] })
  | some (room, e) =>
    if p.length ≤ room then
      (p.length, none, { chunks := w.chunks ++ [p], failAfter := some (room - p.length, e) })
    else
      (room, some e, { chunks := w.chunks ++ [p.take room], failAfter := some (0, e) })

/-- The loop of `grpcConn.ReadFrom`; `m` is the running byte count. The `int64` counter is kept
as a natural number. -/
def grpcConn.readFromLoop : Nat → grpcConn → Reader → Nat → Option (IOResult × Reader)
  | 0, _, _, _ => none
  | fuel + 1, conn, r, m =>
    match r.Read conn.readFromBufSize with
    | (chunk, err, r1) =>
      let n := chunk.length
      let m1 := m + n
      if err.isSome && !isNormalClosedErr err then
        some (⟨m1, err, conn⟩, r1)
      else
        let w := conn.Write chunk
        match w.err with
        | some werr =>
          some (⟨m1, some (.wrap ("failed to write " ++ toString n ++ " bytes") werr), w.conn⟩, r1)
        | none =>
          if err.isSome then
            some (⟨m1, none, w.conn⟩, r1)
          else
            grpcConn.readFromLoop fuel w.conn r1 m1

/-- The method `grpcConn.ReadFrom`. -/
def grpcConn.ReadFrom (fuel : Nat) (conn : grpcConn) (r : Reader) : Option (IOResult × Reader) :=
  if conn.closed then
    some (⟨0, some .errClosed, conn⟩, r)
  else
    conn.readFromLoop fuel r 0

/-- The loop of `grpcConn.WriteTo`; `m` is the running byte count. -/
def grpcConn.writeToLoop : Nat → grpcConn → Writer → Nat → Option (IOResult × Writer)
  | 0, _, _, _ => none
  | fuel + 1, conn, dst, m =>
    match conn.stream.Recv with
    | (.fail err, s) =>
      if isNormalClosedErr (some err) then
        some (⟨m, none, { conn with stream := s }⟩, dst)
      else
        some (⟨m, some err, { conn with stream := s }⟩, dst)
    | (.data src, s) =>
      match dst.Write src with
      | (n, some err, dst1) => some (⟨m + n, some err, { conn with stream := s }⟩, dst1)
      | (n, none, dst1) => grpcConn.writeToLoop fuel { conn with stream := s } dst1 (m + n)

/-- The method `grpcConn.WriteTo`. -/
def grpcConn.WriteTo (fuel : Nat) (conn : grpcConn) (dst : Writer) : Option (IOResult × Writer) :=
  if conn.closed then
    some (⟨0, some .errClosed, conn⟩, dst)
  else
    match dst.Write (conn.buf.drop conn.offset) with
    | (n, some err, dst1) => some (⟨n, some err, conn⟩, dst1)
    | (n, none, dst1) => grpcConn.writeToLoop fuel { conn with offset := 0, buf := [] } dst1 n

/-! ## Hub core: probe selection and the per-request flow -/

/-- The record `telemetry.ConnectionEvent`; times are Unix nanoseconds. -/
structure ConnectionEvent where
  ConnectionId : String
  ClientAddress : String
  TargetAddress : String
  OpenedAt : Int
  ClosedAt : Int
  deriving DecidableEq, Repr

/-- The record `telemetry.TransferEvent`. -/
structure TransferEvent where
  ConnectionId : String
  StartedAt : Int
  FinishedAt : Int
  BytesCount : Nat
  deriving DecidableEq, Repr

/-- The struct `Core`: the probe pool and the value held in the one-slot channel `next`. -/
structure Core (δ : Type) where
  probes : List δ
  next : Nat
  deriving DecidableEq, Repr

/-- The constructor `NewCore`; `none` is the panic on an empty pool. -/
def NewCore {δ : Type} (probes : List δ) : Option (Core δ) :=
  if probes.length = 0 then none else some { probes := probes, next := 0 }

/-- What one call of `forward` meets: the answers of its collaborators. -/
structure ForwardEnv where
  /-- the error of `probe.Dial` (`none`: it connects) -/
  dialErr : Option GoError
  /-- the error of the `accept` thunk -/
  acceptErr : Option GoError
  /-- the error of `uuid.NewRandom` -/
  uuidErr : Option GoError
  /-- the connection id it draws -/
  connectionId : String
  /-- the clock when `openedAt` is taken -/
  nowOpened : Int
  /-- the clock when the deferred closing event is built -/
  nowDeferred : Int
  /-- the transfer events published while `Duplex` runs -/
  transfers : List TransferEvent
  deriving DecidableEq, Repr

/-- What a call of `forward` does, in order. -/
inductive HubEvent (δ : Type) where
  | dial (probeIdx : Nat) (probe : δ) (target : String)
  | accept
  | newConnectionId
  | publishConnection (ev : ConnectionEvent)
  | publishTransfer (ev : TransferEvent)
  | duplexDone
  | closeClient
  | closeTarget
  deriving DecidableEq, Repr

/-- The method `Core.forward`: the returned error, what was done, and the core afterwards;
`none` is an index-out-of-range panic. -/
def Core.forward {δ : Type} (core : Core δ) (env : ForwardEnv) (targetAddress : String) :
    Option (Option GoError × List (HubEvent δ) × Core δ) :=
  let probeIdx := core.next
  let core1 : Core δ :=
    if (probeIdx : Int) ≥ (core.probes.length : Int) - 1 then { core with next := 0 }
    else { core with next := probeIdx + 1 }
  match core.probes.get? probeIdx with
  | none => none
  | some probe =>
    let dialed := [HubEvent.dial probeIdx probe targetAddress]
    match env.dialErr with
    | some err => some (some err, dialed, core1)
    | none =>
      match env.acceptErr with
      | some err => some (some err, dialed ++ [.accept, .closeTarget], core1)
      | none =>
        match env.uuidErr with
        | some err =>
          some (some (.wrap "failed to create random connection id" err),
            dialed ++ [.accept, .newConnectionId, .closeClient, .closeTarget], core1)
        | none =>
          let opened : ConnectionEvent :=
            { ConnectionId := env.connectionId, ClientAddress := "not set",
              TargetAddress := targetAddress, OpenedAt := env.nowOpened, ClosedAt := 0 }
          let closing : ConnectionEvent :=
            { ConnectionId := env.connectionId, ClientAddress := "not set",
              TargetAddress := targetAddress, OpenedAt := env.nowOpened,
              ClosedAt := env.nowDeferred }
          some (none,
            dialed ++ [.accept, .newConnectionId, .publishConnection opened]
              ++ env.transfers.map .publishTransfer
              ++ [.duplexDone, .publishConnection closing, .closeClient, .closeTarget],
            core1)

/-- Calls of `forward` made one after another: the error and the doings of each call. -/
def Core.forwardMany {δ : Type} (core : Core δ) :
    List (ForwardEnv × String) → Option (List (Option GoError × List (HubEvent δ)))
  | [] => some []
  | (env, target) :: rest =>
    match core.forward env target with
    | none => none
    | some (err, events, core1) =>
      match core1.forwardMany rest with
      | none => none
      | some outs => some ((err, events) :: outs)

/-- The dials among the doings of a call. -/
def HubEvent.isDial {δ : Type} : HubEvent δ → Bool
  | .dial _ _ _ => true
  | _ => false

/-! ## Probe: dial and splice -/

/-- The `Timeout()` method of an error, when it has one. -/
def GoError.timeoutMethod : GoError → Option Bool
  | .dns _ t => some t
  | .netErr _ t => some t
  | .op inner =>
    match inner.timeoutMethod with
    | some t => some t
    | none => some false
  | _ => none

/-- The call `errors.As(err, &dnsErr)` for `*net.DNSError`. -/
def GoError.asDNSError : GoError → Bool
  | .dns _ _ => true
  | .op e => e.asDNSError
  | .wrap _ e => e.asDNSError
  | .faultWrap _ _ _ e => e.asDNSError
  | _ => false

/-- The call `errors.As(err, &netErr)` for the interface `net.Error`, followed by
`netErr.Timeout()`: the first error of the chain that implements `net.Error`. -/
def GoError.asNetErrorTimeout : GoError → Bool
  | .dns _ t => t
  | .netErr _ t => t
  | .op inner => ((GoError.op inner).timeoutMethod).getD false
  | .wrap _ e => e.asNetErrorTimeout
  | .faultWrap _ _ _ e => e.asNetErrorTimeout
  | _ => false

/-- The call `errors.As(err, &opErr)` for `*net.OpError`. -/
def GoError.asOpError : GoError → Bool
  | .op _ => true
  | .wrap _ e => e.asOpError
  | .faultWrap _ _ _ e => e.asOpError
  | _ => false

/-- The function `fault.Wrap`. -/
def fault.Wrap (ty : CodeType) (err : Option GoError) (msg : String) (code : String) :
    Option GoError :=
  match err with
  | none => none
  | some e => some (.faultWrap ty msg code e)

/-- The error codes of `common`. `ForwardUnknown` is the untyped constant `fault.Unknown`. -/
def fault.Unknown : String := "UNKNOWN"
def common.ForwardInternal : String := "INTERNAL"
def common.ForwardFailedToResolveHost : String := "FAILED_TO_RESOLVE_HOST"
def common.ForwardHostUnreachable : String := "HOST_UNREACHABLE"

/-- The function `interpretDialError` of `probe/probe.go`. -/
def interpretDialError (err : Option GoError) : Option GoError :=
  match err with
  | none => none
  | some e =>
    if e.asDNSError then
      fault.Wrap .forwardErrorCode (some e) "failed to dial" common.ForwardFailedToResolveHost
    else if e.asNetErrorTimeout then
      fault.Wrap .forwardErrorCode (some e) "failed to dial" common.ForwardHostUnreachable
    else if e.asOpError then
      fault.Wrap .forwardErrorCode (some e) "failed to dial" common.ForwardHostUnreachable
    else
      fault.Wrap .str (some e) "failed to dial" fault.Unknown

/-- What one call of `Service.Forward` meets. -/
structure ProbeEnv where
  /-- the error of `dialer.DialContext` -/
  dialErr : Option GoError
  /-- the error of the `accept` thunk -/
  acceptErr : Option GoError
  /-- the error a copy direction of the splice ends with; `simplex` logs it and `Duplex`
  returns nothing -/
  copyErr : Option GoError := none
  deriving DecidableEq, Repr

/-- What a call of `Service.Forward` does, in order. -/
inductive ProbeEvent where
  | dialContext (network : String) (address : String)
  | accept
  | duplexDone
  | closeTarget
  deriving DecidableEq, Repr

/-- The method `Service.Forward`: the returned error and what was done. -/
def Service.Forward (env : ProbeEnv) (address : String) : Option GoError × List ProbeEvent :=
  let dialed := [ProbeEvent.dialContext "tcp" address]
  match env.dialErr with
  | some err => (interpretDialError (some err), dialed)
  | none =>
    match env.acceptErr with
    | some err => (some err, dialed ++ [.accept, .closeTarget])
    | none => (none, dialed ++ [.accept, .duplexDone, .closeTarget])

/-! ## Vocabulary of the statements -/

/-- The payloads of the data answers that come before the first failing answer. -/
def dataPrefix : List RecvResult → List Bytes
  | .data b :: rest => b :: dataPrefix rest
  | _ => []

/-- The error the stream answers once its leading data answers are used up. -/
def firstErr (final : GoError) : List RecvResult → GoError
  | [] => final
  | .fail e :: _ => e
  | .data _ :: rest => firstErr final rest

/-- The part of the held payload not handed out yet, `conn.buf[conn.offset:]`. -/
def grpcConn.held (conn : grpcConn) : Bytes := conn.buf.drop conn.offset

/-- The bytes a connection can still hand out before its stream fails: the rest of the held
payload, then the payloads of the coming data frames. -/
def grpcConn.pending (conn : grpcConn) : Bytes :=
  conn.held ++ (dataPrefix conn.stream.incoming).flatten


/-- The postcondition of one run of the read loop. -/
structure ReadPost (conn : grpcConn) (dst : Bytes) (m : Nat) (r : ReadResult) : Prop where
  n_eq : r.n = m + min (dst.length - m) conn.pending.length
  dst_eq : r.dst = dst.take m ++ conn.pending.take (dst.length - m) ++
    dst.drop (m + conn.pending.length)
  err_eq : r.err = if dst.length - m ≤ conn.pending.length then none
    else some (firstErr conn.stream.final conn.stream.incoming)
  closed_eq : r.conn.closed = conn.closed
  final_eq : r.conn.stream.final = conn.stream.final
  recv_ge : conn.stream.recvCalls ≤ r.conn.stream.recvCalls
  recv_le : r.conn.stream.recvCalls ≤
    conn.stream.recvCalls + (dataPrefix conn.stream.incoming).length + 1
  recv_none : dst.length - m ≤ conn.held.length →
    r.conn.stream.recvCalls = conn.stream.recvCalls
  recv_all : ¬ dst.length - m ≤ conn.pending.length →
    r.conn.stream.recvCalls = conn.stream.recvCalls + (dataPrefix conn.stream.incoming).length + 1
  pending_eq : dst.length - m ≤ conn.pending.length →
    r.conn.pending = conn.pending.drop (dst.length - m) ∧
    firstErr r.conn.stream.final r.conn.stream.incoming =
      firstErr conn.stream.final conn.stream.incoming ∧
    (dataPrefix r.conn.stream.incoming).length ≤ (dataPrefix conn.stream.incoming).length


/-- Writes made one after another: the count and error of each, and the connection afterwards. -/
def grpcConn.writeAll (conn : grpcConn) : List Bytes → List (Nat × Option GoError) × grpcConn
  | [] => ([], conn)
  | part :: parts =>
    match (conn.Write part).conn.writeAll parts with
    | (outs, conn1) => (((conn.Write part).n, (conn.Write part).err) :: outs, conn1)

/-- Reads made one after another into fresh buffers of the given sizes, up to and including the
first one that returns an error: the bytes returned (`dst[:n]` of each read, in order) and the
error of the last read. -/
def grpcConn.readAll (fuel : Nat) (conn : grpcConn) : List Nat → Option (Bytes × Option GoError)
  | [] => some ([], none)
  | size :: sizes =>
    match conn.Read fuel (List.replicate size 0) with
    | none => none
    | some r =>
      match r.err with
      | some e => some (r.dst.take r.n, some e)
      | none =>
        match r.conn.readAll fuel sizes with
        | none => none
        | some (bytes, e) => some (r.dst.take r.n ++ bytes, e)

/-! ## Structured errors (`fault`) and the hub's error responses -/

/-- The code `fault.Ok`. -/
def fault.Ok : String := "OK"

/-- The function `fault.New`. -/
def fault.New (ty : CodeType) (msg : String) (code : String) : GoError :=
  .faultNew ty msg code

/-- The function `errors.Unwrap`: what the `Unwrap` method of the error returns, nil when it
has none. -/
def GoError.Unwrap : GoError → Option GoError
  | .op e => some e
  | .wrap _ e => some e
  | .faultWrap _ _ _ e => some e
  | _ => none

/-- The loop of `fault.Code[T]` from a non-nil error on: the code of the error when it is a
`*fault[T]`, otherwise on to `errors.Unwrap(err)`, and `Unknown` at the end of the chain. -/
def GoError.codeLoop (ty : CodeType) : GoError → String
  | .faultNew t _ code => if t = ty then code else fault.Unknown
  | .faultWrap t _ code e => if t = ty then code else e.codeLoop ty
  | .op e => e.codeLoop ty
  | .wrap _ e => e.codeLoop ty
  | _ => fault.Unknown

/-- The function `fault.Code[T]`. -/
def fault.Code (ty : CodeType) (err : Option GoError) : String :=
  match err with
  | none => fault.Ok
  | some e => e.codeLoop ty

/-- The loop of `fault.RawCode` from a non-nil error on. -/
def GoError.rawCodeLoop : GoError → String
  | .faultNew _ _ code => code
  | .faultWrap _ _ code _ => code
  | .op e => e.rawCodeLoop
  | .wrap _ e => e.rawCodeLoop
  | _ => fault.Unknown

/-- The function `fault.RawCode`; `none` is the nil it returns for a nil error. -/
def fault.RawCode (err : Option GoError) : Option String :=
  match err with
  | none => none
  | some e => some e.rawCodeLoop

/-- The function `http.StatusText` of the standard library, at the status codes the hub
writes; the empty string elsewhere. -/
def http.StatusText (statusCode : Nat) : String :=
  if statusCode = 500 then "Internal Server Error"
  else if statusCode = 502 then "Bad Gateway"
  else if statusCode = 504 then "Gateway Timeout"
  else ""

/-- The function `writeHttpError`: the socket is the list of the strings written to it. -/
def writeHttpError (w : List String) (statusCode : Nat) : List String :=
  w ++ ["HTTP/1.1 " ++ toString statusCode ++ " " ++ http.StatusText statusCode ++
    "\r\nContent-Length: 0\r\nConnection: close\r\n\r\n"]

/-- The method `HttpApi.handleForwardError`: the client socket afterwards. -/
def HttpApi.handleForwardError (conn : List String) (err : Option GoError) : List String :=
  match err with
  | none => conn
  | some e =>
    let code := fault.Code .forwardErrorCode (some e)
    if code = fault.Unknown ∨ code = common.ForwardInternal then
      writeHttpError conn 500
    else if code = common.ForwardFailedToResolveHost then
      writeHttpError conn 502
    else if code = common.ForwardHostUnreachable then
      writeHttpError conn 504
    else
      conn

/-- The error and the errors that `errors.Unwrap` yields from it, one after another. -/
def GoError.chain : GoError → List GoError
  | .op e => .op e :: e.chain
  | .wrap msg e => .wrap msg e :: e.chain
  | .faultWrap ty msg code e => .faultWrap ty msg code e :: e.chain
  | e => [e]

/-- The code of an error that is itself a fault of code type `ty`. -/
def GoError.faultCodeAt (ty : CodeType) : GoError → Option String
  | .faultNew t _ code => if t = ty then some code else none
  | .faultWrap t _ code _ => if t = ty then some code else none
  | _ => none

/-- Whether an error is itself a `*net.DNSError`. -/
def GoError.isDNSError : GoError → Bool
  | .dns _ _ => true
  | _ => false

/-- Whether an error is itself a `*net.OpError`. -/
def GoError.isOpError : GoError → Bool
  | .op _ => true
  | _ => false

/-! ## The forward stream at the wire level: `forwardClient.Dial` and `ForwardServer.Forward` -/

/-- Modelled from the spec: the generated package `forward/v1` is not among the sources. The
enum `DialResponse_Code` has the three codes the spec names (`UNSPECIFIED` is success); `other`
stands for any numeric value outside them, which the wire format lets through. -/
inductive DialResponse_Code where
  | CODE_UNSPECIFIED
  | CODE_FAILED_TO_RESOLVE_HOST
  | CODE_HOST_UNREACHABLE
  | other (n : Int)
  deriving DecidableEq, Repr

/-- Modelled from the spec: the message `ForwardRequest` of the missing package `forward/v1`,
a `Dial` frame, a `Transfer` frame, or a message with neither set. -/
inductive ForwardRequest where
  | dialRequest (destination : String)
  | transferRequest (data : Bytes)
  | unset
  deriving DecidableEq, Repr

/-- Modelled from the spec: the message `ForwardResponse` of the missing package `forward/v1`,
a `DialResponse` frame, a `Transfer` frame, or a message with neither set. -/
inductive ForwardResponse where
  | dialResponse (code : DialResponse_Code)
  | transferResponse (data : Bytes)
  | unset
  deriving DecidableEq, Repr

/-- The answer of one `Recv` on a gRPC stream. -/
inductive Received (α : Type) where
  | msg (m : α)
  | fail (err : GoError)
  deriving DecidableEq, Repr

/-- A call made on a gRPC stream: a `Send` of a message with the error it returned, or a
`Recv`. -/
inductive StreamOp (α : Type) where
  | send (m : α) (err : Option GoError)
  | recv
  deriving DecidableEq, Repr

/-- A gRPC bidirectional stream (`grpc.BidiStreamingClient` or `grpc.BidiStreamingServer`): its
scripted answers and the calls made on it. -/
structure RawStream (Snd Rcv : Type) where
  /-- answers of the coming `Recv` calls, in order -/
  incoming : List (Received Rcv)
  /-- answer of every `Recv` once `incoming` is used up -/
  final : GoError
  /-- answers of the coming `Send` calls, in order (`none` is success); success once used up -/
  sendResults : List (Option GoError)
  /-- the calls made so far, oldest first -/
  log : List (StreamOp Snd)
  /-- answer of `CloseSend` -/
  closeSendResult : Option GoError
  deriving DecidableEq, Repr

/-- One `Send` on the gRPC stream. -/
def RawStream.Send {Snd Rcv : Type} (s : RawStream Snd Rcv) (m : Snd) :
    Option GoError × RawStream Snd Rcv :=
  match s.sendResults with
  | [] => (none, { s with log := s.log ++ [.send m none] })
  | err :: rest => (err, { s with sendResults := rest, log := s.log ++ [.send m err] })

/-- One `Recv` on the gRPC stream. -/
def RawStream.Recv {Snd Rcv : Type} (s : RawStream Snd Rcv) : Received Rcv × RawStream Snd Rcv :=
  match s.incoming with
  | [] => (.fail s.final, { s with log := s.log ++ [.recv] })
  | r :: rest => (r, { s with incoming := rest, log := s.log ++ [.recv] })

/-- The messages handed to `Send` among some calls, in order. -/
def sendsOf {α : Type} : List (StreamOp α) → List α
  | [] => []
  | .send m _ :: rest => m :: sendsOf rest
  | .recv :: rest => sendsOf rest

/-- The wrapper `bidiClientStream` around a client stream as it stands: `Recv` hands out the
data of a `Transfer` frame and fails on any other message, `Send` wraps the payload into a
`Transfer` frame, `Close` is `CloseSend`. -/
def bidiClientStream (s : RawStream ForwardRequest ForwardResponse) : BidiStream :=
  { kind := .client,
    incoming := s.incoming.map fun r =>
      match r with
      | .msg (.transferResponse data) => .data data
      | .msg _ => .fail (.plain "transfer response was nil")
      | .fail err => .fail err,
    final := s.final, sendResults := s.sendResults, sent := [], sendCalls := 0, recvCalls := 0,
    closeSendResult := s.closeSendResult, closeSendCalls := 0 }

/-- What `forwardClient.Dial` comes to: a connection with a nil error, an error with no
connection, or a panic. -/
inductive DialResult where
  | conn (c : grpcConn)
  | fail (err : GoError)
  | panic (msg : String)
  deriving DecidableEq, Repr

/-- The method `forwardClient.Dial`. `openErr` is the error of `client.Forward`, which opens
`stream`; the stream afterwards is returned too. -/
def forwardClient.Dial (openErr : Option GoError)
    (stream : RawStream ForwardRequest ForwardResponse) (connReadFromBufSize : Nat)
    (address : String) : DialResult × RawStream ForwardRequest ForwardResponse :=
  match openErr with
  | some err => (.fail err, stream)
  | none =>
    match stream.Send (.dialRequest address) with
    | (some err, s1) => (.fail err, s1)
    | (none, s1) =>
      match s1.Recv with
      | (.fail err, s2) => (.fail err, s2)
      | (.msg (.dialResponse code), s2) =>
        match code with
        | .CODE_UNSPECIFIED =>
          (.conn (newClientConn (bidiClientStream s2) "target" connReadFromBufSize), s2)
        | .CODE_FAILED_TO_RESOLVE_HOST =>
          (.fail (fault.New .forwardErrorCode "failed to resolve host"
            common.ForwardFailedToResolveHost), s2)
        | .CODE_HOST_UNREACHABLE =>
          (.fail (fault.New .forwardErrorCode "host unreachable"
            common.ForwardHostUnreachable), s2)
        | .other _ => (.panic "unreachable", s2)
      | (.msg _, s2) => (.fail (.plain "dial response was nil"), s2)

/-- More gRPC status codes. -/
def codes.InvalidArgument : Nat := 3
def codes.FailedPrecondition : Nat := 9

/-- What the forwarder behind the server does in one call, as far as the server can tell. -/
structure ForwarderRun where
  /-- the error its `Forward` returns -/
  err : Option GoError
  /-- whether it called the `accept` thunk -/
  accepted : Bool
  /-- the payloads it wrote, in the splice, to the connection `accept` gave it -/
  written : List Bytes
  deriving DecidableEq, Repr

/-- A `common.Forwarder` as the server meets it: what it does for a destination, given the
error the `accept` thunk would return. -/
abbrev Forwarder := String → Option GoError → ForwarderRun

/-- The frames the splice sends through the server-side connection, one `Send` of a `Transfer`
frame for each non-empty payload, until a `Send` fails. -/
def spliceSends (s : RawStream ForwardResponse ForwardRequest) :
    List Bytes → RawStream ForwardResponse ForwardRequest
  | [] => s
  | data :: rest =>
    if data.length = 0 then spliceSends s rest
    else
      match s.Send (.transferResponse data) with
      | (some _, s1) => s1
      | (none, s1) => spliceSends s1 rest

/-- What a call of `ForwardServer.Forward` comes to. -/
structure ServerRun where
  /-- the status error returned, nil for status OK -/
  result : Option GoError
  /-- the destination handed to the forwarder, when it was invoked -/
  forwarded : Option String
  /-- the stream afterwards -/
  stream : RawStream ForwardResponse ForwardRequest
  deriving DecidableEq, Repr

/-- The error the `accept` thunk of `ForwardServer.Forward` returns, from the error of its
`Send` of `DialResponse{UNSPECIFIED}`. -/
def ForwardServer.acceptErr (sendErr : Option GoError) : Option GoError :=
  match sendErr with
  | some _ => some (.plain "failed to acknowledge successful dial")
  | none => none

/-- The method `ForwardServer.Forward` over the forwarder `svc`. The receives of the splice
are left out. -/
def ForwardServer.Forward (svc : Forwarder)
    (stream : RawStream ForwardResponse ForwardRequest) : ServerRun :=
  match stream.Recv with
  | (.fail _, s1) => ⟨some (.status codes.Internal ""), none, s1⟩
  | (.msg (.dialRequest destination), s1) =>
    if destination = "" then
      ⟨some (.status codes.InvalidArgument "destination cannot be empty"), none, s1⟩
    else
      let acked := s1.Send (.dialResponse .CODE_UNSPECIFIED)
      let run := svc destination (ForwardServer.acceptErr acked.1)
      let s2 :=
        if run.accepted then
          match acked.1 with
          | some _ => acked.2
          | none => spliceSends acked.2 run.written
        else s1
      let code := fault.Code .forwardErrorCode run.err
      if code = fault.Ok then ⟨none, some destination, s2⟩
      else if code = fault.Unknown then ⟨some (.status codes.Unknown ""), some destination, s2⟩
      else if code = common.ForwardInternal then
        ⟨some (.status codes.Internal ""), some destination, s2⟩
      else
        let pbCode :=
          if code = common.ForwardFailedToResolveHost then
            DialResponse_Code.CODE_FAILED_TO_RESOLVE_HOST
          else if code = common.ForwardHostUnreachable then
            DialResponse_Code.CODE_HOST_UNREACHABLE
          else DialResponse_Code.CODE_UNSPECIFIED
        match s2.Send (.dialResponse pbCode) with
        | (some _, s3) => ⟨some (.status codes.Internal ""), some destination, s3⟩
        | (none, s3) => ⟨none, some destination, s3⟩
  | (.msg _, s1) =>
    ⟨some (.status codes.FailedPrecondition "initial request must be a dial request"), none, s1⟩

/-- The probe's `Service` as the forwarder behind the server: `dialErr` is the error of its
dial, `copyErr` the error a copy direction of the splice ends with (which `simplex` logs and
`Duplex` does not return), `written` what the splice writes to the client connection. -/
def Service.asForwarder (dialErr copyErr : Option GoError) (written : List Bytes) : Forwarder :=
  fun address acceptErr =>
    let out := Service.Forward { dialErr := dialErr, acceptErr := acceptErr, copyErr := copyErr }
      address
    { err := out.1, accepted := out.2.contains .accept,
      written := if out.2.contains .duplexDone then written else [] }

/-! ## Hub HTTP front end: the dial target of a plain request -/

/-- The function `bytealg.IndexByteString`: the place of the first `c` in `s`, `none` for the
`-1` of the source. A byte that is an ASCII character belongs to no other character of a UTF-8
string, so places are counted in characters. -/
def indexByte : List Char → Char → Option Nat
  | [], _ => none
  | x :: rest, c => if x = c then some 0 else (indexByte rest c).map (· + 1)

/-- The function `bytealg.LastIndexByteString`: the place of the last `c` in `s`. -/
def lastIndexByte : List Char → Char → Option Nat
  | [], _ => none
  | x :: rest, c =>
    match lastIndexByte rest c with
    | some i => some (i + 1)
    | none => if x = c then some 0 else none

/-- The last checks of `net.SplitHostPort`: no `[` from place `j` on, no `]` from place `k`
on; then the port is what follows the last colon, at place `i`. -/
def splitHostPortTail (hostport : List Char) (host : List Char) (i j k : Nat) :
    Option (String × String) :=
  if (indexByte (hostport.drop j) '[').isSome then none
  else if (indexByte (hostport.drop k) ']').isSome then none
  else some (String.mk host, String.mk (hostport.drop (i + 1)))

/-- The function `net.SplitHostPort` of the Go standard library; `none` stands for its errors
(missing port, too many colons, misplaced brackets), which `handlePlain` only tests for. -/
def net.SplitHostPort (hostport : String) : Option (String × String) :=
  let s := hostport.toList
  match lastIndexByte s ':' with
  | none => none
  | some i =>
    if s.head? = some '[' then
      match indexByte s ']' with
      | none => none
      | some close =>
        if close + 1 = s.length then none
        else if close + 1 = i then splitHostPortTail s ((s.take close).drop 1) i 1 (close + 1)
        else none
    else if (indexByte (s.take i) ':').isSome then none
    else splitHostPortTail s (s.take i) i 0 0

/-- The function `net.JoinHostPort` of the Go standard library: a host with a colon in it is
taken for a literal IPv6 address and put in brackets. -/
def net.JoinHostPort (host port : String) : String :=
  if (indexByte host.toList ':').isSome then "[" ++ host ++ "]:" ++ port
  else host ++ ":" ++ port

/-- The constant `regularDefaultPort`. -/
def regularDefaultPort : String := "80"

/-- The dial target that `HttpApi.handlePlain` works out from the host of the request URL and
the `Host` header. -/
def HttpApi.plainTarget (urlHost reqHost : String) : String :=
  let host := if urlHost = "" then reqHost else urlHost
  match net.SplitHostPort host with
  | none => net.JoinHostPort host regularDefaultPort
  | some _ => host

/-- The method `HttpApi.handlePlain`: what is written to the client socket by the hub itself,
what `forward` did, and the core afterwards. `writeProxyErr` is the error of `req.WriteProxy`;
the `accept` thunk of a plain request never fails. -/
def HttpApi.handlePlain {δ : Type} (core : Core δ) (env : ForwardEnv) (conn : List String)
    (writeProxyErr : Option GoError) (urlHost reqHost : String) :
    Option (List String × List (HubEvent δ) × Core δ) :=
  match writeProxyErr with
  | some _ => some (writeHttpError conn 500, [], core)
  | none =>
    match core.forward { env with acceptErr := none } (HttpApi.plainTarget urlHost reqHost) with
    | none => none
    | some (err, events, core1) => some (HttpApi.handleForwardError conn err, events, core1)

/-- The connection events among the doings of a call of `forward`, in order. -/
def connectionEventsOf {δ : Type} : List (HubEvent δ) → List ConnectionEvent
  | [] => []
  | .publishConnection ev :: rest => ev :: connectionEventsOf rest
  | _ :: rest => connectionEventsOf rest

/-! ## Telemetry client: the subscription over a server stream -/

/-- The struct `grpcServerStreamSubscription`: the answers its stream still holds (once they
are used up every `Recv` fails with `final`), the conversion of a response into events, and
the cache of converted events. -/
structure grpcServerStreamSubscription (M T : Type) where
  incoming : List (Received M)
  final : GoError
  convert : M → Except GoError (List T)
  cache : List T

/-- The loop of `receive` over the answers of the stream: it ends on the first failing `Recv`,
on the first failing conversion, or as soon as the cache is not empty. The result is the error,
the cache and the answers left on the stream. -/
def grpcServerStreamSubscription.receiveLoop {M T : Type} (convert : M → Except GoError (List T))
    (final : GoError) : List (Received M) → List T → Option GoError × List T × List (Received M)
  | [], cache => (some final, cache, [])
  | .fail err :: rest, cache => (some err, cache, rest)
  | .msg resp :: rest, cache =>
    match convert resp with
    | .error err => (some err, cache, rest)
    | .ok converted =>
      let cache := cache ++ converted
      if cache.length > 0 then (none, cache, rest)
      else grpcServerStreamSubscription.receiveLoop convert final rest cache

/-- The method `receive`: nothing to do while the cache holds an event. -/
def grpcServerStreamSubscription.receive {M T : Type} (sub : grpcServerStreamSubscription M T) :
    Option GoError × grpcServerStreamSubscription M T :=
  if sub.cache.length > 0 then (none, sub)
  else
    match grpcServerStreamSubscription.receiveLoop sub.convert sub.final sub.incoming sub.cache with
    | (err, cache, rest) => (err, { sub with cache := cache, incoming := rest })

/-- The method `Receive`: the event (`none` is the zero value that goes with an error), the
error, and the subscription afterwards. The event is `cache[len(cache)-1]`, and the cache is
cut to `cache[:len(cache)-1]`. -/
def grpcServerStreamSubscription.Receive {M T : Type} (sub : grpcServerStreamSubscription M T) :
    Option T × Option GoError × grpcServerStreamSubscription M T :=
  match sub.receive with
  | (some err, sub1) => (none, some err, sub1)
  | (none, sub1) => (sub1.cache.getLast?, none, { sub1 with cache := sub1.cache.dropLast })

/-- The events of `n` successive calls of `Receive`; a failing call ends the list. -/
def grpcServerStreamSubscription.receiveMany {M T : Type} :
    Nat → grpcServerStreamSubscription M T → List T
  | 0, _ => []
  | n + 1, sub =>
    match sub.Receive with
    | (some event, none, sub1) => event :: grpcServerStreamSubscription.receiveMany n sub1
    | _ => []

/-- The message `TransferEvent` of the package `telemetry_pb`: the two times and the byte
count are `uint64` values. -/
structure telemetry_pb.TransferEvent where
  ConnectionId : String
  StartedAt : Nat
  FinishedAt : Nat
  BytesCount : Nat
  deriving DecidableEq, Repr

/-- The conversion `int64(x)` of a `uint64`: values from `2^63` on wrap to negative ones. -/
def int64OfUint64 (x : Nat) : Int :=
  if x % 2 ^ 64 < 2 ^ 63 then ((x % 2 ^ 64 : Nat) : Int) else ((x % 2 ^ 64 : Nat) : Int) - 2 ^ 64

/-- The conversion of a transfer response in `grpcTransferSubscriber.Subscribe`: one event for
each event of the response, in place, with the times `time.Unix(0, int64(x))` kept as their
count of nanoseconds. -/
def grpcTransferSubscriber.convert (resp : List telemetry_pb.TransferEvent) :
    Except GoError (List TransferEvent) :=
  .ok (resp.map fun event =>
    { ConnectionId := event.ConnectionId, StartedAt := int64OfUint64 event.StartedAt,
      FinishedAt := int64OfUint64 event.FinishedAt, BytesCount := event.BytesCount })

/-! ## The hub's `multiPublisher` -/

/-- A downstream `common.Publisher`: the error its `Publish` returns for an event, and the
events handed to it so far. -/
structure Publisher (T : Type) where
  result : T → Option GoError
  got : List T

/-- One call of `Publish` on a downstream publisher. -/
def Publisher.Publish {T : Type} (p : Publisher T) (event : T) :
    Option GoError × Publisher T :=
  (p.result event, { p with got := p.got ++ [event] })

/-- The struct `multiPublisher`, with the record `calls` of the positions of the downstream
publishers in the order in which `Publish` was called on them. -/
structure multiPublisher (T : Type) where
  publishers : List (Publisher T)
  calls : List Nat

/-- The method `register`. -/
def multiPublisher.register {T : Type} (m : multiPublisher T) (pub : Publisher T) :
    multiPublisher T :=
  { m with publishers := m.publishers ++ [pub] }

/-- The value `&multiPublisher[T]{}` that `newMultiTelemetryPublisher` builds: no downstream
is registered and nothing was called. -/
def newMultiPublisher (T : Type) : multiPublisher T :=
  { publishers := [], calls := [] }

/-- The function `errors.Join`: nil when every error is nil, else the error that holds the
errors that are not nil, in order. -/
def errors.Join (errs : List (Option GoError)) : Option (List GoError) :=
  if errs.filterMap id = [] then none else some (errs.filterMap id)

/-- The loop of `multiPublisher.Publish` from position `i` on: the errors `errs[i..]`, the
downstream publishers afterwards and the positions called. -/
def multiPublisher.publishLoop {T : Type} (event : T) :
    List (Publisher T) → Nat → List (Option GoError) × List (Publisher T) × List Nat
  | [], _ => ([], [], [])
  | next :: rest, i =>
    match next.Publish event with
    | (err, next1) =>
      match multiPublisher.publishLoop event rest (i + 1) with
      | (errs, rest1, calls) => (err :: errs, next1 :: rest1, i :: calls)

/-- The method `multiPublisher.Publish`. -/
def multiPublisher.Publish {T : Type} (m : multiPublisher T) (event : T) :
    Option (List GoError) × multiPublisher T :=
  match multiPublisher.publishLoop event m.publishers 0 with
  | (errs, publishers, calls) =>
    (errors.Join errs, { publishers := publishers, calls := m.calls ++ calls })

/-! ## The shared-secret interceptors -/

def codes.Unauthenticated : Nat := 16

/-- The type `metadata.MD`, a map from keys to lists of values. -/
abbrev metadata.MD := List (String × List String)

/-- The function `metadata.AppendToOutgoingContext` for one key and one value. -/
def metadata.Append : metadata.MD → String → String → metadata.MD
  | [], key, value => [(key, [value])]
  | (k, vs) :: rest, key, value =>
    if k = key then (k, vs ++ [value]) :: rest else (k, vs) :: metadata.Append rest key value

/-- The search of `strings.Cut` for a separator of one character: the characters before its
first occurrence and those after it. -/
def strings.cutChars (sep : Char) : List Char → Option (List Char × List Char)
  | [] => none
  | c :: cs =>
    if c = sep then some ([], cs)
    else
      match strings.cutChars sep cs with
      | some (before, after) => some (c :: before, after)
      | none => none

/-- The function `strings.Cut` for a separator of one character. -/
def strings.Cut (s : String) (sep : Char) : String × String × Bool :=
  match strings.cutChars sep s.toList with
  | some (before, after) => (String.mk before, String.mk after, true)
  | none => (s, "", false)

/-- The function `strings.ToLower` on the ASCII letters; other characters stay. Outside ASCII
only the Kelvin sign and the dotted capital I have an ASCII lower case, `k` and `i`, so the
comparison with `bearer` below is the one of the source. -/
def strings.ToLower (s : String) : String := String.mk (s.toList.map Char.toLower)

/-- What one call of the server interceptor comes to: the error it returns and how often it
called the handler. -/
structure InterceptRun where
  err : Option GoError
  handlerCalls : Nat
  deriving DecidableEq, Repr

/-- The interceptor of `NewServerInterceptor(logger, secret)` on a stream whose context has the
incoming metadata `md` (`none` when it has none); `handler` is the error of the wrapped
handler. -/
def NewServerInterceptor (secret : String) (md : Option metadata.MD)
    (handler : Option GoError) : InterceptRun :=
  match md with
  | none => ⟨some (.status codes.Unauthenticated "missing metadata"), 0⟩
  | some md =>
    match md.lookup "authorization" with
    | none => ⟨some (.status codes.Unauthenticated "missing authorization header"), 0⟩
    | some [] => ⟨some (.status codes.Unauthenticated "missing authorization token"), 0⟩
    | some (first :: _) =>
      match strings.Cut first ' ' with
      | (bearer, token, found) =>
        if !found || strings.ToLower bearer != "bearer" then
          ⟨some (.status codes.Unauthenticated "invalid authorization header"), 0⟩
        else if token != secret then
          ⟨some (.status codes.Unauthenticated "invalid token"), 0⟩
        else ⟨handler, 1⟩

/-- The interceptor of `NewClientInterceptor(token)`: the outgoing metadata with which it calls
the streamer. -/
def NewClientInterceptor (token : String) (outgoing : metadata.MD) : metadata.MD :=
  metadata.Append outgoing "authorization" ("bearer " ++ token)

/-! ## Telemetry-wrapped connections: `emitWriter` and `emitReader` -/

/-- The constant `batchSize`. -/
def batchSize : Nat := 32 * 1024

/-- The function `chunk`: `items[begin:end]`, or nil when that range is empty. The indexes are
natural numbers, as the callers pass `i` and `i + batchSize` with `i` not negative. -/
def chunk {α : Type} (items : List α) (start stop : Nat) : List α :=
  let begin := max 0 start
  let end_ := min items.length stop
  if begin ≥ end_ then [] else (items.take end_).drop begin

/-- The struct `emitWriter`: the writer behind it, and the byte counts passed to `emit` so far,
oldest first. The two clock readings of an event are left out. -/
structure emitWriter where
  next : Writer
  emitted : List Nat
  deriving DecidableEq, Repr

/-- What `emitWriter.Write` returns, with the writer afterwards. -/
structure EmitWrite where
  n : Nat
  err : Option GoError
  w : emitWriter
  deriving DecidableEq, Repr

/-- The loop of `emitWriter.Write` from the index `i` on; `m` is the running byte count. -/
def emitWriter.writeLoop (dst : Bytes) : Nat → Nat → Nat → emitWriter → Option EmitWrite
  | 0, i, m, w => if i < dst.length then none else some ⟨m, none, w⟩
  | fuel + 1, i, m, w =>
    if i < dst.length then
      match w.next.Write (chunk dst i (i + batchSize)) with
      | (n, err, next1) =>
        let w1 : emitWriter := { next := next1, emitted := w.emitted ++ [n] }
        let m1 := m + n
        if err.isSome then some ⟨m1, err, w1⟩
        else emitWriter.writeLoop dst fuel (i + batchSize) m1 w1
    else some ⟨m, none, w⟩

/-- The method `emitWriter.Write`. The loop makes at most `len(dst)` passes, as `batchSize` is
positive. -/
def emitWriter.Write (w : emitWriter) (dst : Bytes) : Option EmitWrite :=
  emitWriter.writeLoop dst dst.length 0 0 w

/-- The struct `emitReader`: the reader behind it, and the byte counts passed to `emit` so far,
oldest first. -/
structure emitReader where
  next : Reader
  emitted : List Nat
  deriving DecidableEq, Repr

/-- What `emitReader.Read` returns, with `dst` and the reader afterwards. -/
structure EmitRead where
  n : Nat
  err : Option GoError
  dst : Bytes
  r : emitReader
  deriving DecidableEq, Repr

/-- The loop of `emitReader.Read` from the index `i` on; `m` is the running byte count. The
reader behind it fills the start of the slice `chunk(dst, i, i+batchSize)`, which is `dst` from
index `i` on. -/
def emitReader.readLoop : Nat → Nat → Nat → Bytes → emitReader → Option EmitRead
  | 0, i, m, dst, r => if i < dst.length then none else some ⟨m, none, dst, r⟩
  | fuel + 1, i, m, dst, r =>
    if i < dst.length then
      match r.next.Read (chunk dst i (i + batchSize)).length with
      | (got, err, next1) =>
        let dst1 := dst.take i ++ got ++ dst.drop (i + got.length)
        let r1 : emitReader := { next := next1, emitted := r.emitted ++ [got.length] }
        let m1 := m + got.length
        if err.isSome then some ⟨m1, err, dst1, r1⟩
        else emitReader.readLoop fuel (i + batchSize) m1 dst1 r1
    else some ⟨m, none, dst, r⟩

/-- The method `emitReader.Read`. -/
def emitReader.Read (r : emitReader) (dst : Bytes) : Option EmitRead :=
  emitReader.readLoop dst.length 0 0 dst r

/-! ## The broadcaster and its subscriptions -/

/-- A subscriber channel, made by `Subscribe` as `make(chan T, size)`: its place `id` in the
list of the channels made so far (which stands for the channel value), the events it buffers,
its capacity, whether it is closed, and whether the loop holds it in its map `subscribers`. -/
structure SubChan (T : Type) where
  id : Nat
  buf : List T
  cap : Nat
  closed : Bool
  registered : Bool
  deriving DecidableEq, Repr

/-- The struct `Broadcaster` together with what its goroutine and its callers hold: whether
the mutex `isRunning` is locked, the values buffered in the channels `publish`, `subscribe`
and `unsubscribe` with their common capacity, the subscriber channels made so far, whether the
context of `Start` is done, and the panic that ended the goroutine, if any. -/
structure Broadcaster (T : Type) where
  isRunning : Bool
  publish : List T
  subscribe : List Nat
  unsubscribe : List Nat
  queueSize : Nat
  subscriberChannelSize : Nat
  chans : List (SubChan T)
  done : Bool
  panicked : Option String
  deriving DecidableEq, Repr

/-- The function `NewBroadcaster`. -/
def NewBroadcaster (T : Type) : Broadcaster T :=
  { isRunning := false, publish := [], subscribe := [], unsubscribe := [], queueSize := 10,
    subscriberChannelSize := 10, chans := [], done := false, panicked := none }

/-- How a call that may wait on a channel ends: it returns, or it waits for room. -/
inductive Call (α : Type) where
  | returned (value : α)
  | blocked
  deriving DecidableEq, Repr

/-- The method `ensureIsRunning`: nil when `TryLock` fails, that is when the mutex is held. -/
def Broadcaster.ensureIsRunning {T : Type} (b : Broadcaster T) : Option GoError :=
  if b.isRunning then none else some (.plain "broadcaster is not started")

/-- The method `Start` up to the launch of the goroutine, which keeps the mutex. -/
def Broadcaster.Start {T : Type} (b : Broadcaster T) : Option GoError × Broadcaster T :=
  if b.isRunning then (some (.plain "broadcaster is already started"), b)
  else (none, { b with isRunning := true })

/-- The method `Publish`. -/
def Broadcaster.Publish {T : Type} (b : Broadcaster T) (value : T) :
    Call (Option GoError) × Broadcaster T :=
  match b.ensureIsRunning with
  | some err => (.returned (some err), b)
  | none =>
    if b.publish.length < b.queueSize then
      (.returned none, { b with publish := b.publish ++ [value] })
    else (.blocked, b)

/-- The method `Subscribe`: the id of the channel of the subscription and the error. -/
def Broadcaster.Subscribe {T : Type} (b : Broadcaster T) :
    Call (Option Nat × Option GoError) × Broadcaster T :=
  match b.ensureIsRunning with
  | some err => (.returned (none, some err), b)
  | none =>
    let ch : SubChan T :=
      { id := b.chans.length, buf := [], cap := b.subscriberChannelSize, closed := false,
        registered := false }
    if b.subscribe.length < b.queueSize then
      (.returned (some ch.id, none),
        { b with chans := b.chans ++ [ch], subscribe := b.subscribe ++ [ch.id] })
    else (.blocked, b)

/-- The method `subscription.Close`, which runs `onClose`: the channel goes to `unsubscribe`. -/
def subscription.Close {T : Type} (b : Broadcaster T) (id : Nat) :
    Call Unit × Broadcaster T :=
  if b.unsubscribe.length < b.queueSize then
    (.returned (), { b with unsubscribe := b.unsubscribe ++ [id] })
  else (.blocked, b)

/-- The send `select { case ch <- value: default: }` of the closure `publish` on an open
channel. -/
def SubChan.offer {T : Type} (c : SubChan T) (value : T) : SubChan T :=
  if c.buf.length < c.cap then { c with buf := c.buf ++ [value] } else c

/-- The cases of the `select` in the loop of the goroutine. -/
inductive LoopCase where
  | ctxDone
  | publish
  | subscribe
  | unsubscribe
  deriving DecidableEq, Repr

/-- One pass of the loop of the goroutine through the given case of its `select`; `none` when
that case is not ready or no goroutine is running. A close of a closed channel and a send on
a closed channel panic. No case leaves the loop. -/
def Broadcaster.loopPass {T : Type} (b : Broadcaster T) (c : LoopCase) :
    Option (Broadcaster T) :=
  if !b.isRunning || b.panicked.isSome then none
  else
    match c with
    | .ctxDone =>
      if !b.done then none
      else if b.chans.any (fun ch => ch.registered && ch.closed) then
        some { b with panicked := some "close of closed channel" }
      else
        some { b with chans := b.chans.map fun ch =>
          if ch.registered then { ch with closed := true } else ch }
    | .publish =>
      match b.publish with
      | [] => none
      | value :: rest =>
        if b.chans.any (fun ch => ch.registered && ch.closed) then
          some { b with publish := rest, panicked := some "send on closed channel" }
        else
          some { b with publish := rest, chans := b.chans.map fun ch =>
            if ch.registered then ch.offer value else ch }
    | .subscribe =>
      match b.subscribe with
      | [] => none
      | id :: rest =>
        some { b with subscribe := rest, chans := b.chans.map fun ch =>
          if ch.id = id then { ch with registered := true } else ch }
    | .unsubscribe =>
      match b.unsubscribe with
      | [] => none
      | id :: rest =>
        if b.chans.any (fun ch => ch.id = id && ch.closed) then
          some { b with unsubscribe := rest, panicked := some "close of closed channel" }
        else
          some { b with unsubscribe := rest, chans := b.chans.map fun ch =>
            if ch.id = id then { ch with registered := false, closed := true } else ch }

/-- The method `subscription.Receive` on the channel `ch`. `ctxErr` is `ctx.Err()` of the
context of the subscription (`none` while it is not done); `preferCtx` says which case the
`select` takes when both are ready. The event `none` is the zero value of `T`. -/
def subscription.Receive {T : Type} (ctxErr : Option GoError) (ch : SubChan T)
    (preferCtx : Bool) : Call (Option T × Option GoError) × SubChan T :=
  let fromChannel : Call (Option T × Option GoError) × SubChan T :=
    match ch.buf with
    | t :: rest => (.returned (some t, none), { ch with buf := rest })
    | [] => if ch.closed then (.returned (none, none), ch) else (.blocked, ch)
  match ctxErr with
  | none => fromChannel
  | some err =>
    if preferCtx || (ch.buf.isEmpty && !ch.closed) then (.returned (none, some err), ch)
    else fromChannel

/-- What happens around a broadcaster, one step at a time. -/
inductive Action (T : Type) where
  | start
  | cancel
  | publish (value : T)
  | subscribe
  | close (id : Nat)
  | loop (c : LoopCase)
  deriving DecidableEq, Repr

/-- One step; a call that waits and a loop case that is not ready leave the state as it is. -/
def Broadcaster.step {T : Type} (b : Broadcaster T) : Action T → Broadcaster T
  | .start => b.Start.2
  | .cancel => { b with done := true }
  | .publish value => (b.Publish value).2
  | .subscribe => b.Subscribe.2
  | .close id => (subscription.Close b id).2
  | .loop c => (b.loopPass c).getD b

/-- The state after a list of steps. -/
def Broadcaster.run {T : Type} (b : Broadcaster T) (steps : List (Action T)) : Broadcaster T :=
  steps.foldl Broadcaster.step b

/-- What a subscriber channel sees: an event offered by the fan-out, or a `Receive` of its
subscription. -/
inductive ChanOp (T : Type) where
  | offer (value : T)
  | take
  deriving DecidableEq, Repr

/-- The events offered by a list of operations, in order. -/
def ChanOp.offered {T : Type} : List (ChanOp T) → List T
  | [] => []
  | .offer value :: ops => value :: ChanOp.offered ops
  | .take :: ops => ChanOp.offered ops

/-- The events that the `Receive` calls among the operations return, and the channel
afterwards. The context of the subscription is not done. -/
def SubChan.runOps {T : Type} : SubChan T → List (ChanOp T) → List T × SubChan T
  | c, [] => ([], c)
  | c, .offer value :: ops => SubChan.runOps (c.offer value) ops
  | c, .take :: ops =>
    match subscription.Receive none c false with
    | (.returned (some t, _), c1) =>
      match SubChan.runOps c1 ops with
      | (received, c2) => (t :: received, c2)
    | (_, c1) => SubChan.runOps c1 ops

/-- Whether the buffer of the channel is empty each time an event is offered. -/
def SubChan.drained {T : Type} : SubChan T → List (ChanOp T) → Bool
  | _, [] => true
  | c, .offer value :: ops => c.buf.isEmpty && SubChan.drained (c.offer value) ops
  | c, .take :: ops => SubChan.drained (subscription.Receive none c false).2 ops

/-! ## The duplex engine -/

/-- Where a call of `Duplex` and its two `simplex` goroutines stand: whether each goroutine has
exited, whether the context passed to `Duplex` is done, whether the context derived from it
by `context.WithCancel` is done, and whether `Duplex` has returned. -/
structure DuplexState where
  exited1 : Bool
  exited2 : Bool
  parentDone : Bool
  ctxDone : Bool
  returned : Bool
  deriving DecidableEq, Repr

/-- What can happen next: the `io.Copy` of one of the goroutines returns, the context passed to
`Duplex` is cancelled, or the receive `<-ctx.Done()` of `Duplex` completes. -/
inductive DuplexStep where
  | copyEnds1
  | copyEnds2
  | parentCancel
  | wake
  deriving DecidableEq, Repr

/-- The state of `Duplex` once both goroutines are launched; the derived context is done from
the start when the context passed in is. -/
def Duplex.start (parentDone : Bool) : DuplexState :=
  { exited1 := false, exited2 := false, parentDone := parentDone, ctxDone := parentDone,
    returned := false }

/-- One step; `none` when the step cannot happen in the state. A `simplex` goroutine whose
`io.Copy` returns runs its deferred `cancel()` and exits; `Duplex` returns when its receive on
`ctx.Done()` completes, which takes a done context. -/
def Duplex.step (s : DuplexState) : DuplexStep → Option DuplexState
  | .copyEnds1 => if s.exited1 then none else some { s with exited1 := true, ctxDone := true }
  | .copyEnds2 => if s.exited2 then none else some { s with exited2 := true, ctxDone := true }
  | .parentCancel =>
    if s.parentDone then none else some { s with parentDone := true, ctxDone := true }
  | .wake => if s.ctxDone && !s.returned then some { s with returned := true } else none

/-- The state after a list of steps, if they can happen in that order. -/
def Duplex.run : DuplexState → List DuplexStep → Option DuplexState
  | s, [] => some s
  | s, st :: rest =>
    match Duplex.step s st with
    | none => none
    | some s1 => Duplex.run s1 rest

/-! ## Sessions of a running broadcaster with its subscribers -/

/-- What happens next around a running broadcaster: a call `Publish(value)`, a pass of the loop
through its `publish` case, or a call of `Receive` on the subscription whose channel stands at
the place `id` of `chans`. -/
inductive Round (T : Type) where
  | publish (value : T)
  | pass
  | receive (id : Nat)
  deriving DecidableEq, Repr

/-- A broadcaster together with two records: the events whose `Publish` call returned nil, and
the events that `Receive` calls have returned, each with the place of the channel of its
subscription; both oldest first. -/
structure Session (T : Type) where
  b : Broadcaster T
  published : List T
  got : List (Nat × T)
  deriving DecidableEq, Repr

/-- A call of `Receive` on the subscription of the channel at place `id`, whose context is not
done. A call that waits, and one that returns the zero value from a closed channel, leave the
session as it is. -/
def Session.receive {T : Type} (s : Session T) (id : Nat) : Session T :=
  match s.b.chans[id]? with
  | none => s
  | some ch =>
    match subscription.Receive none ch false with
    | (.returned (some t, _), ch1) =>
      { s with b := { s.b with chans := s.b.chans.set id ch1 }, got := s.got ++ [(id, t)] }
    | _ => s

/-- One round of a session. A call of `Publish` that waits for room in the channel `publish`
has not published. -/
def Session.round {T : Type} (s : Session T) : Round T → Session T
  | .publish value =>
    match s.b.Publish value with
    | (.returned none, b1) => { s with b := b1, published := s.published ++ [value] }
    | (_, b1) => { s with b := b1 }
  | .pass => { s with b := s.b.step (.loop .publish) }
  | .receive id => s.receive id

/-- The session after a list of rounds. -/
def Session.rounds {T : Type} (s : Session T) (rs : List (Round T)) : Session T :=
  rs.foldl Session.round s

/-- The events that the subscription of the channel at place `id` has received, in order. -/
def Session.receivedBy {T : Type} (s : Session T) (id : Nat) : List T :=
  (s.got.filter (fun p => p.1 == id)).map (fun p => p.2)

/-- Whether a broadcaster is running, with subscriber channels of capacity 10 and no closed
channel in the map of the loop. -/
def Broadcaster.ready {T : Type} (b : Broadcaster T) : Bool :=
  b.isRunning && b.panicked.isNone &&
    b.chans.all (fun ch => ch.cap == 10 && !(ch.registered && ch.closed))

/-- Whether the buffer of the channel at place `id` is empty each time a pass of the loop
takes an event from the channel `publish`. -/
def Session.drains {T : Type} (id : Nat) : Session T → List (Round T) → Bool
  | _, [] => true
  | s, r :: rs =>
    (match r with
      | .pass =>
        s.b.publish.isEmpty ||
          (match s.b.chans[id]? with
            | some ch => ch.buf.isEmpty
            | none => true)
      | _ => true) && Session.drains id (s.round r) rs

/-- What a list of rounds is for the registered channel at place `id`, when `queue` is what
the channel `publish` of capacity `size` holds: an offer for each pass that finds an event
there, and a take for each `Receive` on the channel. -/
def Round.opsFor {T : Type} (id : Nat) (size : Nat) :
    List T → List (Round T) → List (ChanOp T)
  | _, [] => []
  | queue, r :: rs =>
    match r with
    | .publish value =>
      if queue.length < size then Round.opsFor id size (queue ++ [value]) rs
      else Round.opsFor id size queue rs
    | .pass =>
      match queue with
      | [] => Round.opsFor id size [] rs
      | value :: rest => .offer value :: Round.opsFor id size rest rs
    | .receive j =>
      if j = id then .take :: Round.opsFor id size queue rs
      else Round.opsFor id size queue rs

/-! ## Inputs of the worked examples -/

/-- A stream on which nothing has happened yet: it will deliver `frames` and then answer
`final`, and its sends succeed. -/
def streamOf (kind : StreamKind) (frames : List Bytes) (final : GoError) : BidiStream :=
  { kind := kind, incoming := frames.map .data, final := final, sendResults := [], sent := [],
    sendCalls := 0, recvCalls := 0, closeSendResult := none, closeSendCalls := 0 }

/-- A server-side connection in the middle of a frame: `[1, 2]` of the held payload is still to
be handed out, the frames `[]`, `[3]` and `[4, 5]` are to come, and the stream then ends with
status `Canceled`. -/
def midReadConn : grpcConn :=
  { newServerConn (streamOf .server [[], [3], [4, 5]] (.status codes.Canceled "")) "client"
      32768 with buf := [0, 1, 2], offset := 1 }

/-- A fresh client connection whose `ReadFrom` buffer holds two bytes. -/
def smallBufConn : grpcConn := newClientConn (streamOf .client [] .eof) "target" 2

/-- An outcome-free call environment: dial, accept and id generation succeed. -/
def okEnv : ForwardEnv :=
  { dialErr := none, acceptErr := none, uuidErr := none, connectionId := "id",
    nowOpened := 1, nowDeferred := 2, transfers := [] }

/-- A call environment whose dial fails. -/
def dialFailEnv : ForwardEnv := { okEnv with dialErr := some (.plain "refused") }

/-- A probe call environment whose dial fails on a DNS error. -/
def dnsFailEnv : ProbeEnv := { dialErr := some (.dns "no such host" false), acceptErr := none }


/-- The client stream of the test case `grpc error (Unavailable)`: its first `Recv` fails with
the status `Unavailable`. -/
def unavailableStream : RawStream ForwardRequest ForwardResponse :=
  { incoming := [.fail (.status 14 "unavailable")], final := .eof, sendResults := [], log := [],
    closeSendResult := none }

/-- A client stream on which the probe acknowledges the dial and then sends `hi`. -/
def ackStream : RawStream ForwardRequest ForwardResponse :=
  { incoming := [.msg (.dialResponse .CODE_UNSPECIFIED), .msg (.transferResponse [104, 105])],
    final := .eof, sendResults := [], log := [], closeSendResult := none }

/-- A server stream that delivers `Dial{nope.invalid:80}` and on which every send succeeds. -/
def dialNopeStream : RawStream ForwardResponse ForwardRequest :=
  { incoming := [.msg (.dialRequest "nope.invalid:80")], final := .eof, sendResults := [],
    log := [], closeSendResult := none }

/-- A server stream that delivers `Dial{example.com:443}` and on which the first send fails. -/
def brokenAckStream : RawStream ForwardResponse ForwardRequest :=
  { incoming := [.msg (.dialRequest "example.com:443")], final := .eof,
    sendResults := [some (.plain "broken pipe")], log := [], closeSendResult := none }

/-- A downstream publisher whose `Publish` always fails. -/
def failingPublisher : Publisher Nat :=
  { result := fun _ => some (.plain "subscriber gone"), got := [] }

/-- A downstream publisher whose `Publish` always succeeds. -/
def quietPublisher : Publisher Nat := { result := fun _ => none, got := [] }

/-- A server stream whose first `Recv` fails with the status `Unavailable`. -/
def recvFailStream : RawStream ForwardResponse ForwardRequest :=
  { incoming := [.fail (.status 14 "unavailable")], final := .eof, sendResults := [], log := [],
    closeSendResult := none }

/-- A server stream that delivers `Dial{example.com:443}` and on which every send succeeds. -/
def dialExampleStream : RawStream ForwardResponse ForwardRequest :=
  { incoming := [.msg (.dialRequest "example.com:443")], final := .eof, sendResults := [],
    log := [], closeSendResult := none }

/-- A call environment in which everything succeeds and the splice publishes one transfer that
finishes at clock `5`, after the clock readings `1` and `2` taken before the splice. -/
def lateTransferEnv : ForwardEnv :=
  { okEnv with
    transfers := [{ ConnectionId := "id", StartedAt := 3, FinishedAt := 5, BytesCount := 10 }] }

/-- A call environment in which dial and accept succeed and the connection id cannot be
drawn. -/
def uuidFailEnv : ForwardEnv := { okEnv with uuidErr := some (.plain "entropy exhausted") }

/-- A client stream on which the probe answers the dial with the code `7`, which is none of the
three defined ones. -/
def unknownCodeStream : RawStream ForwardRequest ForwardResponse :=
  { incoming := [.msg (.dialResponse (.other 7))], final := .eof, sendResults := [], log := [],
    closeSendResult := none }

/-- A transfer event of the connection `c` with the byte count `n`. -/
def transferOf (n : Nat) : telemetry_pb.TransferEvent :=
  { ConnectionId := "c", StartedAt := 0, FinishedAt := 1, BytesCount := n }

/-- A transfer subscription whose stream delivers one response with three events, then one with
none, then one with one event. -/
def threeEventSubscription :
    grpcServerStreamSubscription (List telemetry_pb.TransferEvent) TransferEvent :=
  { incoming := [.msg [transferOf 1, transferOf 2, transferOf 3], .msg [], .msg [transferOf 4]],
    final := .eof, convert := grpcTransferSubscriber.convert, cache := [] }

/-- An `emitReader` around a reader that delivers the byte 1 and then the byte 2, one byte for
each read. -/
def byteByByteReader : emitReader :=
  { next := { data := [1, 2], caps := [1, 1], final := .eof, eager := false }, emitted := [] }

/-- A started broadcaster with one registered subscriber, after the context of `Start` was
cancelled and the loop went once through its `ctx.Done()` case. -/
def cancelledBroadcaster : Broadcaster Nat :=
  (NewBroadcaster Nat).run [.start, .subscribe, .loop .subscribe, .cancel, .loop .ctxDone]

/-- A started broadcaster without subscribers, after the context of `Start` was cancelled and
the loop went twice through its `ctx.Done()` case. -/
def idleCancelledBroadcaster : Broadcaster Nat :=
  (NewBroadcaster Nat).run [.start, .cancel, .loop .ctxDone, .loop .ctxDone]

/-- A started broadcaster with one registered subscriber whose subscription was closed, after
the loop went through its `unsubscribe` case. -/
def unsubscribedBroadcaster : Broadcaster Nat :=
  (NewBroadcaster Nat).run [.start, .subscribe, .loop .subscribe, .close 0, .loop .unsubscribe]


/-- A broadcaster made by `NewBroadcaster` and started, with two registered subscribers. -/
def twoSubscribers : Broadcaster Nat :=
  (NewBroadcaster Nat).run
    [.start, .subscribe, .loop .subscribe, .subscribe, .loop .subscribe]

/-- Six times over: two events are published, then the loop passes twice and the first
subscriber calls `Receive` after each pass. The events are 0 to 11. -/
def fastAndSlow : List (Round Nat) :=
  ((List.range 6).map fun k =>
    [Round.publish (2 * k), Round.publish (2 * k + 1), Round.pass, Round.receive 0,
      Round.pass, Round.receive 0]).flatten

/-! ## Theorems: hub dispatch and the dial-before-accept order -/

/-- The cursor after a call of `forward` at cursor `s` in a pool of `P` probes. -/
theorem Core.forward_some {δ : Type} (core : Core δ) (env : ForwardEnv) (target : String)
    (h : core.next < core.probes.length) :
    ∃ err events, core.forward env target =
        some (err, events,
          { probes := core.probes, next := (core.next + 1) % core.probes.length }) ∧
      events.filter HubEvent.isDial =
        [HubEvent.dial core.next (core.probes.get ⟨core.next, h⟩) target] := by
  have hget : core.probes.get? core.next = some (core.probes.get ⟨core.next, h⟩) :=
    List.get?_eq_get h
  have hnext : (if (core.next : Int) ≥ (core.probes.length : Int) - 1
      then ({ core with next := 0 } : Core δ) else { core with next := core.next + 1 }) =
      { probes := core.probes, next := (core.next + 1) % core.probes.length } := by
    split
    · next hge =>
      have : core.next + 1 = core.probes.length := by omega
      simp [this]
    · next hlt =>
      have : core.next + 1 < core.probes.length := by omega
      simp [Nat.mod_eq_of_lt this]
  unfold Core.forward
  simp only [hget, hnext]
  cases env.dialErr <;> cases env.acceptErr <;> cases env.uuidErr <;>
    refine ⟨_, _, rfl, ?_⟩ <;>
    simp [List.filter_cons, List.filter_append, HubEvent.isDial, List.filter_eq_nil_iff]

/-- Calls made one after another from cursor `s`: call `k` dials index `(s + k) mod P`. -/
theorem Core.forwardMany_from {δ : Type} (probes : List δ)
    (calls : List (ForwardEnv × String)) :
    ∀ s, s < probes.length →
      ∃ outs, Core.forwardMany { probes := probes, next := s } calls = some outs ∧
        outs.length = calls.length ∧
        ∀ k call, calls.get? k = some call →
          ∃ probe out, probes.get? ((s + k) % probes.length) = some probe ∧
            outs.get? k = some out ∧
            out.2.filter HubEvent.isDial =
              [HubEvent.dial ((s + k) % probes.length) probe call.2] := by
  induction calls with
  | nil => intro s _; exact ⟨[], rfl, rfl, by simp⟩
  | cons c rest ih =>
    intro s hs
    obtain ⟨env, target⟩ := c
    obtain ⟨err, events, hfw, hdial⟩ :=
      Core.forward_some { probes := probes, next := s } env target hs
    have hP : 0 < probes.length := by omega
    obtain ⟨outs, hmany, hlen, hk⟩ := ih ((s + 1) % probes.length) (Nat.mod_lt _ hP)
    refine ⟨(err, events) :: outs, ?_, by simp [hlen], ?_⟩
    · simp only [Core.forwardMany, hfw, hmany]
    · intro k call hcall
      cases k with
      | zero =>
        simp only [List.get?_cons_zero, Option.some.injEq] at hcall
        subst hcall
        refine ⟨probes.get ⟨s, hs⟩, (err, events), ?_, rfl, ?_⟩
        · simp [Nat.mod_eq_of_lt hs, List.get?_eq_get hs]
        · simpa [Nat.mod_eq_of_lt hs] using hdial
      | succ j =>
        simp only [List.get?_cons_succ] at hcall
        obtain ⟨probe, out, hp, ho, hd⟩ := hk j call hcall
        have hidx : ((s + 1) % probes.length + j) % probes.length =
            (s + (j + 1)) % probes.length := by
          rw [Nat.add_mod, Nat.mod_mod, ← Nat.add_mod]; congr 1; omega
        rw [hidx] at hp hd
        exact ⟨probe, out, hp, by simpa using ho, hd⟩

/-- C1: on a freshly constructed core over a pool of `P ≥ 1` probes, calls of `forward` made
one after another all return, whatever their dial, accept and id outcomes, and the `k`-th call
dials exactly once, at index `k mod P` (the probe at that place of the pool); with a pool of one
probe that index is always `0`. -/
theorem C1_round_robin_selection {δ : Type} (probes : List δ) (hP : 1 ≤ probes.length)
    (calls : List (ForwardEnv × String)) :
    ∃ core outs, NewCore probes = some core ∧ core.forwardMany calls = some outs ∧
      outs.length = calls.length ∧
      (∀ k call, calls.get? k = some call →
        ∃ probe out, probes.get? (k % probes.length) = some probe ∧
          outs.get? k = some out ∧
          out.2.filter HubEvent.isDial = [HubEvent.dial (k % probes.length) probe call.2]) ∧
      (probes.length = 1 → ∀ out ∈ outs, ∃ probe target,
        out.2.filter HubEvent.isDial = [HubEvent.dial 0 probe target]) := by
  obtain ⟨outs, hmany, hlen, hk⟩ := Core.forwardMany_from probes calls 0 (by omega)
  have hnew : NewCore probes = some { probes := probes, next := 0 } := by
    unfold NewCore
    rw [if_neg (by omega)]
  refine ⟨_, outs, hnew, hmany, hlen, ?_, ?_⟩
  · intro k call hcall
    simpa using hk k call hcall
  · intro h1 out hout
    obtain ⟨⟨k, hklt⟩, hkout⟩ := List.mem_iff_get.mp hout
    have hc : k < calls.length := by omega
    obtain ⟨probe, out2, _, ho, hd⟩ := hk k (calls.get ⟨k, hc⟩) (List.get?_eq_get hc)
    rw [List.get?_eq_get hklt, Option.some.injEq] at ho
    rw [← ho, hkout] at hd
    refine ⟨probe, (calls.get ⟨k, hc⟩).2, ?_⟩
    simpa [h1, Nat.mod_one] using hd

/-- C1 at the pool `[A, B, C]`: four calls, of which the second fails to dial, dial `A`, `B`,
`C`, `A`. -/
theorem C1_round_robin_selection_witness :
    1 ≤ ["A", "B", "C"].length ∧
    (Core.forwardMany { probes := ["A", "B", "C"], next := 0 }
        [(okEnv, "t0"), (dialFailEnv, "t1"), (okEnv, "t2"), (okEnv, "t3")]).map
      (List.map (fun out => out.2.filter HubEvent.isDial)) =
      some [[.dial 0 "A" "t0"], [.dial 1 "B" "t1"], [.dial 2 "C" "t2"], [.dial 0 "A" "t3"]] ∧
    ∃ core outs, NewCore ["A", "B", "C"] = some core ∧
      core.forwardMany [(okEnv, "t0"), (dialFailEnv, "t1"), (okEnv, "t2"), (okEnv, "t3")] =
        some outs ∧ outs.length = 4 :=
  ⟨by decide, by decide,
    (C1_round_robin_selection ["A", "B", "C"] (by decide)
      [(okEnv, "t0"), (dialFailEnv, "t1"), (okEnv, "t2"), (okEnv, "t3")]).elim
      fun core h => h.elim fun outs h => ⟨core, outs, h.1, h.2.1, h.2.2.1⟩⟩

/-- The function `interpretDialError` never turns an error into nil. -/
theorem interpretDialError_isSome (e : GoError) : (interpretDialError (some e)).isSome = true := by
  unfold interpretDialError
  simp only [fault.Wrap]
  split_ifs <;> rfl

/-- C2: in both forwarders (`Core.forward` of the hub on a core whose cursor is inside the
pool, `Service.Forward` of the probe) the call returns; when the dial fails it returns a non-nil
error and never calls `accept`; and whenever `accept` is called, the dial has succeeded, the
dial is the only thing done before it, and `accept` is not called a second time. -/
theorem C2_accept_only_after_successful_dial {δ : Type} (core : Core δ) (env : ForwardEnv)
    (penv : ProbeEnv) (target : String) (h : core.next < core.probes.length) :
    (∃ err events core1, core.forward env target = some (err, events, core1) ∧
      (env.dialErr ≠ none → err ≠ none ∧ HubEvent.accept ∉ events) ∧
      (HubEvent.accept ∈ events → env.dialErr = none ∧
        ∃ idx probe rest, events = .dial idx probe target :: .accept :: rest ∧
          HubEvent.accept ∉ rest)) ∧
    ((penv.dialErr ≠ none →
        (Service.Forward penv target).1 ≠ none ∧
          ProbeEvent.accept ∉ (Service.Forward penv target).2) ∧
      (ProbeEvent.accept ∈ (Service.Forward penv target).2 → penv.dialErr = none ∧
        ∃ rest, (Service.Forward penv target).2 =
            .dialContext "tcp" target :: .accept :: rest ∧
          ProbeEvent.accept ∉ rest)) := by
  constructor
  · have hget : core.probes.get? core.next = some (core.probes.get ⟨core.next, h⟩) :=
      List.get?_eq_get h
    unfold Core.forward
    simp only [hget]
    cases env.dialErr <;> cases env.acceptErr <;> cases env.uuidErr <;>
      refine ⟨_, _, _, rfl, ?_, ?_⟩ <;>
      first
        | (simp; done)
        | (intro _; exact ⟨rfl, _, _, _, rfl, by simp⟩)
  · unfold Service.Forward
    cases hd : penv.dialErr with
    | some e =>
      have := interpretDialError_isSome e
      cases hi : interpretDialError (some e) with
      | none => simp [hi] at this
      | some e2 => simp [hi]
    | none =>
      cases penv.acceptErr <;>
        exact ⟨by simp, fun _ => ⟨rfl, _, rfl, by simp⟩⟩

/-- C2 at a core over two probes with the cursor at `1`, where the hub's dial is refused and
the probe's dial fails on a DNS error: both return the error after the dial alone. -/
theorem C2_accept_only_after_successful_dial_witness :
    (1 < 2) ∧
    Core.forward { probes := ["A", "B"], next := 1 } dialFailEnv "example.com:443" =
      some (some (.plain "refused"), [.dial 1 "B" "example.com:443"],
        { probes := ["A", "B"], next := 0 }) ∧
    Service.Forward dnsFailEnv "example.com:443" =
      (some (.faultWrap .forwardErrorCode "failed to dial" "FAILED_TO_RESOLVE_HOST"
          (.dns "no such host" false)),
        [.dialContext "tcp" "example.com:443"]) ∧
    (dnsFailEnv.dialErr ≠ none →
      (Service.Forward dnsFailEnv "example.com:443").1 ≠ none ∧
        ProbeEvent.accept ∉ (Service.Forward dnsFailEnv "example.com:443").2) :=
  ⟨by decide, by decide, by decide,
    (C2_accept_only_after_successful_dial { probes := ["A", "B"], next := 1 } dialFailEnv
      dnsFailEnv "example.com:443" (by decide)).2.1⟩

/-! ## Theorems: the read side of the adapter -/

/-- A destination no longer than the held payload is filled by `fillSlice`. -/
theorem fillSlice_full (conn : grpcConn) (dst : Bytes) (h : dst.length ≤ conn.held.length) :
    conn.fillSlice dst =
      (dst.length, true, conn.held.take dst.length,
        { conn with offset := conn.offset + dst.length }) := by
  unfold grpcConn.held at h
  have h1 := h
  rw [List.length_drop] at h1
  simp [grpcConn.fillSlice, copy, grpcConn.held, Nat.min_eq_left h1, List.drop_eq_nil_of_le h, h1]

/-- A destination longer than the held payload takes all of it and is not full. -/
theorem fillSlice_short (conn : grpcConn) (dst : Bytes) (h : conn.held.length < dst.length) :
    conn.fillSlice dst =
      (conn.held.length, false, conn.held ++ dst.drop conn.held.length,
        { conn with offset := conn.offset + conn.held.length }) := by
  unfold grpcConn.held at h
  have h2 : (List.drop conn.offset conn.buf).length ≤ dst.length := Nat.le_of_lt h
  have h1 := h
  have h3 := h2
  rw [List.length_drop] at h1 h3
  simp [grpcConn.fillSlice, copy, grpcConn.held, Nat.min_eq_right h3, List.take_of_length_le h2, h1]


/-- The read loop returns without a `Recv` when the held payload fills the destination. -/
theorem readLoop_full (fuel : Nat) (conn : grpcConn) (dst : Bytes) (m : Nat)
    (hm : m ≤ dst.length) (hfull : dst.length - m ≤ conn.held.length) :
    ∃ r, conn.readLoop (fuel + 1) dst m = some r ∧ ReadPost conn dst m r := by
  have h1 : (dst.drop m).length ≤ conn.held.length := by simpa using hfull
  have hp : dst.length - m ≤ conn.pending.length := by
    simp only [grpcConn.pending, List.length_append]; omega
  refine ⟨_, by simp only [grpcConn.readLoop, fillSlice_full conn _ h1]; rfl, ?_⟩
  constructor
  · simp only [List.length_drop]; omega
  · simp only [List.length_drop, grpcConn.pending]
    rw [List.take_append_of_le_length hfull, List.drop_eq_nil_of_le (by simp; omega)]
    simp
  · simp [hp]
  · rfl
  · rfl
  · exact Nat.le_refl _
  · simp only; omega
  · intro _; rfl
  · intro h; exact absurd hp h
  · intro _
    refine ⟨?_, rfl, Nat.le_refl _⟩
    simp only [grpcConn.pending, grpcConn.held, List.length_drop]
    rw [List.drop_append_of_le_length (by simpa [grpcConn.held] using hfull)]
    simp [List.drop_drop, Nat.add_comm]

/-- One turn of the read loop when the held payload does not fill the destination. -/
theorem readLoop_short (fuel : Nat) (conn : grpcConn) (dst : Bytes) (m : Nat)
    (hshort : conn.held.length < dst.length - m) :
    conn.readLoop (fuel + 1) dst m =
      match conn.stream.Recv with
      | (.fail err, s) =>
        some ⟨m + conn.held.length, some err,
          dst.take m ++ (conn.held ++ (dst.drop m).drop conn.held.length),
          { conn with offset := conn.offset + conn.held.length, stream := s }⟩
      | (.data src, s) =>
        grpcConn.readLoop fuel
          { conn with stream := s, buf := src, offset := 0 }
          (dst.take m ++ (conn.held ++ (dst.drop m).drop conn.held.length))
          (m + conn.held.length) := by
  have h1 : conn.held.length < (dst.drop m).length := by simpa using hshort
  simp only [grpcConn.readLoop, fillSlice_short conn _ h1]
  rfl

/-- What the read loop returns, for every script of the stream and enough fuel. -/
theorem readLoop_spec (inc : List RecvResult) :
    ∀ (fuel : Nat) (conn : grpcConn) (dst : Bytes) (m : Nat),
      conn.stream.incoming = inc → (dataPrefix inc).length < fuel → m ≤ dst.length →
      ∃ r, conn.readLoop fuel dst m = some r ∧ ReadPost conn dst m r := by
  induction inc with
  | nil =>
    intro fuel conn dst m hinc hfuel hm
    obtain ⟨f, rfl⟩ : ∃ f, fuel = f + 1 := ⟨fuel - 1, by omega⟩
    by_cases hfull : dst.length - m ≤ conn.held.length
    · exact readLoop_full f conn dst m hm hfull
    · have hshort : conn.held.length < dst.length - m := by omega
      have hpend : conn.pending = conn.held := by simp [grpcConn.pending, hinc, dataPrefix]
      refine ⟨_, by rw [readLoop_short f conn dst m hshort]; (simp only [BidiStream.Recv, hinc]; rfl), ?_⟩
      constructor
      · simp only [hpend]; omega
      · simp only [hpend, List.take_of_length_le (Nat.le_of_lt hshort), List.drop_drop,
          List.append_assoc]
      · simp [hpend, hfull, hinc, firstErr]
      · rfl
      · rfl
      · simp
      · simp
      · intro h; omega
      · intro _; simp [hinc, dataPrefix]
      · intro h; rw [hpend] at h; omega
  | cons x rest ih =>
    intro fuel conn dst m hinc hfuel hm
    obtain ⟨f, rfl⟩ : ∃ f, fuel = f + 1 := ⟨fuel - 1, by omega⟩
    by_cases hfull : dst.length - m ≤ conn.held.length
    · exact readLoop_full f conn dst m hm hfull
    · have hshort : conn.held.length < dst.length - m := by omega
      cases x with
      | fail e =>
        have hpend : conn.pending = conn.held := by simp [grpcConn.pending, hinc, dataPrefix]
        refine ⟨_, by rw [readLoop_short f conn dst m hshort]; simp only [BidiStream.Recv, hinc]; rfl,
          ?_⟩
        constructor
        · simp only [hpend]; omega
        · simp only [hpend, List.take_of_length_le (Nat.le_of_lt hshort), List.drop_drop,
            List.append_assoc]
        · simp [hpend, hfull, hinc, firstErr]
        · rfl
        · rfl
        · simp
        · simp
        · intro h; omega
        · intro _; simp [hinc, dataPrefix]
        · intro h; rw [hpend] at h; omega
      | data src =>
        have hrecv : conn.stream.Recv =
            (.data src, { conn.stream with incoming := rest,
                                           recvCalls := conn.stream.recvCalls + 1 }) := by
          simp only [BidiStream.Recv, hinc]
        have hlen : (dst.take m ++ (conn.held ++ (dst.drop m).drop conn.held.length)).length =
            dst.length := by
          simp only [List.length_append, List.length_take, List.length_drop]; omega
        have hfuel2 : (dataPrefix rest).length < f := by
          simp only [dataPrefix, List.length_cons] at hfuel; omega
        obtain ⟨r, hr, post⟩ := ih f
          { conn with stream := { conn.stream with incoming := rest,
                                                   recvCalls := conn.stream.recvCalls + 1 },
                      buf := src, offset := 0 }
          (dst.take m ++ (conn.held ++ (dst.drop m).drop conn.held.length))
          (m + conn.held.length) rfl hfuel2 (by rw [hlen]; omega)
        refine ⟨r, by rw [readLoop_short f conn dst m hshort, hrecv]; exact hr, ?_⟩
        obtain ⟨p2, hq⟩ : ∃ p2, src ++ (dataPrefix rest).flatten = p2 := ⟨_, rfl⟩
        have hpend : conn.pending = conn.held ++ p2 := by
          rw [← hq]; simp [grpcConn.pending, hinc, dataPrefix]
        have hp2 : ∀ c : grpcConn, c.buf = src → c.offset = 0 → c.stream.incoming = rest →
            c.pending = p2 := by
          intro c h1 h2 h3
          rw [← hq]; simp [grpcConn.pending, grpcConn.held, h1, h2, h3]
        have n_eq := post.n_eq
        have dst_eq := post.dst_eq
        have err_eq := post.err_eq
        have recv_ge := post.recv_ge
        have recv_le := post.recv_le
        have pending_eq := post.pending_eq
        have recv_all := post.recv_all
        have closed_eq := post.closed_eq
        have final_eq := post.final_eq
        rw [hlen, hp2 _ rfl rfl rfl] at n_eq dst_eq err_eq pending_eq recv_all
        clear post hp2 hq
        constructor
        · rw [n_eq, hpend]; simp only [List.length_append]; omega
        · rw [dst_eq, hpend]
          have ht : (dst.take m ++ (conn.held ++ (dst.drop m).drop conn.held.length)).take
              (m + conn.held.length) = dst.take m ++ conn.held := by
            rw [← List.append_assoc, List.take_append_of_le_length (by simp; omega)]
            rw [List.take_of_length_le (by simp)]
          have hd : (dst.take m ++ (conn.held ++ (dst.drop m).drop conn.held.length)).drop
              (m + conn.held.length + p2.length) =
              dst.drop (m + (conn.held ++ p2).length) := by
            rw [← List.append_assoc, List.drop_append_eq_append_drop]
            rw [List.drop_eq_nil_of_le (by simp; omega)]
            simp only [List.nil_append, List.length_append, List.length_take, List.drop_drop]
            congr 1
            omega
          rw [ht, hd, @List.take_append_eq_append_take _ conn.held _ _,
            List.take_of_length_le (Nat.le_of_lt hshort)]
          simp only [List.append_assoc, Nat.sub_add_eq]
        · rw [err_eq, hpend, hinc]
          simp only [List.length_append, firstErr]
          by_cases hc : dst.length - (m + conn.held.length) ≤ p2.length
          · rw [if_pos hc, if_pos (by omega)]
          · rw [if_neg hc, if_neg (by omega)]
        · exact closed_eq
        · exact final_eq
        · simp only at recv_ge; omega
        · simp only [hinc, dataPrefix, List.length_cons] at recv_le ⊢; omega
        · intro h; omega
        · intro h
          rw [hpend] at h
          simp only [List.length_append] at h
          have h4 := recv_all (by omega)
          simp only [hinc, dataPrefix, List.length_cons] at h4 ⊢
          omega
        · intro h
          rw [hpend] at h
          simp only [List.length_append] at h
          obtain ⟨h1, h2, h3⟩ := pending_eq (by omega)
          refine ⟨?_, ?_, ?_⟩
          · rw [h1, hpend, @List.drop_append_eq_append_drop _ conn.held _ _,
              List.drop_eq_nil_of_le (Nat.le_of_lt hshort)]
            simp [Nat.sub_add_eq]
          · rw [h2, hinc]; simp only [firstErr]
          · simp only [hinc, dataPrefix, List.length_cons] at h3 ⊢; omega

/-- A script of data answers only has all its payloads before the first failure. -/
theorem dataPrefix_map_data (frames : List Bytes) :
    dataPrefix (frames.map .data) = frames := by
  induction frames with
  | nil => rfl
  | cons f fs ih => simp [dataPrefix, ih]

/-- After a script of data answers only, the stream answers its final error. -/
theorem firstErr_map_data (final : GoError) (frames : List Bytes) :
    firstErr final (frames.map .data) = final := by
  induction frames with
  | nil => rfl
  | cons f fs ih => simp [firstErr, ih]

/-- What `Read` returns on an open connection, for every script of the stream. -/
theorem Read_spec (fuel : Nat) (conn : grpcConn) (dst : Bytes) (hopen : conn.closed = false)
    (hfuel : (dataPrefix conn.stream.incoming).length < fuel) :
    ∃ r, conn.Read fuel dst = some r ∧ ReadPost conn dst 0 r := by
  obtain ⟨r, hr, post⟩ := readLoop_spec conn.stream.incoming fuel conn dst 0 rfl hfuel
    (Nat.zero_le _)
  exact ⟨r, by simp [grpcConn.Read, hopen, hr], post⟩

/-- C4: on a fresh connection (client or server side) whose stream delivers the data frames
`frames`, some of them possibly empty, and then `io.EOF`, one `Read` into a buffer strictly
longer than the total payload `T` returns `(T, io.EOF)`, leaves `dst[:T]` equal to the
concatenation of the frames and `dst[T:]` as it was; it receives every frame, the empty ones
included, before the end of the stream is reported. -/
theorem C4_single_read_drains_to_eof (s : BidiStream) (name : String) (size fuel : Nat)
    (frames : List Bytes) (dst : Bytes)
    (hinc : s.incoming = frames.map .data) (hfinal : s.final = .eof)
    (hdst : frames.flatten.length < dst.length) (hfuel : frames.length < fuel) :
    ∀ conn ∈ [newClientConn s name size, newServerConn s name size],
      ∃ r, conn.Read fuel dst = some r ∧
        r.n = frames.flatten.length ∧ r.err = some .eof ∧
        r.dst.take frames.flatten.length = frames.flatten ∧
        r.dst.drop frames.flatten.length = dst.drop frames.flatten.length ∧
        r.dst.length = dst.length ∧
        r.conn.stream.recvCalls = s.recvCalls + frames.length + 1 := by
  have key : ∀ conn : grpcConn, conn.closed = false → conn.buf = [] →
      conn.stream.incoming = frames.map .data → conn.stream.final = .eof →
      conn.stream.recvCalls = s.recvCalls →
      ∃ r, conn.Read fuel dst = some r ∧
        r.n = frames.flatten.length ∧ r.err = some .eof ∧
        r.dst.take frames.flatten.length = frames.flatten ∧
        r.dst.drop frames.flatten.length = dst.drop frames.flatten.length ∧
        r.dst.length = dst.length ∧
        r.conn.stream.recvCalls = s.recvCalls + frames.length + 1 := by
    intro conn hopen hbuf hci hcf hrc
    have hpend : conn.pending = frames.flatten := by
      simp [grpcConn.pending, grpcConn.held, hbuf, hci, dataPrefix_map_data]
    obtain ⟨r, hr, post⟩ := Read_spec fuel conn dst hopen
      (by rw [hci, dataPrefix_map_data]; exact hfuel)
    have hnot : ¬ dst.length - 0 ≤ conn.pending.length := by rw [hpend]; omega
    have hrecv := post.recv_all hnot
    rw [hci, dataPrefix_map_data, hrc] at hrecv
    have herr := post.err_eq
    rw [if_neg hnot, hci, firstErr_map_data, hcf] at herr
    generalize frames.flatten = c at hdst hpend ⊢
    refine ⟨r, hr, ?_, herr, ?_, ?_, ?_, hrecv⟩
    · rw [post.n_eq, hpend]; omega
    · rw [post.dst_eq, hpend]
      simp [List.take_of_length_le (Nat.le_of_lt hdst)]
    · rw [post.dst_eq, hpend]
      simp [List.take_of_length_le (Nat.le_of_lt hdst)]
    · rw [post.dst_eq, hpend]
      simp [List.take_of_length_le (Nat.le_of_lt hdst)]
      omega
  intro conn hconn
  simp only [List.mem_cons, List.mem_singleton, List.mem_nil_iff, or_false] at hconn
  rcases hconn with rfl | rfl
  · exact key _ rfl rfl hinc hfinal rfl
  · exact key _ rfl rfl hinc hfinal rfl


/-- Reads made one after another whose buffers together exceed what the connection can hand
out return exactly that, and end on the first error of the stream. -/
theorem readAll_spec (fuel : Nat) (sizes : List Nat) :
    ∀ conn : grpcConn, conn.closed = false →
      (dataPrefix conn.stream.incoming).length < fuel →
      conn.pending.length < sizes.sum →
      conn.readAll fuel sizes =
        some (conn.pending, some (firstErr conn.stream.final conn.stream.incoming)) := by
  induction sizes with
  | nil => intro conn _ _ h; simp at h
  | cons size rest ih =>
    intro conn hopen hfuel hsum
    obtain ⟨r, hr, post⟩ := Read_spec fuel conn (List.replicate size 0) hopen hfuel
    have n_eq := post.n_eq
    have dst_eq := post.dst_eq
    have err_eq := post.err_eq
    have pending_eq := post.pending_eq
    simp only [List.length_replicate, Nat.sub_zero, List.take_zero, List.nil_append,
      Nat.zero_add] at n_eq dst_eq err_eq pending_eq
    have htake : r.dst.take r.n = conn.pending.take size := by
      rw [dst_eq, n_eq]
      by_cases hc : size ≤ conn.pending.length
      · rw [Nat.min_eq_left hc, List.take_append_of_le_length (by simp [hc])]
        simp
      · rw [Nat.min_eq_right (by omega), List.take_of_length_le (l := conn.pending) (by omega),
          List.take_append_of_le_length (Nat.le_refl _)]
        simp
    by_cases hc : size ≤ conn.pending.length
    · rw [if_pos hc] at err_eq
      obtain ⟨h1, h2, h3⟩ := pending_eq hc
      have hrec := ih r.conn (by rw [post.closed_eq, hopen]) (by omega)
        (by rw [h1, List.length_drop]; simp only [List.sum_cons] at hsum; omega)
      simp only [grpcConn.readAll, hr, err_eq, hrec, htake, h1, h2, List.take_append_drop]
    · rw [if_neg hc] at err_eq
      simp only [grpcConn.readAll, hr, err_eq, htake]
      rw [List.take_of_length_le (by omega)]

/-- A `Write` on an open connection whose sends succeed. -/
theorem Write_spec (conn : grpcConn) (src : Bytes) (hopen : conn.closed = false)
    (hsend : ∀ x ∈ conn.stream.sendResults, x = none) :
    (conn.Write src).n = src.length ∧ (conn.Write src).err = none ∧
      (conn.Write src).conn.closed = false ∧
      (∀ x ∈ (conn.Write src).conn.stream.sendResults, x = none) ∧
      (conn.Write src).conn.readFromBufSize = conn.readFromBufSize ∧
      (conn.Write src).conn.stream.sent =
        conn.stream.sent ++ (if src.length = 0 then [] else [src]) ∧
      (conn.Write src).conn.stream.sendCalls =
        conn.stream.sendCalls + (if src.length = 0 then 0 else 1) := by
  unfold grpcConn.Write
  rw [if_neg (by simp [hopen])]
  by_cases h0 : src.length = 0
  · simp only [h0, if_true, hopen, List.append_nil, Nat.add_zero, and_self, true_and]
    exact ⟨hsend, trivial⟩
  · rw [if_neg h0, if_neg h0, if_neg h0]
    unfold BidiStream.Send
    cases hs : conn.stream.sendResults with
    | nil => simp [hopen]
    | cons x rest =>
      rw [hs] at hsend
      have hx : x = none := hsend x (List.mem_cons_self _ _)
      subst hx
      simp only [hopen, and_self, true_and]
      exact ⟨fun y hy => hsend y (List.mem_cons_of_mem _ hy), trivial⟩

/-- Writes made one after another on an open connection whose sends succeed send the non-empty
parts, one frame each, in order. -/
theorem writeAll_spec (parts : List Bytes) :
    ∀ conn : grpcConn, conn.closed = false → (∀ x ∈ conn.stream.sendResults, x = none) →
      (conn.writeAll parts).1 = parts.map (fun p => (p.length, none)) ∧
      (conn.writeAll parts).2.stream.sent =
        conn.stream.sent ++ parts.filter (fun p => decide (p.length ≠ 0)) := by
  induction parts with
  | nil => intro conn _ _; simp [grpcConn.writeAll]
  | cons p ps ih =>
    intro conn hopen hsend
    obtain ⟨h1, h2, h3, h4, _, h5, _⟩ := Write_spec conn p hopen hsend
    obtain ⟨i1, i2⟩ := ih (conn.Write p).conn h3 h4
    simp only [grpcConn.writeAll, List.map_cons, h1, h2, i1, i2, h5, List.filter_cons]
    by_cases h0 : p.length = 0 <;> simp [h0]

/-- Leaving out the empty parts does not change the concatenation. -/
theorem flatten_filter_nonempty (parts : List Bytes) :
    (parts.filter (fun p => decide (p.length ≠ 0))).flatten = parts.flatten := by
  induction parts with
  | nil => rfl
  | cons p ps ih =>
    by_cases h0 : p.length = 0
    · have : p = [] := List.length_eq_zero.mp h0
      rw [List.filter_cons_of_neg (by simp [h0]), ih]
      simp [this]
    · rw [List.filter_cons_of_pos (by simp [h0]), List.flatten_cons, ih, List.flatten_cons]


/-- C3: every write through an open connection whose sends succeed returns the length of its
part, and when the non-empty parts reach the peer as its data frames, in order and followed by
`io.EOF`, the peer's reads into buffers of any sizes that together exceed the total length
return, up to and including the read that reports `io.EOF`, exactly the concatenation of the
written parts. -/
theorem C3_write_then_read_roundtrip (w peer : grpcConn) (writes : List Bytes)
    (sizes : List Nat) (fuel : Nat)
    (hw : w.closed = false) (hsend : ∀ x ∈ w.stream.sendResults, x = none)
    (hsent : w.stream.sent = [])
    (hp : peer.closed = false) (hbuf : peer.buf = [])
    (hlink : peer.stream.incoming = (w.writeAll writes).2.stream.sent.map .data)
    (hfinal : peer.stream.final = .eof)
    (hsum : writes.flatten.length < sizes.sum) (hfuel : writes.length < fuel) :
    (w.writeAll writes).1 = writes.map (fun p => (p.length, none)) ∧
      peer.readAll fuel sizes = some (writes.flatten, some .eof) := by
  obtain ⟨h1, h2⟩ := writeAll_spec writes w hw hsend
  rw [hsent, List.nil_append] at h2
  rw [h2] at hlink
  have hpend : peer.pending = writes.flatten := by
    simp only [grpcConn.pending, grpcConn.held, hbuf, hlink, dataPrefix_map_data,
      flatten_filter_nonempty, List.drop_nil, List.nil_append]
  have hlen : (dataPrefix peer.stream.incoming).length < fuel := by
    rw [hlink, dataPrefix_map_data]
    exact Nat.lt_of_le_of_lt (List.length_filter_le _ _) hfuel
  have := readAll_spec fuel sizes peer hp hlen (by rw [hpend]; exact hsum)
  rw [hpend, hlink, firstErr_map_data, hfinal] at this
  exact ⟨h1, this⟩

/-- C3 at the writes `hi`, the empty slice and `!`, read back with buffers of 1, 2 and 3
bytes. -/
theorem C3_write_then_read_roundtrip_witness :
    (newServerConn (streamOf .server [[104, 105], [33]] .eof) "client" 32768).readAll 4
      [1, 2, 3] = some ([104, 105, 33], some .eof) :=
  (C3_write_then_read_roundtrip (newClientConn (streamOf .client [] .eof) "target" 32768)
    (newServerConn (streamOf .server [[104, 105], [33]] .eof) "client" 32768)
    [[104, 105], [], [33]] [1, 2, 3] 4 rfl (by decide) rfl rfl rfl (by decide) rfl
    (by decide) (by decide)).2

/-- C5, as amended: a `Read` on an open connection returns the first `len(dst)` bytes of the
held payload followed by the data frames that come before the stream's first failing `Recv`
(all of them when there are fewer); it reports no error exactly when `dst` was filled; it makes
no `Recv` when the held payload alone fills `dst`, and when `dst` cannot be filled it has
received every data frame and the failing answer, whose error it returns. -/
theorem C5_read_recvs_until_dst_full (fuel : Nat) (conn : grpcConn) (dst : Bytes)
    (hopen : conn.closed = false)
    (hfuel : (dataPrefix conn.stream.incoming).length < fuel) :
    ∃ r, conn.Read fuel dst = some r ∧
      r.n = min dst.length conn.pending.length ∧
      r.dst.take r.n = conn.pending.take dst.length ∧
      (r.err = none ↔ dst.length ≤ conn.pending.length) ∧
      (dst.length ≤ conn.held.length → r.conn.stream.recvCalls = conn.stream.recvCalls) ∧
      r.conn.stream.recvCalls ≤
        conn.stream.recvCalls + (dataPrefix conn.stream.incoming).length + 1 ∧
      (conn.pending.length < dst.length →
        r.err = some (firstErr conn.stream.final conn.stream.incoming) ∧
        r.conn.stream.recvCalls =
          conn.stream.recvCalls + (dataPrefix conn.stream.incoming).length + 1) := by
  obtain ⟨r, hr, post⟩ := Read_spec fuel conn dst hopen hfuel
  have n_eq := post.n_eq
  have dst_eq := post.dst_eq
  have err_eq := post.err_eq
  have recv_none := post.recv_none
  have recv_all := post.recv_all
  have recv_le := post.recv_le
  simp only [Nat.sub_zero, List.take_zero, List.nil_append, Nat.zero_add] at n_eq dst_eq err_eq
  simp only [Nat.sub_zero] at recv_none recv_all
  refine ⟨r, hr, n_eq, ?_, ?_, recv_none, recv_le, ?_⟩
  · rw [dst_eq, n_eq]
    by_cases hc : dst.length ≤ conn.pending.length
    · rw [Nat.min_eq_left hc, List.take_append_of_le_length (by simp [hc])]
      simp
    · rw [Nat.min_eq_right (by omega), List.take_of_length_le (l := conn.pending) (by omega),
        List.take_append_of_le_length (Nat.le_refl _)]
      simp
  · rw [err_eq]
    by_cases hc : dst.length ≤ conn.pending.length <;> simp [hc]
  · intro h
    exact ⟨by rw [err_eq, if_neg (by omega)], recv_all (by omega)⟩

/-- C5, as amended, at a buffer of three bytes filled from the frames `[1]`, `[]` and
`[2, 3]`. -/
theorem C5_read_recvs_until_dst_full_witness :
    ∃ r, (newClientConn (streamOf .client [[1], [], [2, 3]] .eof) "target" 32768).Read 4
        [0, 0, 0] = some r ∧ r.n = 3 ∧ r.dst.take r.n = [1, 2, 3] ∧ r.err = none :=
  (C5_read_recvs_until_dst_full 4
    (newClientConn (streamOf .client [[1], [], [2, 3]] .eof) "target" 32768) [0, 0, 0] rfl
    (by decide)).elim fun r h => ⟨r, h.1, h.2.1, h.2.2.1, h.2.2.2.1.mpr (by decide)⟩

/-- C5 fails as stated: with the frames `[1]` and `[2]` pending, one `Read` into a buffer of two
bytes calls `Recv` twice and returns bytes of both frames. -/
theorem C5_one_read_makes_two_recvs :
    ((newClientConn (streamOf .client [[1], [2]] .eof) "target" 32768).Read 3 [0, 0]).map
      (fun r => (r.n, r.err, r.dst, r.conn.stream.recvCalls)) = some (2, none, [1, 2], 2) := by
  decide

/-! ## Theorems: closing, end of stream, and the write side -/

/-- C4 at the frames `[]`, `hi`, `[]`, `!`, `[]` read into a buffer of five bytes. -/
theorem C4_single_read_drains_to_eof_witness :
    ∃ r, (newClientConn (streamOf .client [[], [104, 105], [], [33], []] .eof) "target"
        32768).Read 6 [7, 7, 7, 7, 7] = some r ∧
      r.n = 3 ∧ r.err = some .eof ∧ r.dst.take 3 = [104, 105, 33] ∧ r.dst.drop 3 = [7, 7] :=
  (C4_single_read_drains_to_eof (streamOf .client [[], [104, 105], [], [33], []] .eof) "target"
    32768 6 [[], [104, 105], [], [33], []] [7, 7, 7, 7, 7] rfl rfl (by decide) (by decide)
    _ (List.mem_cons_self _ _)).elim
    fun r h => ⟨r, h.1, h.2.1, h.2.2.1, h.2.2.2.1, h.2.2.2.2.1⟩

/-- C6, the code at the failing input: `Close` never sets the flag `closed` (on the server side
it leaves the connection exactly as it was), so after `Close` a `Write` still calls `Send` and
returns `(1, nil)`, and a `Read` still calls `Recv` and returns data, instead of
`net.ErrClosed`. -/
theorem C6_close_leaves_connection_open :
    (∀ conn : grpcConn, conn.Close.2.closed = conn.closed) ∧
    ((newServerConn (streamOf .server [[9]] .eof) "client" 32768).Close.2 =
      newServerConn (streamOf .server [[9]] .eof) "client" 32768) ∧
    (let conn := (newServerConn (streamOf .server [[9]] .eof) "client" 32768).Close.2
     ((conn.Write [1]).n, (conn.Write [1]).err, (conn.Write [1]).conn.stream.sent,
        (conn.Write [1]).conn.stream.sendCalls) = (1, none, [[1]], 1) ∧
      (conn.Read 2 [0]).map (fun r => (r.n, r.err, r.dst, r.conn.stream.recvCalls)) =
        some (1, none, [9], 1)) := by
  refine ⟨fun conn => ?_, by decide, by decide⟩
  unfold grpcConn.Close
  rfl

/-- C7, the code at the failing input: when `Recv` fails with a gRPC status `Canceled`, which
`isNormalClosedErr` counts as a normal end of stream, `Read` hands that status error back as it
is and not `io.EOF`; only a `Recv` that fails with `io.EOF` makes `Read` return `io.EOF`. -/
theorem C7_read_returns_canceled_unchanged :
    isNormalClosedErr (some (.status codes.Canceled "context canceled")) = true ∧
    ((newClientConn (streamOf .client [] (.status codes.Canceled "context canceled")) "target"
        32768).Read 1 [0]).map (fun r => (r.n, r.err)) =
      some (0, some (.status codes.Canceled "context canceled")) ∧
    ((newClientConn (streamOf .client [] .eof) "target" 32768).Read 1 [0]).map
      (fun r => (r.n, r.err)) = some (0, some .eof) := by
  decide

/-- A `Send` that succeeds appends its payload to the frames sent. -/
theorem Send_ok (s : BidiStream) (src : Bytes) (h : (s.Send src).1 = none) :
    (s.Send src).2.sent = s.sent ++ [src] ∧ (s.Send src).2.sendCalls = s.sendCalls + 1 := by
  unfold BidiStream.Send at h ⊢
  cases hs : s.sendResults with
  | nil => simp
  | cons x rest =>
    cases x with
    | none => simp
    | some e => simp [hs] at h

/-- A `Send` that fails sends nothing. -/
theorem Send_fail (s : BidiStream) (src : Bytes) (e : GoError) (h : (s.Send src).1 = some e) :
    (s.Send src).2.sent = s.sent ∧ (s.Send src).2.sendCalls = s.sendCalls + 1 := by
  unfold BidiStream.Send at h ⊢
  cases hs : s.sendResults with
  | nil => simp [hs] at h
  | cons x rest =>
    cases x with
    | none => simp [hs] at h
    | some e => simp

/-- C8: on an open connection, a `Write` of a non-empty slice whose `Send` succeeds sends that
slice as one more frame and returns `(len(buf), nil)`; a `Write` of the empty slice returns
`(0, nil)` and leaves the connection, its stream included, untouched; a `Write` whose `Send`
fails returns `(0, err)` and sends no frame; hence after writing a list of parts in order, with
every `Send` succeeding, each write has returned the length of its part and the concatenation
of the frames sent has grown by the concatenation of the parts. -/
theorem C8_write_sends_one_frame (conn : grpcConn) (buf : Bytes) (parts : List Bytes)
    (hopen : conn.closed = false) :
    (buf.length ≠ 0 → (conn.stream.Send buf).1 = none →
      (conn.Write buf).n = buf.length ∧ (conn.Write buf).err = none ∧
        (conn.Write buf).conn.stream.sent = conn.stream.sent ++ [buf] ∧
        (conn.Write buf).conn.stream.sendCalls = conn.stream.sendCalls + 1) ∧
    conn.Write [] = ⟨0, none, conn⟩ ∧
    (∀ e, buf.length ≠ 0 → (conn.stream.Send buf).1 = some e →
      (conn.Write buf).n = 0 ∧ (conn.Write buf).err = some e ∧
        (conn.Write buf).conn.stream.sent = conn.stream.sent) ∧
    ((∀ x ∈ conn.stream.sendResults, x = none) →
      (conn.writeAll parts).1 = parts.map (fun p => (p.length, none)) ∧
        (conn.writeAll parts).2.stream.sent =
          conn.stream.sent ++ parts.filter (fun p => decide (p.length ≠ 0)) ∧
        (conn.writeAll parts).2.stream.sent.flatten =
          conn.stream.sent.flatten ++ parts.flatten) := by
  refine ⟨?_, ?_, ?_, ?_⟩
  · intro h0 hs
    obtain ⟨h1, h2⟩ := Send_ok conn.stream buf hs
    unfold grpcConn.Write
    rw [if_neg (by simp [hopen]), if_neg h0]
    cases hsend : conn.stream.Send buf with
    | mk err s =>
      rw [hsend] at hs h1 h2
      simp only at hs
      subst hs
      exact ⟨rfl, rfl, h1, h2⟩
  · unfold grpcConn.Write
    simp [hopen]
  · intro e h0 hs
    obtain ⟨h1, _⟩ := Send_fail conn.stream buf e hs
    unfold grpcConn.Write
    rw [if_neg (by simp [hopen]), if_neg h0]
    cases hsend : conn.stream.Send buf with
    | mk err s =>
      rw [hsend] at hs h1
      simp only at hs
      subst hs
      exact ⟨rfl, rfl, h1⟩
  · intro hall
    obtain ⟨h1, h2⟩ := writeAll_spec parts conn hopen hall
    refine ⟨h1, h2, ?_⟩
    rw [h2, List.flatten_append, flatten_filter_nonempty]

/-- C8 at a fresh client connection: the write of `hi`, and the parts `[]`, `h`, `[]`, `i!`. -/
theorem C8_write_sends_one_frame_witness :
    (newClientConn (streamOf .client [] .eof) "target" 32768).Write [104, 105] =
      ⟨2, none, newClientConn
        { streamOf .client [] .eof with sent := [[104, 105]], sendCalls := 1 } "target" 32768⟩ ∧
    ((newClientConn (streamOf .client [] .eof) "target" 32768).writeAll
        [[], [104], [], [105, 33]]).2.stream.sent.flatten = [104, 105, 33] :=
  ⟨by decide,
    ((C8_write_sends_one_frame (newClientConn (streamOf .client [] .eof) "target" 32768)
      [104, 105] [[], [104], [], [105, 33]] rfl).2.2.2 (by decide)).2.2⟩


/-- The loop of `WriteTo` over a stream that delivers data frames and then ends normally, into
a writer that accepts everything. -/
theorem writeToLoop_spec (frames : List Bytes) :
    ∀ (fuel : Nat) (conn : grpcConn) (w : Writer) (m : Nat),
      conn.stream.incoming = frames.map .data →
      isNormalClosedErr (some conn.stream.final) = true →
      w.failAfter = none → frames.length < fuel →
      ∃ res w1, conn.writeToLoop fuel w m = some (res, w1) ∧
        res.n = m + frames.flatten.length ∧ res.err = none ∧
        w1.chunks = w.chunks ++ frames ∧ w1.failAfter = none ∧
        res.conn.stream.recvCalls = conn.stream.recvCalls + frames.length + 1 := by
  induction frames with
  | nil =>
    intro fuel conn w m hinc hfin hw hfuel
    obtain ⟨f, rfl⟩ : ∃ f, fuel = f + 1 := ⟨fuel - 1, by omega⟩
    refine ⟨_, _, by simp only [grpcConn.writeToLoop, BidiStream.Recv, hinc, List.map_nil,
      hfin, if_true]; rfl, ?_⟩
    simp [hw]
  | cons fr rest ih =>
    intro fuel conn w m hinc hfin hw hfuel
    obtain ⟨f, rfl⟩ : ∃ f, fuel = f + 1 := ⟨fuel - 1, by omega⟩
    have hwr : w.Write fr = (fr.length, none, { w with chunks := w.chunks ++ [fr] }) := by
      simp only [Writer.Write, hw]
    obtain ⟨res, w1, hres, h1, h2, h3, h4, h5⟩ := ih f
      { conn with stream := { conn.stream with incoming := rest.map .data,
                                               recvCalls := conn.stream.recvCalls + 1 } }
      { w with chunks := w.chunks ++ [fr] } (m + fr.length) rfl hfin hw
      (by simp only [List.length_cons] at hfuel; omega)
    refine ⟨res, w1, ?_, ?_, h2, ?_, h4, ?_⟩
    · simp only [grpcConn.writeToLoop, BidiStream.Recv, hinc, List.map_cons, hwr]
      exact hres
    · rw [h1]; simp only [List.flatten_cons, List.length_append]; omega
    · rw [h3]; simp
    · rw [h5]; simp only [List.length_cons]; omega

/-- C9: on an open connection with held remainder `h` whose stream delivers the data frames
`frames`, some of them possibly empty, and then ends with `io.EOF` or a status `Canceled`,
`WriteTo` into a writer that accepts everything returns `(len(h) + len(f1) + ... + len(fk), nil)`
after handing the writer `h` and then each frame, in order, one `Write` each. -/
theorem C9_writeTo_drains_held_then_frames (fuel : Nat) (conn : grpcConn) (w : Writer)
    (frames : List Bytes) (hopen : conn.closed = false)
    (hinc : conn.stream.incoming = frames.map .data)
    (hfinal : conn.stream.final = .eof ∨ ∃ msg, conn.stream.final = .status codes.Canceled msg)
    (hw : w.failAfter = none) (hfuel : frames.length < fuel) :
    ∃ res w1, conn.WriteTo fuel w = some (res, w1) ∧
      res.n = conn.held.length + frames.flatten.length ∧ res.err = none ∧
      w1.chunks = w.chunks ++ conn.held :: frames ∧
      w1.chunks.flatten = w.chunks.flatten ++ (conn.held ++ frames.flatten) := by
  have hnorm : isNormalClosedErr (some conn.stream.final) = true := by
    rcases hfinal with h | ⟨msg, h⟩ <;> rw [h] <;> rfl
  have hwr : w.Write conn.held =
      (conn.held.length, none, { w with chunks := w.chunks ++ [conn.held] }) := by
    simp only [Writer.Write, hw]
  obtain ⟨res, w1, hres, h1, h2, h3, _, _⟩ := writeToLoop_spec frames fuel
    { conn with offset := 0, buf := [] } { w with chunks := w.chunks ++ [conn.held] }
    conn.held.length hinc hnorm hw hfuel
  refine ⟨res, w1, ?_, h1, h2, ?_, ?_⟩
  · unfold grpcConn.WriteTo
    rw [if_neg (by simp [hopen])]
    have : conn.buf.drop conn.offset = conn.held := rfl
    rw [this, hwr]
    exact hres
  · rw [h3]; simp
  · rw [h3]; simp

/-- C9 at a connection holding `[1, 2]` whose stream delivers `[]`, `[3]`, `[4, 5]` and is then
cancelled. -/
theorem C9_writeTo_drains_held_then_frames_witness :
    (midReadConn.WriteTo 4 { chunks := [], failAfter := none }).map
        (fun out : IOResult × Writer => (out.1.n, out.1.err, out.2.chunks)) =
      some (5, none, [[1, 2], [], [3], [4, 5]]) ∧
    ∃ res w1, midReadConn.WriteTo 4 { chunks := [], failAfter := none } = some (res, w1) ∧
      res.n = 2 + 3 ∧ res.err = none :=
  ⟨by decide,
    (C9_writeTo_drains_held_then_frames 4 midReadConn { chunks := [], failAfter := none }
      [[], [3], [4, 5]] rfl rfl (Or.inr ⟨"", rfl⟩) rfl (by decide)).elim
      fun res h => h.elim fun w1 h => ⟨res, w1, h.1, h.2.1, h.2.2.1⟩⟩

/-! ## Theorems: `ReadFrom` -/

/-- One `Read` of a reader: the bytes it hands out are the next ones and fit the buffer, it
reports no error or its final error, the latter only with or after its last bytes, and an
error-free read into a non-empty buffer brings the reader closer to its end. -/
theorem Reader_read_step (r : Reader) (size : Nat) :
    (r.Read size).1 ++ (r.Read size).2.2.data = r.data ∧
    (r.Read size).1.length ≤ size ∧
    (r.Read size).2.2.final = r.final ∧
    ((r.Read size).2.1 = none ∨ (r.Read size).2.1 = some r.final) ∧
    ((r.Read size).2.1 ≠ none → (r.Read size).2.2.data = []) ∧
    ((r.Read size).2.1 = none → 1 ≤ size →
      (r.Read size).2.2.caps.length + (r.Read size).2.2.data.length <
        r.caps.length + r.data.length) := by
  unfold Reader.Read
  cases hd : r.data with
  | nil => simp
  | cons d ds =>
    dsimp only
    refine ⟨List.take_append_drop _ _, ?_, rfl, ?_, ?_, ?_⟩
    · rw [List.length_take]
      cases r.caps with
      | nil => exact Nat.min_le_left _ _
      | cons c cs => exact Nat.le_trans (Nat.min_le_left _ _) (Nat.min_le_right _ _)
    · split_ifs <;> simp
    · intro h
      split_ifs at h with hc
      · simp only [Bool.and_eq_true, List.isEmpty_iff] at hc
        exact hc.1
      · exact absurd rfl h
    · intro _ hsize
      cases hcaps : r.caps with
      | nil =>
        simp only [List.tail_nil, List.length_nil, List.length_drop, List.length_cons]
        omega
      | cons c cs =>
        simp only [List.tail_cons, List.length_drop, List.length_cons]
        omega

/-- The loop of `ReadFrom` on an open connection whose sends succeed and whose buffer is not
empty: enough fuel for the reader's short reads and bytes gives the result. -/
theorem readFromLoop_spec (fuel : Nat) :
    ∀ (conn : grpcConn) (r : Reader) (m : Nat),
      conn.closed = false → (∀ x ∈ conn.stream.sendResults, x = none) →
      1 ≤ conn.readFromBufSize → r.caps.length + r.data.length < fuel →
      ∃ res r1, conn.readFromLoop fuel r m = some (res, r1) ∧
        res.n = m + r.data.length ∧
        res.err = (if isNormalClosedErr (some r.final) then none else some r.final) ∧
        (isNormalClosedErr (some r.final) = true →
          ∃ fs, res.conn.stream.sent = conn.stream.sent ++ fs ∧ fs.flatten = r.data ∧
            ∀ f ∈ fs, 1 ≤ f.length ∧ f.length ≤ conn.readFromBufSize) := by
  induction fuel with
  | zero => intro conn r m _ _ _ h; omega
  | succ f ih =>
    intro conn r m hopen hsend hb hfuel
    obtain ⟨h1, h2, h3, h4, h5, h6⟩ := Reader_read_step r conn.readFromBufSize
    obtain ⟨w1, w2, w3, w4, w5, w6, _⟩ :=
      Write_spec conn (r.Read conn.readFromBufSize).1 hopen hsend
    unfold grpcConn.readFromLoop
    generalize hrd : r.Read conn.readFromBufSize = out at h1 h2 h3 h4 h5 h6 w1 w2 w3 w4 w5 w6
    obtain ⟨chunk, err, r1⟩ := out
    simp only at h1 h2 h3 h4 h5 h6 w1 w2 w3 w4 w5 w6 ⊢
    have hframes : ∀ g ∈ (if chunk.length = 0 then [] else [chunk]),
        1 ≤ g.length ∧ g.length ≤ conn.readFromBufSize := by
      intro g hg
      split_ifs at hg with hz
      · simp at hg
      · simp only [List.mem_singleton] at hg
        subst hg
        exact ⟨by omega, h2⟩
    have hflat : (if chunk.length = 0 then [] else [chunk]).flatten = chunk := by
      split_ifs with hz
      · simp [List.length_eq_zero.mp hz]
      · simp
    rcases h4 with he | he
    · -- the reader reports no error: write the chunk and go round again
      subst he
      have hlt := h6 rfl hb
      obtain ⟨res, r2, hres, i1, i2, i3⟩ := ih (conn.Write chunk).conn r1 (m + chunk.length)
        w3 w4 (by rw [w5]; exact hb) (by omega)
      refine ⟨res, r2, ?_, ?_, ?_, ?_⟩
      · simp only [Option.isSome_none, Bool.false_and, w2]
        exact hres
      · rw [i1, ← h1, List.length_append]; omega
      · rw [i2, h3]
      · intro hn
        rw [h3] at i3
        obtain ⟨fs, j1, j2, j3⟩ := i3 hn
        refine ⟨(if chunk.length = 0 then [] else [chunk]) ++ fs, ?_, ?_, ?_⟩
        · rw [j1, w6, List.append_assoc]
        · rw [List.flatten_append, hflat, j2, h1]
        · intro g hg
          rcases List.mem_append.mp hg with hg | hg
          · exact hframes g hg
          · rw [w5] at j3; exact j3 g hg
    · -- the reader reports its final error, with the last bytes or alone
      subst he
      have hdata : r1.data = [] := h5 (by simp)
      have hchunk : chunk = r.data := by rw [← h1, hdata, List.append_nil]
      by_cases hn : isNormalClosedErr (some r.final) = true
      · refine ⟨⟨m + chunk.length, none, (conn.Write chunk).conn⟩, r1, ?_, ?_, ?_, ?_⟩
        · simp only [Option.isSome_some, hn, Bool.not_true, Bool.and_false, w2]
          rfl
        · rw [hchunk]
        · rw [if_pos hn]
        · intro _
          refine ⟨_, w6, ?_, hframes⟩
          rw [hflat, hchunk]
      · refine ⟨⟨m + chunk.length, some r.final, conn⟩, r1, ?_, ?_, ?_, ?_⟩
        · simp only [Bool.not_eq_true] at hn
          simp only [Option.isSome_some, hn, Bool.not_false, Bool.and_true]
          rfl
        · rw [hchunk]
        · rw [if_neg hn]
        · intro h; exact absurd h hn


/-- C10, as amended: on an open connection whose sends succeed, with a buffer of `b ≥ 1` bytes,
`ReadFrom` returns for every reader that hands out a finite byte sequence `s`, in reads of any
sizes, and then fails; the count returned is `len(s)`. When the reader's final error is
`io.EOF` or carries the gRPC status `Canceled`, the error returned is nil and the frames sent
are each between `1` and `b` bytes long and concatenate, in order, to `s`. When the final error
is neither, it is returned as the error. -/
theorem C10_readFrom_sends_chunks (fuel : Nat) (conn : grpcConn) (r : Reader)
    (hopen : conn.closed = false) (hsend : ∀ x ∈ conn.stream.sendResults, x = none)
    (hb : 1 ≤ conn.readFromBufSize) (hfuel : r.caps.length + r.data.length < fuel) :
    ∃ res r1, conn.ReadFrom fuel r = some (res, r1) ∧ res.n = r.data.length ∧
      (r.final = .eof ∨ status.Code (some r.final) = codes.Canceled →
        res.err = none ∧
        ∃ fs, res.conn.stream.sent = conn.stream.sent ++ fs ∧ fs.flatten = r.data ∧
          ∀ f ∈ fs, 1 ≤ f.length ∧ f.length ≤ conn.readFromBufSize) ∧
      (r.final ≠ .eof → status.Code (some r.final) ≠ codes.Canceled →
        res.err = some r.final) := by
  obtain ⟨res, r1, hres, h1, h2, h3⟩ := readFromLoop_spec fuel conn r 0 hopen hsend hb hfuel
  have hiff : isNormalClosedErr (some r.final) = true ↔
      (r.final = .eof ∨ status.Code (some r.final) = codes.Canceled) := by
    simp [isNormalClosedErr]
  refine ⟨res, r1, ?_, by rw [h1, Nat.zero_add], ?_, ?_⟩
  · unfold grpcConn.ReadFrom
    rw [if_neg (by simp [hopen])]
    exact hres
  · intro hn
    have hn2 := hiff.mpr hn
    exact ⟨by rw [h2, if_pos hn2], h3 hn2⟩
  · intro hne hnc
    have : ¬ isNormalClosedErr (some r.final) = true := by
      rw [hiff]; exact fun h => h.elim hne hnc
    rw [h2, if_neg this]

/-- C10, as amended, at a buffer of two bytes and a reader that hands out `[1, 2, 3]`, its
first read cut short to one byte, and reports `io.EOF` with the last bytes. -/
theorem C10_readFrom_sends_chunks_witness :
    (smallBufConn.ReadFrom 5 { data := [1, 2, 3], caps := [1], final := .eof, eager := true }).map
        (fun out : IOResult × Reader => (out.1.n, out.1.err, out.1.conn.stream.sent)) =
      some (3, none, [[1], [2, 3]]) ∧
    ∃ res r1,
      smallBufConn.ReadFrom 5 { data := [1, 2, 3], caps := [1], final := .eof, eager := true } =
        some (res, r1) ∧ res.n = 3 :=
  ⟨by decide,
    (C10_readFrom_sends_chunks 5 smallBufConn
      { data := [1, 2, 3], caps := [1], final := .eof, eager := true } rfl (by decide)
      (by decide) (by decide)).elim fun res h => h.elim fun r1 h => ⟨res, r1, h.1, h.2.1⟩⟩

/-- C10 fails as stated: a reader that ends with a gRPC status `Canceled`, which is not
`io.EOF`, makes `ReadFrom` return `(3, nil)`, the error dropped; a plain error in its place is
returned. -/
theorem C10_canceled_reader_error_is_dropped :
    (GoError.status codes.Canceled "context canceled" ≠ GoError.eof) ∧
    (smallBufConn.ReadFrom 5
        { data := [1, 2, 3], caps := [], final := .status codes.Canceled "context canceled",
          eager := false }).map
        (fun out : IOResult × Reader => (out.1.n, out.1.err, out.1.conn.stream.sent)) =
      some (3, none, [[1, 2], [3]]) ∧
    (smallBufConn.ReadFrom 5
        { data := [1, 2, 3], caps := [], final := .plain "connection reset",
          eager := false }).map
        (fun out : IOResult × Reader => (out.1.n, out.1.err, out.1.conn.stream.sent)) =
      some (3, some (.plain "connection reset"), [[1, 2], [3]]) := by
  decide

/-! ## Theorems: fault codes, dial error classification, error responses -/

/-- One turn of the loop of `fault.Code[T]`, as the source writes it. -/
theorem codeLoop_eq (ty : CodeType) (e : GoError) :
    e.codeLoop ty =
      match e.faultCodeAt ty with
      | some c => c
      | none =>
        match e.Unwrap with
        | some inner => inner.codeLoop ty
        | none => fault.Unknown := by
  cases e <;> simp only [GoError.codeLoop, GoError.faultCodeAt, GoError.Unwrap] <;>
    split_ifs <;> rfl

/-- The loop of `fault.Code[T]` returns the code of the first fault of type `T` in the chain. -/
theorem codeLoop_chain (ty : CodeType) (e : GoError) :
    e.codeLoop ty = (e.chain.findSome? (GoError.faultCodeAt ty)).getD fault.Unknown := by
  induction e with
  | faultNew t msg code =>
    simp only [GoError.codeLoop, GoError.chain, List.findSome?, GoError.faultCodeAt]
    split_ifs <;> rfl
  | faultWrap t msg code inner ih =>
    simp only [GoError.codeLoop, GoError.chain, List.findSome?, GoError.faultCodeAt]
    split_ifs
    · rfl
    · exact ih
  | op inner ih => simpa [GoError.codeLoop, GoError.chain, GoError.faultCodeAt] using ih
  | wrap msg inner ih => simpa [GoError.codeLoop, GoError.chain, GoError.faultCodeAt] using ih
  | _ => rfl

/-- C18: `fault.Code[T]` returns `OK` for a nil error and, for a non-nil error, the code of the
first (outermost) fault of code type `T` on the `Unwrap` chain, `UNKNOWN` when the chain holds
none; so the code of `New(msg, c)` and of `Wrap(e, prefix, c)` is `c`, and an error made by
`fmt.Errorf` with `%w` around an error has the code of that error. -/
theorem C18_code_of_outermost_fault (ty : CodeType) :
    fault.Code ty none = fault.Ok ∧
    (∀ e : GoError, fault.Code ty (some e) =
      (e.chain.findSome? (GoError.faultCodeAt ty)).getD fault.Unknown) ∧
    (∀ e : GoError, (∀ x ∈ e.chain, x.faultCodeAt ty = none) →
      fault.Code ty (some e) = fault.Unknown) ∧
    (∀ msg c, fault.Code ty (some (fault.New ty msg c)) = c) ∧
    (∀ (e : GoError) msg c, fault.Code ty (fault.Wrap ty (some e) msg c) = c) ∧
    (∀ (e : GoError) msg, fault.Code ty (some (.wrap msg e)) = fault.Code ty (some e)) := by
  refine ⟨rfl, fun e => codeLoop_chain ty e, ?_, ?_, ?_, fun e msg => rfl⟩
  · intro e h
    show e.codeLoop ty = fault.Unknown
    rw [codeLoop_chain, List.findSome?_eq_none_iff.mpr h]
    rfl
  · intro msg c
    simp [fault.Code, fault.New, GoError.codeLoop]
  · intro e msg c
    simp [fault.Code, fault.Wrap, GoError.codeLoop]

/-- C18 at a resolve fault wrapped twice: the code is found through the plain wrapper, and a
fault of the other code type around it is passed over. -/
theorem C18_code_of_outermost_fault_witness :
    fault.Code .forwardErrorCode
      (some (.faultWrap .str "outer" "UNKNOWN"
        (.wrap "ctx" (.faultNew .forwardErrorCode "failed to resolve host"
          "FAILED_TO_RESOLVE_HOST")))) = "FAILED_TO_RESOLVE_HOST" ∧
    fault.Code .forwardErrorCode (some (.plain "boom")) = fault.Unknown :=
  ⟨by decide,
    (C18_code_of_outermost_fault .forwardErrorCode).2.2.1 (.plain "boom") (by decide)⟩

/-- The call `errors.As` for `*net.DNSError` finds a DNS error anywhere on the chain. -/
theorem asDNSError_iff (e : GoError) :
    e.asDNSError = true ↔ ∃ x ∈ e.chain, x.isDNSError = true := by
  induction e <;> simp_all [GoError.asDNSError, GoError.chain, GoError.isDNSError]

/-- The call `errors.As` for `*net.OpError` finds an operational error anywhere on the chain. -/
theorem asOpError_iff (e : GoError) :
    e.asOpError = true ↔ ∃ x ∈ e.chain, x.isOpError = true := by
  induction e <;> simp_all [GoError.asOpError, GoError.chain, GoError.isOpError]

/-- When the network error found first reports a timeout, the chain holds a timeout. -/
theorem asNetErrorTimeout_chain (e : GoError) (h : e.asNetErrorTimeout = true) :
    ∃ x ∈ e.chain, x.timeoutMethod = some true := by
  induction e with
  | dns msg t =>
    exact ⟨.dns msg t, by simp [GoError.chain], by simpa [GoError.asNetErrorTimeout,
      GoError.timeoutMethod] using h⟩
  | netErr msg t =>
    exact ⟨.netErr msg t, by simp [GoError.chain], by simpa [GoError.asNetErrorTimeout,
      GoError.timeoutMethod] using h⟩
  | op inner _ =>
    refine ⟨.op inner, by simp [GoError.chain], ?_⟩
    simp only [GoError.asNetErrorTimeout] at h
    cases hm : (GoError.op inner).timeoutMethod with
    | none => simp [hm] at h
    | some t => simp [hm] at h; rw [h]
  | wrap msg inner ih =>
    obtain ⟨x, hx, ht⟩ := ih (by simpa [GoError.asNetErrorTimeout] using h)
    exact ⟨x, by simp [GoError.chain, hx], ht⟩
  | faultWrap ty msg code inner ih =>
    obtain ⟨x, hx, ht⟩ := ih (by simpa [GoError.asNetErrorTimeout] using h)
    exact ⟨x, by simp [GoError.chain, hx], ht⟩
  | _ => simp [GoError.asNetErrorTimeout] at h

/-- A timeout anywhere on the chain is met by one of the three tests of `interpretDialError`. -/
theorem timeout_chain_tested (e : GoError) (h : ∃ x ∈ e.chain, x.timeoutMethod = some true) :
    e.asDNSError = true ∨ e.asNetErrorTimeout = true ∨ e.asOpError = true := by
  induction e with
  | dns msg t => exact Or.inl rfl
  | op inner _ => exact Or.inr (Or.inr rfl)
  | netErr msg t =>
    obtain ⟨x, hx, ht⟩ := h
    simp only [GoError.chain, List.mem_singleton] at hx
    subst hx
    simp only [GoError.timeoutMethod, Option.some.injEq] at ht
    exact Or.inr (Or.inl (by simp [GoError.asNetErrorTimeout, ht]))
  | wrap msg inner ih =>
    obtain ⟨x, hx, ht⟩ := h
    simp only [GoError.chain, List.mem_cons] at hx
    rcases hx with rfl | hx
    · simp [GoError.timeoutMethod] at ht
    · simpa [GoError.asDNSError, GoError.asNetErrorTimeout, GoError.asOpError] using
        ih ⟨x, hx, ht⟩
  | faultWrap ty msg code inner ih =>
    obtain ⟨x, hx, ht⟩ := h
    simp only [GoError.chain, List.mem_cons] at hx
    rcases hx with rfl | hx
    · simp [GoError.timeoutMethod] at ht
    · simpa [GoError.asDNSError, GoError.asNetErrorTimeout, GoError.asOpError] using
        ih ⟨x, hx, ht⟩
  | _ =>
    obtain ⟨x, hx, ht⟩ := h
    simp only [GoError.chain, List.mem_singleton] at hx
    subst hx
    simp [GoError.timeoutMethod] at ht

/-- C15: `interpretDialError` maps nil to nil and wraps every other error `e`, so that `Unwrap`
of the result is `e`, under a code read off the chain of `e`: `FAILED_TO_RESOLVE_HOST` when the
chain holds a DNS error, whatever else it holds; otherwise `HOST_UNREACHABLE` when it holds an
error whose `Timeout()` is true or a `*net.OpError`; otherwise `UNKNOWN`. -/
theorem C15_interpretDialError_classification :
    interpretDialError none = none ∧
    ∀ e : GoError,
      ((∃ x ∈ e.chain, x.isDNSError = true) →
        interpretDialError (some e) = some (.faultWrap .forwardErrorCode "failed to dial"
          common.ForwardFailedToResolveHost e)) ∧
      ((¬ ∃ x ∈ e.chain, x.isDNSError = true) →
        ((∃ x ∈ e.chain, x.timeoutMethod = some true) ∨ ∃ x ∈ e.chain, x.isOpError = true) →
        interpretDialError (some e) = some (.faultWrap .forwardErrorCode "failed to dial"
          common.ForwardHostUnreachable e)) ∧
      ((¬ ∃ x ∈ e.chain, x.isDNSError = true) →
        (¬ ∃ x ∈ e.chain, x.timeoutMethod = some true) →
        (¬ ∃ x ∈ e.chain, x.isOpError = true) →
        interpretDialError (some e) = some (.faultWrap .str "failed to dial" fault.Unknown e)) ∧
      (∃ r code, interpretDialError (some e) = some r ∧ r.Unwrap = some e ∧
        fault.RawCode (some r) = some code ∧
        (code = common.ForwardFailedToResolveHost ∨ code = common.ForwardHostUnreachable ∨
          code = fault.Unknown)) := by
  refine ⟨rfl, fun e => ⟨?_, ?_, ?_, ?_⟩⟩
  · intro hd
    have := (asDNSError_iff e).mpr hd
    simp [interpretDialError, fault.Wrap, this]
  · intro hd ht
    have h1 : e.asDNSError = false := by
      rw [← Bool.not_eq_true]; exact fun h => hd ((asDNSError_iff e).mp h)
    have h2 : e.asNetErrorTimeout = true ∨ e.asOpError = true := by
      rcases ht with ht | ho
      · rcases timeout_chain_tested e ht with h | h | h
        · rw [h1] at h; exact absurd h (by decide)
        · exact Or.inl h
        · exact Or.inr h
      · exact Or.inr ((asOpError_iff e).mpr ho)
    unfold interpretDialError
    simp only [h1, Bool.false_eq_true, if_false, fault.Wrap]
    rcases h2 with h | h
    · rw [if_pos h]
    · split_ifs <;> rfl
  · intro hd ht ho
    have h1 : e.asDNSError = false := by
      rw [← Bool.not_eq_true]; exact fun h => hd ((asDNSError_iff e).mp h)
    have h2 : e.asNetErrorTimeout = false := by
      rw [← Bool.not_eq_true]; exact fun h => ht (asNetErrorTimeout_chain e h)
    have h3 : e.asOpError = false := by
      rw [← Bool.not_eq_true]; exact fun h => ho ((asOpError_iff e).mp h)
    simp [interpretDialError, fault.Wrap, h1, h2, h3]
  · unfold interpretDialError
    simp only [fault.Wrap]
    split_ifs
    · exact ⟨_, _, rfl, rfl, rfl, Or.inl rfl⟩
    · exact ⟨_, _, rfl, rfl, rfl, Or.inr (Or.inl rfl)⟩
    · exact ⟨_, _, rfl, rfl, rfl, Or.inr (Or.inl rfl)⟩
    · exact ⟨_, _, rfl, rfl, rfl, Or.inr (Or.inr rfl)⟩

/-- C15 at a dial error as `net.Dialer` returns it for an unknown host: the operational error
around a DNS error that is also a timeout is classified as a resolve failure. -/
theorem C15_interpretDialError_classification_witness :
    interpretDialError (some (.op (.dns "lookup nope.invalid: i/o timeout" true))) =
      some (.faultWrap .forwardErrorCode "failed to dial" "FAILED_TO_RESOLVE_HOST"
        (.op (.dns "lookup nope.invalid: i/o timeout" true))) ∧
    interpretDialError (some (.wrap "dial" (.netErr "i/o timeout" true))) =
      some (.faultWrap .forwardErrorCode "failed to dial" "HOST_UNREACHABLE"
        (.wrap "dial" (.netErr "i/o timeout" true))) ∧
    interpretDialError (some (.plain "boom")) =
      some (.faultWrap .str "failed to dial" "UNKNOWN" (.plain "boom")) :=
  ⟨(C15_interpretDialError_classification.2
      (.op (.dns "lookup nope.invalid: i/o timeout" true))).1
      ⟨.dns "lookup nope.invalid: i/o timeout" true, by decide, rfl⟩,
    by decide, by decide⟩

/-- C16: `handleForwardError` writes nothing for a nil error, and for an error whose code is
`UNKNOWN` or `INTERNAL`, `FAILED_TO_RESOLVE_HOST`, `HOST_UNREACHABLE` it writes to the client
socket exactly one response: the status line `500 Internal Server Error`, `502 Bad Gateway`,
`504 Gateway Timeout` respectively, then `Content-Length: 0`, `Connection: close` and the empty
line. -/
theorem C16_forward_error_response (conn : List String) :
    HttpApi.handleForwardError conn none = conn ∧
    ∀ e : GoError,
      (fault.Code .forwardErrorCode (some e) = fault.Unknown ∨
          fault.Code .forwardErrorCode (some e) = common.ForwardInternal →
        HttpApi.handleForwardError conn (some e) = conn ++
          ["HTTP/1.1 500 Internal Server Error\r\nContent-Length: 0\r\nConnection: close\r\n\r\n"])
      ∧
      (fault.Code .forwardErrorCode (some e) = common.ForwardFailedToResolveHost →
        HttpApi.handleForwardError conn (some e) = conn ++
          ["HTTP/1.1 502 Bad Gateway\r\nContent-Length: 0\r\nConnection: close\r\n\r\n"]) ∧
      (fault.Code .forwardErrorCode (some e) = common.ForwardHostUnreachable →
        HttpApi.handleForwardError conn (some e) = conn ++
          ["HTTP/1.1 504 Gateway Timeout\r\nContent-Length: 0\r\nConnection: close\r\n\r\n"]) := by
  refine ⟨rfl, fun e => ⟨?_, ?_, ?_⟩⟩
  · intro h
    simp only [HttpApi.handleForwardError, if_pos h, writeHttpError]
    rfl
  · intro h
    simp only [HttpApi.handleForwardError, h, writeHttpError]
    rfl
  · intro h
    simp only [HttpApi.handleForwardError, h, writeHttpError]
    rfl

/-- C16 at the fault a failed DNS lookup reaches the hub as (scenario S3) and at a plain
transport error. -/
theorem C16_forward_error_response_witness :
    HttpApi.handleForwardError []
        (some (fault.New .forwardErrorCode "failed to resolve host" "FAILED_TO_RESOLVE_HOST")) =
      ["HTTP/1.1 502 Bad Gateway\r\nContent-Length: 0\r\nConnection: close\r\n\r\n"] ∧
    HttpApi.handleForwardError [] (some (.status 14 "unavailable")) =
      ["HTTP/1.1 500 Internal Server Error\r\nContent-Length: 0\r\nConnection: close\r\n\r\n"] :=
  ⟨((C16_forward_error_response []).2
      (fault.New .forwardErrorCode "failed to resolve host" "FAILED_TO_RESOLVE_HOST")).2.1 rfl,
    ((C16_forward_error_response []).2 (.status 14 "unavailable")).1 (Or.inl rfl)⟩

/-! ## Theorems: the dial handshake on the forward stream -/

/-- A `Send` adds itself, with its error, to the calls made on the stream. -/
theorem RawStream.Send_log {Snd Rcv : Type} (s : RawStream Snd Rcv) (m : Snd) :
    (s.Send m).2.log = s.log ++ [.send m (s.Send m).1] := by
  unfold RawStream.Send
  cases s.sendResults <;> rfl

/-- A `Recv` adds itself to the calls made on the stream. -/
theorem RawStream.Recv_log {Snd Rcv : Type} (s : RawStream Snd Rcv) :
    s.Recv.2.log = s.log ++ [.recv] := by
  unfold RawStream.Recv
  cases s.incoming <;> rfl

/-- The messages sent among the calls of one list followed by another. -/
theorem sendsOf_append {α : Type} (a b : List (StreamOp α)) :
    sendsOf (a ++ b) = sendsOf a ++ sendsOf b := by
  induction a with
  | nil => rfl
  | cons op rest ih => cases op <;> simp [sendsOf, ih]

/-- An error whose chain holds no fault of the code type has the code `UNKNOWN`. -/
theorem codeLoop_unknown (ty : CodeType) (e : GoError)
    (h : ∀ x ∈ e.chain, x.faultCodeAt ty = none) : e.codeLoop ty = fault.Unknown := by
  rw [codeLoop_chain, List.findSome?_eq_none_iff.mpr h]
  rfl

/-- C11: on a stream that opened, `forwardClient.Dial` sends `Dial{destination: address}` and
nothing else, and receives at most once, after that send. It returns a connection (with a nil
error) exactly when the send succeeded and the frame received is `DialResponse{UNSPECIFIED}`;
on `FAILED_TO_RESOLVE_HOST` and `HOST_UNREACHABLE` it returns no connection and a fault of that
code; when `Recv` fails it returns no connection and the error of `Recv`, whose code is
`UNKNOWN` as long as no fault is on its chain (a gRPC status error has none). -/
theorem C11_dial_handshake (stream : RawStream ForwardRequest ForwardResponse) (size : Nat)
    (address : String) :
    ((forwardClient.Dial none stream size address).2.log =
        stream.log ++ [.send (.dialRequest address) (stream.Send (.dialRequest address)).1] ∨
      (forwardClient.Dial none stream size address).2.log =
        stream.log ++ [.send (.dialRequest address) none, .recv]) ∧
    ((∃ c, (forwardClient.Dial none stream size address).1 = .conn c) ↔
      (stream.Send (.dialRequest address)).1 = none ∧
        (stream.Send (.dialRequest address)).2.Recv.1 =
          .msg (.dialResponse .CODE_UNSPECIFIED)) ∧
    ((stream.Send (.dialRequest address)).1 = none →
      ((stream.Send (.dialRequest address)).2.Recv.1 =
          .msg (.dialResponse .CODE_FAILED_TO_RESOLVE_HOST) →
        ∃ e, (forwardClient.Dial none stream size address).1 = .fail e ∧
          fault.Code .forwardErrorCode (some e) = common.ForwardFailedToResolveHost) ∧
      ((stream.Send (.dialRequest address)).2.Recv.1 =
          .msg (.dialResponse .CODE_HOST_UNREACHABLE) →
        ∃ e, (forwardClient.Dial none stream size address).1 = .fail e ∧
          fault.Code .forwardErrorCode (some e) = common.ForwardHostUnreachable) ∧
      (∀ e, (stream.Send (.dialRequest address)).2.Recv.1 = .fail e →
        (forwardClient.Dial none stream size address).1 = .fail e ∧
        ((∀ x ∈ e.chain, x.faultCodeAt .forwardErrorCode = none) →
          fault.Code .forwardErrorCode (some e) = fault.Unknown) ∧
        (∀ code msg, e = .status code msg →
          fault.Code .forwardErrorCode (some e) = fault.Unknown))) := by
  have hlog := RawStream.Send_log stream (.dialRequest address)
  unfold forwardClient.Dial
  rcases hs : stream.Send (.dialRequest address) with ⟨sendErr, s1⟩
  rw [hs] at hlog
  simp only at hlog ⊢
  cases sendErr with
  | some err =>
    refine ⟨Or.inl hlog, ?_, ?_⟩
    · simp
    · intro h; simp at h
  | none =>
    have hlog2 := RawStream.Recv_log s1
    rcases hr : s1.Recv with ⟨got, s2⟩
    rw [hr] at hlog2
    simp only [hr] at hlog2 ⊢
    have hl : s2.log = stream.log ++ [.send (.dialRequest address) none, .recv] := by
      rw [hlog2, hlog]; simp
    cases got with
    | fail err =>
      refine ⟨Or.inr hl, by simp, fun _ => ⟨by simp, by simp, ?_⟩⟩
      intro e he
      simp only [Received.fail.injEq] at he
      subst he
      exact ⟨rfl, fun h => codeLoop_unknown _ _ h, fun code msg h => by subst h; rfl⟩
    | msg m =>
      cases m with
      | dialResponse code =>
        cases code <;> simp only <;>
          refine ⟨Or.inr hl, by simp, fun _ => ⟨?_, ?_, by simp⟩⟩ <;>
          first
            | (intro h; simp at h)
            | (intro _; exact ⟨_, rfl, rfl⟩)
      | transferResponse data =>
        refine ⟨Or.inr hl, by simp, fun _ => ⟨by simp, by simp, by simp⟩⟩
      | unset =>
        refine ⟨Or.inr hl, by simp, fun _ => ⟨by simp, by simp, by simp⟩⟩

/-- C11 at the stream of the test `TestForwardClient_Dial_ErrorCodes`, case `grpc error
(Unavailable)`, and at a stream that acknowledges the dial. -/
theorem C11_dial_handshake_witness :
    (forwardClient.Dial none unavailableStream 32768 "grpcerror.com:80").1 =
      .fail (.status 14 "unavailable") ∧
    fault.Code .forwardErrorCode (some (.status 14 "unavailable")) = fault.Unknown ∧
    ∃ c, (forwardClient.Dial none ackStream 32768 "ok.com:80").1 = .conn c :=
  ⟨(((C11_dial_handshake unavailableStream 32768 "grpcerror.com:80").2.2 rfl).2.2
      (.status 14 "unavailable") rfl).1,
    (((C11_dial_handshake unavailableStream 32768 "grpcerror.com:80").2.2 rfl).2.2
      (.status 14 "unavailable") rfl).2.2 14 "unavailable" rfl,
    (C11_dial_handshake ackStream 32768 "ok.com:80").2.1.mpr ⟨rfl, rfl⟩⟩

/-- What `ForwardServer.Forward` comes to once it has received a `Dial` frame with a
destination. -/
theorem ForwardServer.Forward_dial (svc : Forwarder)
    (stream s1 : RawStream ForwardResponse ForwardRequest) (d : String)
    (hr : stream.Recv = (.msg (.dialRequest d), s1)) (hd : d ≠ "") :
    ForwardServer.Forward svc stream =
      let acked := s1.Send (.dialResponse .CODE_UNSPECIFIED)
      let run := svc d (ForwardServer.acceptErr acked.1)
      let s2 :=
        if run.accepted then
          match acked.1 with
          | some _ => acked.2
          | none => spliceSends acked.2 run.written
        else s1
      let code := fault.Code .forwardErrorCode run.err
      if code = fault.Ok then ⟨none, some d, s2⟩
      else if code = fault.Unknown then ⟨some (.status codes.Unknown ""), some d, s2⟩
      else if code = common.ForwardInternal then ⟨some (.status codes.Internal ""), some d, s2⟩
      else
        let pbCode :=
          if code = common.ForwardFailedToResolveHost then
            DialResponse_Code.CODE_FAILED_TO_RESOLVE_HOST
          else if code = common.ForwardHostUnreachable then
            DialResponse_Code.CODE_HOST_UNREACHABLE
          else DialResponse_Code.CODE_UNSPECIFIED
        match s2.Send (.dialResponse pbCode) with
        | (some _, s3) => ⟨some (.status codes.Internal ""), some d, s3⟩
        | (none, s3) => ⟨none, some d, s3⟩ := by
  unfold ForwardServer.Forward
  simp only [hr, if_neg hd]

/-- The frames of the splice come after the calls already made on the stream. -/
theorem spliceSends_log (written : List Bytes) :
    ∀ s : RawStream ForwardResponse ForwardRequest,
      ∃ rest, (spliceSends s written).log = s.log ++ rest := by
  induction written with
  | nil => intro s; exact ⟨[], by simp [spliceSends]⟩
  | cons data more ih =>
    intro s
    unfold spliceSends
    split_ifs
    · exact ih s
    · have hlog := RawStream.Send_log s (.transferResponse data)
      rcases hs : s.Send (.transferResponse data) with ⟨err, s1⟩
      rw [hs] at hlog
      simp only at hlog ⊢
      cases err with
      | some e => exact ⟨_, hlog⟩
      | none =>
        obtain ⟨rest, hrest⟩ := ih s1
        exact ⟨_, by rw [hrest, hlog, List.append_assoc]⟩

/-- C12: `ForwardServer.Forward` invokes the forwarder exactly when the first frame received is
a `Dial` with a non-empty destination, and hands it that destination; when the first frame is
another message it returns the status `FailedPrecondition`, when it is a `Dial` with an empty
destination it returns the status `InvalidArgument`, and in both cases it has made no call on
the stream but the `Recv` and has not invoked the forwarder. -/
theorem C12_forwarder_invoked_on_dial_only (svc : Forwarder)
    (stream : RawStream ForwardResponse ForwardRequest) :
    (∀ d, (ForwardServer.Forward svc stream).forwarded = some d ↔
      (stream.Recv.1 = .msg (.dialRequest d) ∧ d ≠ "")) ∧
    (∀ m, stream.Recv.1 = .msg m → (∀ d, m ≠ .dialRequest d) →
      (ForwardServer.Forward svc stream).result =
          some (.status codes.FailedPrecondition "initial request must be a dial request") ∧
        (ForwardServer.Forward svc stream).forwarded = none ∧
        (ForwardServer.Forward svc stream).stream.log = stream.log ++ [.recv]) ∧
    (stream.Recv.1 = .msg (.dialRequest "") →
      (ForwardServer.Forward svc stream).result =
          some (.status codes.InvalidArgument "destination cannot be empty") ∧
        (ForwardServer.Forward svc stream).forwarded = none ∧
        (ForwardServer.Forward svc stream).stream.log = stream.log ++ [.recv]) := by
  have hlog := RawStream.Recv_log stream
  rcases hr : stream.Recv with ⟨got, s1⟩
  rw [hr] at hlog
  simp only at hlog ⊢
  cases got with
  | fail err =>
    refine ⟨fun d => ?_, fun m h => by simp at h, fun h => by simp at h⟩
    simp [ForwardServer.Forward, hr]
  | msg m =>
    cases m with
    | dialRequest dest =>
      by_cases hd : dest = ""
      · subst hd
        refine ⟨fun d => ?_, fun m h hm => ?_, fun _ => ?_⟩
        · simp only [ForwardServer.Forward, hr, if_true]
          constructor
          · intro h; simp at h
          · rintro ⟨h1, h2⟩
            simp only [Received.msg.injEq, ForwardRequest.dialRequest.injEq] at h1
            exact absurd h1.symm h2
        · simp only [Received.msg.injEq] at h
          exact absurd h.symm (hm "")
        · simpa [ForwardServer.Forward, hr] using hlog
      · refine ⟨fun d => ?_, fun m h hm => ?_, fun h => ?_⟩
        · rw [ForwardServer.Forward_dial svc stream s1 dest hr hd]
          simp only [Received.msg.injEq, ForwardRequest.dialRequest.injEq]
          constructor
          · intro h
            have : dest = d := by
              split_ifs at h <;> try (simpa using h)
              all_goals (split at h <;> simpa using h)
            exact ⟨this, this ▸ hd⟩
          · rintro ⟨rfl, _⟩
            split_ifs <;> try rfl
            all_goals (split <;> rfl)
        · simp only [Received.msg.injEq] at h
          exact absurd h.symm (hm dest)
        · simp only [Received.msg.injEq, ForwardRequest.dialRequest.injEq] at h
          exact absurd h hd
    | transferRequest data =>
      refine ⟨fun d => ?_, fun m _ _ => ?_, fun h => by simp at h⟩
      · simp [ForwardServer.Forward, hr]
      · simpa [ForwardServer.Forward, hr] using hlog
    | unset =>
      refine ⟨fun d => ?_, fun m _ _ => ?_, fun h => by simp at h⟩
      · simp [ForwardServer.Forward, hr]
      · simpa [ForwardServer.Forward, hr] using hlog

/-- C13: after a `Dial` frame with a destination, when the forwarder fails at dial (it returns
without calling `accept`) with the code `FAILED_TO_RESOLVE_HOST`, respectively
`HOST_UNREACHABLE`, the server makes one `Send`, of a `DialResponse` with that code, and returns
nil when the send succeeds (status `Internal` when it fails); when `accept` is called and its
send succeeds, the first frame the server sends is `DialResponse{UNSPECIFIED}`, and a forwarder
that then returns nil ends the stream with nil; an error coded `UNKNOWN`, respectively
`INTERNAL`, is answered by the status `Unknown`, respectively `Internal`, and by no frame when
the forwarder failed at dial. -/
theorem C13_dial_response_frames (svc : Forwarder)
    (stream : RawStream ForwardResponse ForwardRequest) (d : String)
    (hrecv : stream.Recv.1 = .msg (.dialRequest d)) (hd : d ≠ "") :
    (∀ code pb,
      ((code = common.ForwardFailedToResolveHost ∧
          pb = DialResponse_Code.CODE_FAILED_TO_RESOLVE_HOST) ∨
        (code = common.ForwardHostUnreachable ∧
          pb = DialResponse_Code.CODE_HOST_UNREACHABLE)) →
      (∀ a, (svc d a).accepted = false ∧ fault.Code .forwardErrorCode (svc d a).err = code) →
      (ForwardServer.Forward svc stream).stream.log =
          stream.log ++ [.recv,
            .send (.dialResponse pb) (stream.Recv.2.Send (.dialResponse pb)).1] ∧
        ((stream.Recv.2.Send (.dialResponse pb)).1 = none →
          (ForwardServer.Forward svc stream).result = none) ∧
        ((stream.Recv.2.Send (.dialResponse pb)).1 ≠ none →
          (ForwardServer.Forward svc stream).result = some (.status codes.Internal ""))) ∧
    ((stream.Recv.2.Send (.dialResponse .CODE_UNSPECIFIED)).1 = none →
      (svc d none).accepted = true →
      (∃ rest, (ForwardServer.Forward svc stream).stream.log =
          stream.log ++ [.recv, .send (.dialResponse .CODE_UNSPECIFIED) none] ++ rest) ∧
        ((svc d none).err = none → (ForwardServer.Forward svc stream).result = none)) ∧
    (∀ code st,
      ((code = fault.Unknown ∧ st = codes.Unknown) ∨
        (code = common.ForwardInternal ∧ st = codes.Internal)) →
      (∀ a, fault.Code .forwardErrorCode (svc d a).err = code) →
      (ForwardServer.Forward svc stream).result = some (.status st "") ∧
        ((∀ a, (svc d a).accepted = false) →
          (ForwardServer.Forward svc stream).stream.log = stream.log ++ [.recv])) := by
  have hlog := RawStream.Recv_log stream
  rcases hr : stream.Recv with ⟨got, s1⟩
  rw [hr] at hlog hrecv
  simp only at hlog hrecv ⊢
  subst hrecv
  rw [ForwardServer.Forward_dial svc stream s1 d hr hd]
  refine ⟨?_, ?_, ?_⟩
  · intro code pb hcp hsvc
    obtain ⟨hacc, hcode⟩ := hsvc (ForwardServer.acceptErr (s1.Send (.dialResponse .CODE_UNSPECIFIED)).1)
    have hsl := RawStream.Send_log s1 (.dialResponse pb)
    simp only [hacc, hcode, Bool.false_eq_true, if_false]
    rcases hcp with ⟨rfl, rfl⟩ | ⟨rfl, rfl⟩
    · rw [if_neg (by decide), if_neg (by decide), if_neg (by decide)]
      simp only [if_true]
      rcases hs : s1.Send (.dialResponse .CODE_FAILED_TO_RESOLVE_HOST) with ⟨err, s3⟩
      rw [hs] at hsl
      cases err <;> simp_all
    · rw [if_neg (by decide), if_neg (by decide), if_neg (by decide)]
      simp only [if_neg (show ¬ common.ForwardHostUnreachable =
        common.ForwardFailedToResolveHost by decide), if_true]
      rcases hs : s1.Send (.dialResponse .CODE_HOST_UNREACHABLE) with ⟨err, s3⟩
      rw [hs] at hsl
      cases err <;> simp_all
  · intro hack hacc
    have hal := RawStream.Send_log s1 (.dialResponse .CODE_UNSPECIFIED)
    rw [hack] at hal
    obtain ⟨rest, hrest⟩ := spliceSends_log (svc d none).written
      (s1.Send (.dialResponse .CODE_UNSPECIFIED)).2
    have hbase : (spliceSends (s1.Send (.dialResponse .CODE_UNSPECIFIED)).2
        (svc d none).written).log =
        stream.log ++ [.recv, .send (.dialResponse .CODE_UNSPECIFIED) none] ++ rest := by
      rw [hrest, hal, hlog]; simp
    simp only [hack, ForwardServer.acceptErr, hacc, if_true]
    have key : ∀ pb, ∃ more,
        (match (spliceSends (s1.Send (.dialResponse .CODE_UNSPECIFIED)).2
            (svc d none).written).Send (.dialResponse pb) with
          | (some _, s3) => (⟨some (.status codes.Internal ""), some d, s3⟩ : ServerRun)
          | (none, s3) => ⟨none, some d, s3⟩).stream.log =
          stream.log ++ [.recv, .send (.dialResponse .CODE_UNSPECIFIED) none] ++ more := by
      intro pb
      have hsl := RawStream.Send_log (spliceSends (s1.Send (.dialResponse .CODE_UNSPECIFIED)).2
        (svc d none).written) (.dialResponse pb)
      rcases hs : (spliceSends (s1.Send (.dialResponse .CODE_UNSPECIFIED)).2
        (svc d none).written).Send (.dialResponse pb) with ⟨err, s3⟩
      rw [hs, hbase] at hsl
      cases err with
      | some e => exact ⟨_, by simpa using hsl⟩
      | none => exact ⟨_, by simpa using hsl⟩
    constructor
    · split_ifs
      · exact ⟨rest, hbase⟩
      · exact ⟨rest, hbase⟩
      · exact ⟨rest, hbase⟩
      all_goals exact key _
    · intro herr
      simp [herr, fault.Code]
  · intro code st hcs hsvc
    have hcode := hsvc (ForwardServer.acceptErr (s1.Send (.dialResponse .CODE_UNSPECIFIED)).1)
    simp only [hcode]
    rcases hcs with ⟨rfl, rfl⟩ | ⟨rfl, rfl⟩
    · rw [if_neg (by decide), if_pos rfl]
      refine ⟨rfl, fun hacc => ?_⟩
      simp only [hacc _, Bool.false_eq_true, if_false]
      exact hlog
    · rw [if_neg (by decide), if_neg (by decide), if_pos rfl]
      refine ⟨rfl, fun hacc => ?_⟩
      simp only [hacc _, Bool.false_eq_true, if_false]
      exact hlog

/-- C13 at the probe's service behind the server, its dial failing on a DNS error (scenario
S3): the one frame sent is `DialResponse{FAILED_TO_RESOLVE_HOST}` and the stream ends with
nil. -/
theorem C13_dial_response_frames_witness :
    (ForwardServer.Forward (Service.asForwarder (some (.op (.dns "no such host" false))) none [])
        dialNopeStream).stream.log =
      [.recv, .send (.dialResponse .CODE_FAILED_TO_RESOLVE_HOST) none] ∧
    (ForwardServer.Forward (Service.asForwarder (some (.op (.dns "no such host" false))) none [])
        dialNopeStream).result = none :=
  ⟨((C13_dial_response_frames
      (Service.asForwarder (some (.op (.dns "no such host" false))) none []) dialNopeStream
      "nope.invalid:80" rfl (by decide)).1 common.ForwardFailedToResolveHost
      .CODE_FAILED_TO_RESOLVE_HOST (Or.inl ⟨rfl, rfl⟩) (fun _ => ⟨rfl, rfl⟩)).1,
    ((C13_dial_response_frames
      (Service.asForwarder (some (.op (.dns "no such host" false))) none []) dialNopeStream
      "nope.invalid:80" rfl (by decide)).1 common.ForwardFailedToResolveHost
      .CODE_FAILED_TO_RESOLVE_HOST (Or.inl ⟨rfl, rfl⟩) (fun _ => ⟨rfl, rfl⟩)).2.1 rfl⟩

/-- With the probe's service behind the server and its dial succeeded, `ForwardServer.Forward`
returns the status `Unknown` when the acknowledgement sent by `accept` fails, and nil when it
succeeds, whatever error the splice ends with; the status `Internal` is what it returns when
its first `Recv` fails. -/
theorem Forward_after_successful_dial (copyErr : Option GoError) (written : List Bytes)
    (stream : RawStream ForwardResponse ForwardRequest) (d : String)
    (hrecv : stream.Recv.1 = .msg (.dialRequest d)) (hd : d ≠ "") :
    ((stream.Recv.2.Send (.dialResponse .CODE_UNSPECIFIED)).1 ≠ none →
      (ForwardServer.Forward (Service.asForwarder none copyErr written) stream).result =
        some (.status codes.Unknown "")) ∧
    ((stream.Recv.2.Send (.dialResponse .CODE_UNSPECIFIED)).1 = none →
      (ForwardServer.Forward (Service.asForwarder none copyErr written) stream).result = none) ∧
    (∀ (svc : Forwarder) (other : RawStream ForwardResponse ForwardRequest) (e : GoError),
      other.Recv.1 = .fail e →
      (ForwardServer.Forward svc other).result = some (.status codes.Internal "")) := by
  refine ⟨?_, ?_, ?_⟩
  · rcases hr : stream.Recv with ⟨got, s1⟩
    rw [hr] at hrecv
    simp only at hrecv ⊢
    subst hrecv
    intro hack
    rw [ForwardServer.Forward_dial _ stream s1 d hr hd]
    cases hsend : (s1.Send (.dialResponse .CODE_UNSPECIFIED)).1 with
    | none => exact absurd hsend hack
    | some e =>
      simp only [hsend, ForwardServer.acceptErr, Service.asForwarder, Service.Forward]
      rfl
  · rcases hr : stream.Recv with ⟨got, s1⟩
    rw [hr] at hrecv
    simp only at hrecv ⊢
    subst hrecv
    intro hack
    rw [ForwardServer.Forward_dial _ stream s1 d hr hd]
    simp only [hack, ForwardServer.acceptErr, Service.asForwarder, Service.Forward]
    rfl
  · intro svc other e he
    rcases hr : other.Recv with ⟨got, s1⟩
    rw [hr] at he
    simp only at he
    subst he
    simp [ForwardServer.Forward, hr]

/-- C14 (failing input): the probe's dial succeeds and the acknowledgement that `accept` sends
fails. `ForwardServer.Forward` ends the stream with the status `Unknown` (2), not `Internal`
(13). In the same function a failed first `Recv` and a failed send of a dial fault end the
stream with `Internal`. An error of the splice after a successful acknowledgement ends the
stream with nil. -/
theorem C14_failed_acknowledgement_is_not_internal :
    (ForwardServer.Forward (Service.asForwarder none none []) brokenAckStream).result =
      some (.status codes.Unknown "") ∧
    codes.Unknown = 2 ∧ codes.Internal = 13 ∧
    (ForwardServer.Forward (Service.asForwarder none none []) recvFailStream).result =
      some (.status codes.Internal "") ∧
    (ForwardServer.Forward
      (Service.asForwarder (some (.op (.dns "no such host" false))) none [])
      brokenAckStream).result = some (.status codes.Internal "") ∧
    (ForwardServer.Forward
      (Service.asForwarder none (some (.plain "connection reset by peer")) [[104, 105]])
      dialExampleStream).result = none := by
  decide

/-! ## Theorems: the target of a plain request and the connection events -/

/-- No place is found for a byte that does not occur. -/
theorem lastIndexByte_none (s : List Char) (c : Char) (h : c ∉ s) : lastIndexByte s c = none := by
  induction s with
  | nil => rfl
  | cons x rest ih =>
    simp only [List.mem_cons, not_or] at h
    simp only [lastIndexByte, ih h.2]
    rw [if_neg (fun hx => h.1 hx.symm)]

/-- No first place is found for a byte that does not occur. -/
theorem indexByte_none (s : List Char) (c : Char) (h : c ∉ s) : indexByte s c = none := by
  induction s with
  | nil => rfl
  | cons x rest ih =>
    simp only [List.mem_cons, not_or] at h
    simp only [indexByte, ih h.2]
    rw [if_neg (fun hx => h.1 hx.symm)]
    rfl

/-- A host without a colon (a DNS name, an IPv4 address) gets `:80` appended. -/
theorem plainTarget_without_colon (urlHost reqHost : String)
    (h : ':' ∉ (if urlHost = "" then reqHost else urlHost).toList) :
    HttpApi.plainTarget urlHost reqHost =
      (if urlHost = "" then reqHost else urlHost) ++ ":" ++ "80" := by
  unfold HttpApi.plainTarget
  simp only [net.SplitHostPort, lastIndexByte_none _ _ h, net.JoinHostPort,
    indexByte_none _ _ h, Option.isSome_none, Bool.false_eq_true, if_false, regularDefaultPort]

/-- A host that `net.SplitHostPort` splits into host and port is the target as it is. -/
theorem plainTarget_with_port (urlHost reqHost : String)
    (h : (net.SplitHostPort (if urlHost = "" then reqHost else urlHost)).isSome = true) :
    HttpApi.plainTarget urlHost reqHost = (if urlHost = "" then reqHost else urlHost) := by
  unfold HttpApi.plainTarget
  cases hs : net.SplitHostPort (if urlHost = "" then reqHost else urlHost) with
  | none => rw [hs] at h; exact absurd h (by decide)
  | some p => simp only [hs]

/-- C17, the code at the failing input: for the bracketed IPv6 literal `[::1]`, which has no
port, `handlePlain` passes `[[::1]]:80` to `forward`, not `[::1]:80`, because
`net.JoinHostPort` brackets every host that holds a colon; a DNS name and an IPv4 address get
`:80` appended, from the URL host or from the `Host` header, and hosts with a port are kept. -/
theorem C17_bracketed_ipv6_host_is_bracketed_twice :
    HttpApi.plainTarget "[::1]" "" = "[[::1]]:80" ∧
    (HttpApi.handlePlain { probes := ["A"], next := 0 } okEnv [] none "[::1]" "[::1]").map
      (fun out => out.2.1.filter HubEvent.isDial) = some [.dial 0 "A" "[[::1]]:80"] ∧
    HttpApi.plainTarget "example.com" "example.com" = "example.com:80" ∧
    HttpApi.plainTarget "" "127.0.0.1" = "127.0.0.1:80" ∧
    HttpApi.plainTarget "example.com:8080" "" = "example.com:8080" ∧
    HttpApi.plainTarget "[::1]:8080" "" = "[::1]:8080" := by
  decide

/-- The connection events of doings put one after another. -/
theorem connectionEventsOf_append {δ : Type} (a b : List (HubEvent δ)) :
    connectionEventsOf (a ++ b) = connectionEventsOf a ++ connectionEventsOf b := by
  induction a with
  | nil => rfl
  | cons ev rest ih => cases ev <;> simp [connectionEventsOf, ih]

/-- Published transfers are no connection events. -/
theorem connectionEventsOf_transfers {δ : Type} (ts : List TransferEvent) :
    connectionEventsOf (ts.map (HubEvent.publishTransfer : TransferEvent → HubEvent δ)) = [] := by
  induction ts with
  | nil => rfl
  | cons t rest ih => simp [connectionEventsOf, ih]

/-- C19, the code at the failing input: the closing event is built when the `defer` statement
runs, before the splice, so its `ClosedAt` is the clock reading taken then (`2`); a transfer
that the splice publishes afterwards finishes at `5`, later than the `ClosedAt` of its
connection. -/
theorem C19_closed_at_is_read_before_the_splice :
    (Core.forward { probes := ["A"], next := 0 } lateTransferEnv "example.com:443").map
        (fun out => out.2.1.drop 3) =
      some [.publishConnection ⟨"id", "not set", "example.com:443", 1, 0⟩,
            .publishTransfer ⟨"id", 3, 5, 10⟩,
            .duplexDone,
            .publishConnection ⟨"id", "not set", "example.com:443", 1, 2⟩,
            .closeClient, .closeTarget] ∧
    lateTransferEnv.nowOpened ≤ lateTransferEnv.nowDeferred ∧
    (∀ t ∈ lateTransferEnv.transfers,
      lateTransferEnv.nowDeferred ≤ t.StartedAt ∧ t.StartedAt ≤ t.FinishedAt ∧
        ¬ t.FinishedAt ≤ lateTransferEnv.nowDeferred) := by
  decide

/-- C20, as amended: in a call of `forward` in which the dial, `accept` and the drawing of the
connection id succeed, two connection events are published: the opening one, whose `ClosedAt`
is Unix time `0`, before every transfer event and before the splice is over, and the closing one
after the splice; both carry the same connection id, target address and `OpenedAt`. -/
theorem C20_two_connection_events {δ : Type} (core : Core δ) (env : ForwardEnv)
    (target : String) (h : core.next < core.probes.length) (hd : env.dialErr = none)
    (ha : env.acceptErr = none) (hu : env.uuidErr = none) :
    ∃ probe core1 opened closing events,
      core.forward env target = some (none, events, core1) ∧
      events = [.dial core.next probe target, .accept, .newConnectionId,
          .publishConnection opened] ++ env.transfers.map .publishTransfer ++
          [.duplexDone, .publishConnection closing, .closeClient, .closeTarget] ∧
      connectionEventsOf events = [opened, closing] ∧
      opened.ClosedAt = 0 ∧ opened.TargetAddress = target ∧
      closing.ConnectionId = opened.ConnectionId ∧
      closing.TargetAddress = opened.TargetAddress ∧ closing.OpenedAt = opened.OpenedAt := by
  have hget : core.probes.get? core.next = some (core.probes.get ⟨core.next, h⟩) :=
    List.get?_eq_get h
  refine ⟨core.probes.get ⟨core.next, h⟩,
    (if (core.next : Int) ≥ (core.probes.length : Int) - 1 then { core with next := 0 }
      else { core with next := core.next + 1 }),
    { ConnectionId := env.connectionId, ClientAddress := "not set", TargetAddress := target,
      OpenedAt := env.nowOpened, ClosedAt := 0 },
    { ConnectionId := env.connectionId, ClientAddress := "not set", TargetAddress := target,
      OpenedAt := env.nowOpened, ClosedAt := env.nowDeferred }, _, ?_, rfl, ?_, ?_⟩
  · unfold Core.forward
    simp only [hget, hd, ha, hu]
    rfl
  · simp [connectionEventsOf_append, connectionEventsOf_transfers, connectionEventsOf]
  · exact ⟨rfl, rfl, rfl, rfl, rfl⟩

/-- C20, as amended, at a core of one probe and a call in which everything succeeds. -/
theorem C20_two_connection_events_witness :
    ∃ opened closing events core1,
      Core.forward { probes := ["A"], next := 0 } okEnv "example.com:443" =
        some (none, events, core1) ∧
      connectionEventsOf events = [opened, closing] ∧ opened.ClosedAt = 0 ∧
      closing.ConnectionId = opened.ConnectionId ∧ closing.OpenedAt = opened.OpenedAt :=
  (C20_two_connection_events { probes := ["A"], next := 0 } okEnv "example.com:443"
    (by decide) rfl rfl rfl).elim fun _ h => h.elim fun core1 h => h.elim fun opened h =>
      h.elim fun closing h => h.elim fun events h =>
        ⟨opened, closing, events, core1, h.1, h.2.2.1, h.2.2.2.1, h.2.2.2.2.2.1,
          h.2.2.2.2.2.2.2⟩

/-- C20 fails as stated: dial and `accept` succeed, the connection id cannot be drawn, and
`forward` returns an error without publishing any connection event. -/
theorem C20_no_event_without_connection_id :
    uuidFailEnv.dialErr = none ∧ uuidFailEnv.acceptErr = none ∧
    (Core.forward { probes := ["A"], next := 0 } uuidFailEnv "example.com:443").map
        (fun out => (out.1, connectionEventsOf out.2.1)) =
      some (some (.wrap "failed to create random connection id" (.plain "entropy exhausted")),
        []) := by
  decide

/-! ## Theorems: telemetry subscription, multi-publisher, interceptors, unknown dial codes -/

/-- C30 (failing input): when the first frame of the probe is a dial response with the code `7`,
`forwardClient.Dial` ends in the panic `unreachable`: it returns neither a connection nor an
error. -/
theorem C30_unknown_dial_code_panics :
    (forwardClient.Dial none unknownCodeStream 1024 "example.com:443").1 =
      .panic "unreachable" := by
  decide

/-- C24 (failing input): from a stream whose first response carries the events 1, 2, 3, the
first three calls of `Receive` return 3, 2, 1: within one response the events come out in
reverse list order. The empty response is skipped and the event 4 of the third response comes
after them. -/
theorem C24_events_of_one_response_come_reversed :
    (threeEventSubscription.receiveMany 4).map (fun e => e.BytesCount) = [3, 2, 1, 4] := by
  decide

theorem publishLoop_spec {T : Type} (event : T) (ps : List (Publisher T)) (i : Nat) :
    multiPublisher.publishLoop event ps i =
      (ps.map (fun p => p.result event),
       ps.map (fun p => { p with got := p.got ++ [event] }),
       List.range' i ps.length) := by
  induction ps generalizing i with
  | nil => rfl
  | cons p ps ih =>
    simp [multiPublisher.publishLoop, Publisher.Publish, ih, List.range'_succ]

theorem errors_Join_none (errs : List (Option GoError)) :
    errors.Join errs = none ↔ ∀ e ∈ errs, e = none := by
  unfold errors.Join
  split
  · rename_i h
    refine ⟨fun _ => ?_, fun _ => rfl⟩
    intro e he
    cases e with
    | none => rfl
    | some x =>
      have : x ∈ errs.filterMap id := by
        simp [List.mem_filterMap]; exact he
      rw [h] at this
      cases this
  · rename_i h
    refine ⟨fun h1 => (by cases h1), fun hall => ?_⟩
    exfalso
    apply h
    rw [List.filterMap_eq_nil_iff]
    intro e he
    rw [hall e he]; rfl

/-- What `multiPublisher.Publish` does with the list `m.publishers`: one call for each entry, in
list order, and the join of the errors. -/
theorem multiPublisher_Publish_spec {T : Type} (m : multiPublisher T) (event : T) :
    (m.Publish event).2.publishers =
        m.publishers.map (fun p => { p with got := p.got ++ [event] }) ∧
      (m.Publish event).2.calls = m.calls ++ List.range m.publishers.length ∧
      ((m.Publish event).1 = none ↔ ∀ p ∈ m.publishers, p.result event = none) ∧
      ((m.Publish event).1 ≠ none →
        (m.Publish event).1 = some (m.publishers.filterMap (fun p => p.result event))) ∧
      (m.publishers = [] → (m.Publish event).1 = none) := by
  have hl := publishLoop_spec event m.publishers 0
  have hP : m.Publish event =
      (errors.Join (m.publishers.map (fun p => p.result event)),
       { publishers := m.publishers.map (fun p => { p with got := p.got ++ [event] }),
         calls := m.calls ++ List.range' 0 m.publishers.length }) := by
    simp only [multiPublisher.Publish, hl]
  have hnone : errors.Join (m.publishers.map (fun p => p.result event)) = none ↔
      ∀ p ∈ m.publishers, p.result event = none := by
    rw [errors_Join_none]
    simp
  rw [hP]
  refine ⟨rfl, ?_, hnone, ?_, ?_⟩
  · simp [List.range_eq_range']
  · intro hne
    simp only [errors.Join] at hne ⊢
    split
    · rename_i h
      simp [h] at hne
    · simp [List.filterMap_map]
  · intro hnil
    simp [hnil, errors.Join]

theorem register_foldl {T : Type} (pubs : List (Publisher T)) : ∀ m : multiPublisher T,
    (pubs.foldl multiPublisher.register m).publishers = m.publishers ++ pubs ∧
    (pubs.foldl multiPublisher.register m).calls = m.calls := by
  induction pubs with
  | nil => intro m; simp
  | cons p ps ih =>
    intro m
    obtain ⟨h1, h2⟩ := ih (m.register p)
    rw [List.foldl_cons, h1, h2]
    simp [multiPublisher.register]

/-- C25: let the downstream publishers `pubs` be registered one after the other, by
`register`, on a `multiPublisher` that holds `m.publishers` already. The registered list is
then `m.publishers` followed by `pubs`, and `Publish` calls `Publish` once on every entry of
it, in that order, whatever the earlier ones returned; it returns nil exactly when every
downstream returned nil, and else the join of the downstream errors in order. On the
`multiPublisher` of `newMultiTelemetryPublisher`, with nothing registered, it returns nil and
calls nothing. -/
theorem C25_publish_reaches_every_downstream {T : Type} (m : multiPublisher T)
    (pubs : List (Publisher T)) (event : T) :
    (pubs.foldl multiPublisher.register m).publishers = m.publishers ++ pubs ∧
    ((pubs.foldl multiPublisher.register m).Publish event).2.publishers =
      (m.publishers ++ pubs).map (fun p => { p with got := p.got ++ [event] }) ∧
    ((pubs.foldl multiPublisher.register m).Publish event).2.calls =
      m.calls ++ List.range (m.publishers.length + pubs.length) ∧
    (((pubs.foldl multiPublisher.register m).Publish event).1 = none ↔
      ∀ p ∈ m.publishers ++ pubs, p.result event = none) ∧
    (((pubs.foldl multiPublisher.register m).Publish event).1 ≠ none →
      ((pubs.foldl multiPublisher.register m).Publish event).1 =
        some ((m.publishers ++ pubs).filterMap (fun p => p.result event))) ∧
    ((pubs.foldl multiPublisher.register (newMultiPublisher T)).Publish event).2.calls =
      List.range pubs.length ∧
    ((newMultiPublisher T).Publish event).1 = none ∧
    ((newMultiPublisher T).Publish event).2.calls = [] := by
  obtain ⟨hp, hc⟩ := register_foldl pubs m
  obtain ⟨h1, h2, h3, h4, _⟩ :=
    multiPublisher_Publish_spec (pubs.foldl multiPublisher.register m) event
  rw [hp] at h1 h3 h4
  rw [hp, hc, List.length_append] at h2
  obtain ⟨hp0, hc0⟩ := register_foldl pubs (newMultiPublisher T)
  have h20 :=
    (multiPublisher_Publish_spec (pubs.foldl multiPublisher.register (newMultiPublisher T))
      event).2.1
  rw [hp0, hc0] at h20
  refine ⟨hp, h1, h2, h3, h4, ?_, ?_, ?_⟩
  · simpa [newMultiPublisher] using h20
  · exact (multiPublisher_Publish_spec (newMultiPublisher T) event).2.2.2.2 rfl
  · simpa [newMultiPublisher] using (multiPublisher_Publish_spec (newMultiPublisher T) event).2.1

/-- C25 (witness): a failing downstream registered before a succeeding one; both are called,
in that order, and each is handed the event. -/
theorem C25_publish_reaches_every_downstream_witness :
    (([failingPublisher, quietPublisher].foldl multiPublisher.register
        (newMultiPublisher Nat)).Publish 7).2.calls = List.range 2 ∧
    (([failingPublisher, quietPublisher].foldl multiPublisher.register
        (newMultiPublisher Nat)).Publish 7).2.publishers =
      ((newMultiPublisher Nat).publishers ++ [failingPublisher, quietPublisher]).map
        (fun p => { p with got := p.got ++ [7] }) ∧
    (([failingPublisher, quietPublisher].foldl multiPublisher.register
        (newMultiPublisher Nat)).Publish 7).1 ≠ none :=
  ⟨(C25_publish_reaches_every_downstream (newMultiPublisher Nat)
      [failingPublisher, quietPublisher] 7).2.2.2.2.2.1,
    (C25_publish_reaches_every_downstream (newMultiPublisher Nat)
      [failingPublisher, quietPublisher] 7).2.1,
    fun h => absurd
      ((C25_publish_reaches_every_downstream (newMultiPublisher Nat)
        [failingPublisher, quietPublisher] 7).2.2.2.1.mp h failingPublisher (by simp))
      (by simp [failingPublisher])⟩

theorem cutChars_append (sep : Char) (before after : List Char) (h : sep ∉ before) :
    strings.cutChars sep (before ++ sep :: after) = some (before, after) := by
  induction before with
  | nil => simp [strings.cutChars]
  | cons c cs ih =>
    have hc : c ≠ sep := fun hcs => h (by simp [hcs])
    have hcs : sep ∉ cs := fun hm => h (by simp [hm])
    simp [strings.cutChars, hc, ih hcs]

theorem cutChars_some (sep : Char) (l before after : List Char)
    (h : strings.cutChars sep l = some (before, after)) :
    l = before ++ sep :: after ∧ sep ∉ before := by
  induction l generalizing before with
  | nil => simp [strings.cutChars] at h
  | cons c cs ih =>
    unfold strings.cutChars at h
    by_cases hc : c = sep
    · simp [hc] at h
      obtain ⟨rfl, rfl⟩ := h
      simp [hc]
    · simp only [hc, if_false] at h
      cases hr : strings.cutChars sep cs with
      | none => simp [hr] at h
      | some p =>
        obtain ⟨b, a⟩ := p
        simp [hr] at h
        obtain ⟨rfl, rfl⟩ := h
        obtain ⟨h1, h2⟩ := ih b hr
        refine ⟨by simp [h1], ?_⟩
        simp only [List.mem_cons, not_or]
        exact ⟨fun hsc => hc hsc.symm, h2⟩

theorem strings_Cut_append (scheme token : String) (h : ' ' ∉ scheme.toList) :
    strings.Cut (scheme ++ " " ++ token) ' ' = (scheme, token, true) := by
  have hl : (scheme ++ " " ++ token).toList = scheme.toList ++ ' ' :: token.toList := by
    simp [String.toList, String.data_append]
  simp only [strings.Cut, hl, cutChars_append _ _ _ h]
  rfl

theorem strings_Cut_found (s before after : String)
    (h : strings.Cut s ' ' = (before, after, true)) :
    s = before ++ " " ++ after ∧ ' ' ∉ before.toList := by
  unfold strings.Cut at h
  simp only [String.toList] at h
  cases hr : strings.cutChars ' ' s.data with
  | none => simp [hr] at h
  | some p =>
    obtain ⟨b, a⟩ := p
    simp only [hr, Prod.mk.injEq, and_true] at h
    obtain ⟨rfl, rfl⟩ := h
    obtain ⟨h1, h2⟩ := cutChars_some _ _ _ _ hr
    refine ⟨?_, h2⟩
    apply String.ext
    simp [String.data_append]
    exact h1

theorem lookup_Append (md : metadata.MD) (key value : String)
    (h : md.lookup key = none) : (metadata.Append md key value).lookup key = some [value] := by
  induction md with
  | nil => simp [metadata.Append, List.lookup]
  | cons p rest ih =>
    obtain ⟨k, vs⟩ := p
    by_cases hk : key = k
    · subst hk
      simp [List.lookup] at h
    · have hk2 : ¬ k = key := fun e => hk e.symm
      have hb : (key == k) = false := by simpa using hk
      simp only [List.lookup, hb] at h
      simp only [metadata.Append, hk2, if_false, List.lookup, hb]
      exact ih h

theorem NewServerInterceptor_accept (secret : String) (m : metadata.MD)
    (handler : Option GoError) (first : String) (rest : List String) (scheme : String)
    (hl : m.lookup "authorization" = some (first :: rest))
    (hf : first = scheme ++ " " ++ secret) (hs : ' ' ∉ scheme.toList)
    (hb : strings.ToLower scheme = "bearer") :
    NewServerInterceptor secret (some m) handler = ⟨handler, 1⟩ := by
  simp [NewServerInterceptor, hl, hf, strings_Cut_append _ _ hs, hb]

theorem NewServerInterceptor_cases (secret : String) (md : Option metadata.MD)
    (handler : Option GoError) :
    (NewServerInterceptor secret md handler = ⟨handler, 1⟩ ∧
      ∃ m first rest scheme, md = some m ∧
        m.lookup "authorization" = some (first :: rest) ∧
        first = scheme ++ " " ++ secret ∧ ' ' ∉ scheme.toList ∧
        strings.ToLower scheme = "bearer") ∨
    ((∃ msg, NewServerInterceptor secret md handler =
        ⟨some (.status codes.Unauthenticated msg), 0⟩) ∧
      ¬ ∃ m first rest scheme, md = some m ∧
        m.lookup "authorization" = some (first :: rest) ∧
        first = scheme ++ " " ++ secret ∧ ' ' ∉ scheme.toList ∧
        strings.ToLower scheme = "bearer") := by
  cases md with
  | none => right; exact ⟨⟨_, rfl⟩, by simp⟩
  | some m =>
    cases hl : m.lookup "authorization" with
    | none => right; exact ⟨⟨_, by simp [NewServerInterceptor, hl]; rfl⟩, by simp [hl]⟩
    | some header =>
      cases header with
      | nil => right; exact ⟨⟨_, by simp [NewServerInterceptor, hl]; rfl⟩, by simp [hl]⟩
      | cons first rest =>
        rcases hc : strings.Cut first ' ' with ⟨bearer, token, found⟩
        have hno : ∀ scheme, first = scheme ++ " " ++ secret → ' ' ∉ scheme.toList →
            bearer = scheme ∧ token = secret ∧ found = true := by
          intro scheme hf hs
          rw [hf, strings_Cut_append _ _ hs] at hc
          simp only [Prod.mk.injEq] at hc
          exact ⟨hc.1.symm, hc.2.1.symm, hc.2.2.symm⟩
        by_cases h1 : found = true ∧ strings.ToLower bearer = "bearer"
        · by_cases h2 : token = secret
          · left
            obtain ⟨hfound, hlow⟩ := h1
            subst hfound
            obtain ⟨hf, hs⟩ := strings_Cut_found _ _ _ hc
            subst h2
            exact ⟨NewServerInterceptor_accept _ m handler first rest bearer hl hf hs hlow,
              m, first, rest, bearer, rfl, hl, hf, hs, hlow⟩
          · right
            refine ⟨⟨"invalid token", ?_⟩, ?_⟩
            · simp [NewServerInterceptor, hl, hc, h1.1, h1.2, h2]
            · rintro ⟨m1, f1, r1, scheme, hm, hl1, hf, hs, _⟩
              cases hm
              rw [hl] at hl1
              cases hl1
              exact h2 (hno scheme hf hs).2.1
        · right
          refine ⟨⟨"invalid authorization header", ?_⟩, ?_⟩
          · simp only [NewServerInterceptor, hl, hc]
            have : (!found || strings.ToLower bearer != "bearer") = true := by
              cases found with
              | false => rfl
              | true =>
                have : strings.ToLower bearer ≠ "bearer" := fun e => h1 ⟨rfl, e⟩
                simpa using this
            simp [this]
          · rintro ⟨m1, f1, r1, scheme, hm, hl1, hf, hs, hlow⟩
            cases hm
            rw [hl] at hl1
            cases hl1
            obtain ⟨e1, _, e3⟩ := hno scheme hf hs
            exact h1 ⟨e3, by rw [e1]; exact hlow⟩

/-- C26: the server interceptor calls the wrapped handler (once, returning its error) exactly
when the incoming metadata has an `authorization` entry whose first value is a scheme without a
space, one space, and the configured secret, the scheme being `bearer` up to case. In every
other case it returns an `Unauthenticated` status and does not call the handler. The header
that `NewClientInterceptor(t)` adds to a context without one is accepted exactly when `t` is
the secret. -/
theorem C26_server_interceptor_accepts_exactly_the_secret (secret : String)
    (md : Option metadata.MD) (handler : Option GoError) :
    ((NewServerInterceptor secret md handler).handlerCalls = 1 ↔
      ∃ m first rest scheme, md = some m ∧
        m.lookup "authorization" = some (first :: rest) ∧
        first = scheme ++ " " ++ secret ∧ ' ' ∉ scheme.toList ∧
        strings.ToLower scheme = "bearer") ∧
    ((NewServerInterceptor secret md handler).handlerCalls = 1 →
      (NewServerInterceptor secret md handler).err = handler) ∧
    ((NewServerInterceptor secret md handler).handlerCalls ≠ 1 →
      (NewServerInterceptor secret md handler).handlerCalls = 0 ∧
      ∃ msg, (NewServerInterceptor secret md handler).err =
        some (.status codes.Unauthenticated msg)) ∧
    (∀ (t : String) (outgoing : metadata.MD), outgoing.lookup "authorization" = none →
      ((NewServerInterceptor secret (some (NewClientInterceptor t outgoing))
        handler).handlerCalls = 1 ↔ t = secret)) := by
  refine ⟨?_, ?_, ?_, ?_⟩
  · rcases NewServerInterceptor_cases secret md handler with ⟨h, hex⟩ | ⟨⟨msg, h⟩, hex⟩
    · rw [h]; exact ⟨fun _ => hex, fun _ => rfl⟩
    · rw [h]; exact ⟨fun h0 => by simp at h0, fun h1 => absurd h1 hex⟩
  · rcases NewServerInterceptor_cases secret md handler with ⟨h, _⟩ | ⟨⟨msg, h⟩, _⟩
    · rw [h]; intro _; rfl
    · rw [h]; intro h0; simp at h0
  · rcases NewServerInterceptor_cases secret md handler with ⟨h, _⟩ | ⟨⟨msg, h⟩, _⟩
    · rw [h]; intro h0; exact absurd rfl h0
    · rw [h]; intro _; exact ⟨rfl, msg, rfl⟩
  · intro t outgoing hout
    have hl := lookup_Append outgoing "authorization" ("bearer " ++ t) hout
    have hs : ' ' ∉ ("bearer" : String).toList := by decide
    have hcut : strings.Cut ("bearer " ++ t) ' ' = ("bearer", t, true) :=
      strings_Cut_append "bearer" t hs
    have hlow : strings.ToLower "bearer" = "bearer" := by decide
    by_cases ht : t = secret
    · subst ht
      simp [NewServerInterceptor, NewClientInterceptor, hl, hcut, hlow]
    · simp [NewServerInterceptor, NewClientInterceptor, hl, hcut, hlow, ht]

/-- C26 (witness): the header `Bearer s3cret` is accepted for the secret `s3cret`. -/
theorem C26_server_interceptor_accepts_exactly_the_secret_witness :
    (NewServerInterceptor "s3cret" (some [("authorization", ["Bearer s3cret"])])
      none).handlerCalls = 1 :=
  (C26_server_interceptor_accepts_exactly_the_secret "s3cret"
    (some [("authorization", ["Bearer s3cret"])]) none).1.mpr
    ⟨[("authorization", ["Bearer s3cret"])], "Bearer s3cret", [], "Bearer",
      rfl, by decide, by decide, by decide, by decide⟩

/-! ## Theorems: telemetry-wrapped connections -/

theorem batchSize_pos : 1 ≤ batchSize := by decide

theorem chunk_eq {α : Type} (items : List α) (i : Nat) (h : i < items.length) :
    chunk items i (i + batchSize) = (items.drop i).take batchSize := by
  have hb := batchSize_pos
  unfold chunk
  simp only [Nat.zero_max]
  have hlt : ¬ i ≥ min items.length (i + batchSize) := by
    rw [ge_iff_le, min_le_iff]; omega
  rw [if_neg hlt, List.drop_take]
  by_cases hc : i + batchSize ≤ items.length
  · rw [Nat.min_eq_right hc, Nat.add_sub_cancel_left]
  · have hm : min items.length (i + batchSize) = items.length := Nat.min_eq_left (by omega)
    rw [hm, List.take_of_length_le (by simp), List.take_of_length_le (by simp; omega)]

theorem chunk_length {α : Type} (items : List α) (i : Nat) (h : i < items.length) :
    (chunk items i (i + batchSize)).length = min batchSize (items.length - i) := by
  rw [chunk_eq items i h, List.length_take, List.length_drop]

theorem writeLoop_done (dst : Bytes) (fuel i m : Nat) (w : emitWriter)
    (h : ¬ i < dst.length) : emitWriter.writeLoop dst fuel i m w = some ⟨m, none, w⟩ := by
  cases fuel <;> simp [emitWriter.writeLoop, h]

theorem writeLoop_full (dst : Bytes) (fuel : Nat) : ∀ (i m : Nat) (w : emitWriter),
    dst.length - i ≤ fuel →
    (∀ room e, w.next.failAfter = some (room, e) → dst.length - i ≤ room) →
    ∃ res cs, emitWriter.writeLoop dst fuel i m w = some res ∧
      res.n = m + (dst.length - i) ∧ res.err = none ∧
      res.w.next.chunks = w.next.chunks ++ cs ∧
      res.w.emitted = w.emitted ++ cs.map List.length ∧
      cs.flatten = dst.drop i ∧
      ∀ c ∈ cs, 1 ≤ c.length ∧ c.length ≤ batchSize := by
  induction fuel with
  | zero =>
    intro i m w hf _
    have hi : ¬ i < dst.length := by omega
    refine ⟨_, [], writeLoop_done dst 0 i m w hi, ?_, rfl, by simp, by simp, ?_, by simp⟩
    · show m = m + (dst.length - i)
      omega
    · simp [List.drop_eq_nil_of_le (Nat.le_of_not_lt hi)]
  | succ fuel ih =>
    intro i m w hf hroom
    by_cases hi : i < dst.length
    · have hb := batchSize_pos
      have hc := chunk_eq dst i hi
      have hlen : (chunk dst i (i + batchSize)).length = min batchSize (dst.length - i) :=
        chunk_length dst i hi
      obtain ⟨c, hcdef⟩ : ∃ c, chunk dst i (i + batchSize) = c := ⟨_, rfl⟩
      rw [hcdef] at hc hlen
      have hwrite : ∃ next1, w.next.Write c = (c.length, none, next1) ∧
          next1.chunks = w.next.chunks ++ [c] ∧
          ∀ room e, next1.failAfter = some (room, e) →
            dst.length - (i + batchSize) ≤ room := by
        unfold Writer.Write
        cases hfa : w.next.failAfter with
        | none => exact ⟨_, rfl, rfl, by simp⟩
        | some p =>
          obtain ⟨room, e⟩ := p
          have hr := hroom room e hfa
          have hle : c.length ≤ room := by rw [hlen]; omega
          refine ⟨{ chunks := w.next.chunks ++ [c], failAfter := some (room - c.length, e) },
            by simp only [hle, if_true], rfl, ?_⟩
          intro room1 e1 h1
          simp only [Option.some.injEq, Prod.mk.injEq] at h1
          rw [← h1.1, hlen]
          omega
      obtain ⟨next1, hw, hch, hroom1⟩ := hwrite
      obtain ⟨res, cs, hres, hn, herr, hchunks, hemit, hflat, hall⟩ :=
        ih (i + batchSize) (m + c.length) { next := next1, emitted := w.emitted ++ [c.length] }
          (by omega) hroom1
      refine ⟨res, c :: cs, ?_, ?_, herr, ?_, ?_, ?_, ?_⟩
      · simp only [emitWriter.writeLoop, hi, if_true, hcdef, hw]
        simpa using hres
      · rw [hn, hlen]; omega
      · rw [hchunks, hch]; simp
      · rw [hemit]; simp
      · rw [List.flatten_cons, hflat, hc, ← List.drop_drop, List.take_append_drop]
      · intro c1 hc1
        rcases List.mem_cons.mp hc1 with rfl | hm
        · rw [hlen]; omega
        · exact hall c1 hm
    · refine ⟨_, [], writeLoop_done dst _ i m w hi, ?_, rfl, by simp, by simp, ?_, by simp⟩
      · show m = m + (dst.length - i)
        omega
      · simp [List.drop_eq_nil_of_le (Nat.le_of_not_lt hi)]

/-- C28: when the writer behind an `emitWriter` accepts all of `p`, `Write` returns `len(p)`
and no error; the writer behind it received `p` cut in order into chunks of at least one and
at most `batchSize` (32 KiB) bytes, one event was emitted for each chunk with the length of
that chunk, the emitted counts add up to `len(p)`, and for an empty `p` there is no write and
no event. -/
theorem C28_write_emits_one_event_per_chunk (w : emitWriter) (p : Bytes)
    (h : ∀ room e, w.next.failAfter = some (room, e) → p.length ≤ room) :
    ∃ res cs, w.Write p = some res ∧ res.n = p.length ∧ res.err = none ∧
      res.w.next.chunks = w.next.chunks ++ cs ∧
      res.w.emitted = w.emitted ++ cs.map List.length ∧
      cs.flatten = p ∧
      (∀ c ∈ cs, 1 ≤ c.length ∧ c.length ≤ batchSize) ∧
      (cs.map List.length).sum = p.length ∧
      (p = [] → cs = []) ∧
      batchSize = 32768 := by
  obtain ⟨res, cs, hres, hn, herr, hchunks, hemit, hflat, hall⟩ :=
    writeLoop_full p p.length 0 0 w (by omega) (by simpa using h)
  refine ⟨res, cs, hres, by simpa using hn, herr, hchunks, hemit, by simpa using hflat, hall,
    ?_, ?_, rfl⟩
  · have : cs.flatten.length = p.length := by rw [hflat]; simp
    rw [← this, List.length_flatten]
  · intro hp
    cases cs with
    | nil => rfl
    | cons c cs1 =>
      have h1 := (hall c (List.mem_cons_self _ _)).1
      have h2 : (c :: cs1).flatten = [] := by rw [hflat]; simpa using hp
      simp only [List.flatten_cons, List.append_eq_nil] at h2
      rw [h2.1] at h1
      simp at h1

/-- C28 (witness): a write of three bytes through a wrapper around a writer that accepts
everything. -/
theorem C28_write_emits_one_event_per_chunk_witness :
    ∃ res cs, emitWriter.Write ⟨⟨[], none⟩, []⟩ [1, 2, 3] = some res ∧ res.n = 3 ∧
      res.err = none ∧
      res.w.next.chunks = [] ++ cs ∧
      res.w.emitted = [] ++ cs.map List.length ∧
      cs.flatten = [1, 2, 3] ∧
      (∀ c ∈ cs, 1 ≤ c.length ∧ c.length ≤ batchSize) ∧
      (cs.map List.length).sum = 3 ∧
      (([1, 2, 3] : Bytes) = [] → cs = []) ∧
      batchSize = 32768 :=
  C28_write_emits_one_event_per_chunk ⟨⟨[], none⟩, []⟩ [1, 2, 3]
    (fun _ _ h => by cases h)

theorem readLoop_done (fuel i m : Nat) (dst : Bytes) (r : emitReader)
    (h : ¬ i < dst.length) : emitReader.readLoop fuel i m dst r = some ⟨m, none, dst, r⟩ := by
  cases fuel <;> simp [emitReader.readLoop, h]

theorem Reader_read_one (a : UInt8) (rest : Bytes) (caps : List Nat) (final : GoError)
    (size : Nat) (h : 1 ≤ size) :
    Reader.Read { data := a :: rest, caps := 1 :: caps, final := final, eager := false } size =
      ([a], none, { data := rest, caps := caps, final := final, eager := false }) := by
  simp [Reader.Read, Nat.min_eq_left h]

theorem readLoop_step (fuel i m : Nat) (dst : Bytes) (r : emitReader) (h : i < dst.length) :
    emitReader.readLoop (fuel + 1) i m dst r =
      if (r.next.Read (chunk dst i (i + batchSize)).length).2.1.isSome then
        some ⟨m + (r.next.Read (chunk dst i (i + batchSize)).length).1.length,
          (r.next.Read (chunk dst i (i + batchSize)).length).2.1,
          dst.take i ++ (r.next.Read (chunk dst i (i + batchSize)).length).1 ++
            dst.drop (i + (r.next.Read (chunk dst i (i + batchSize)).length).1.length),
          ⟨(r.next.Read (chunk dst i (i + batchSize)).length).2.2,
            r.emitted ++ [(r.next.Read (chunk dst i (i + batchSize)).length).1.length]⟩⟩
      else
        emitReader.readLoop fuel (i + batchSize)
          (m + (r.next.Read (chunk dst i (i + batchSize)).length).1.length)
          (dst.take i ++ (r.next.Read (chunk dst i (i + batchSize)).length).1 ++
            dst.drop (i + (r.next.Read (chunk dst i (i + batchSize)).length).1.length))
          ⟨(r.next.Read (chunk dst i (i + batchSize)).length).2.2,
            r.emitted ++ [(r.next.Read (chunk dst i (i + batchSize)).length).1.length]⟩ := by
  simp only [emitReader.readLoop, h, if_true]

/-- C29 (failing input): let the reader behind an `emitReader` deliver the byte 1 on the first
read and the byte 2 on the second, and let `dst` be longer than `batchSize` and at most twice
as long. `Read` returns 2 with no error and emits the counts 1 and 1, but the byte 2 is stored
at index `batchSize`: the first two bytes of `dst` are 1 and whatever `dst` held at index 1. -/
theorem C29_short_read_leaves_a_gap (dst : Bytes) (h1 : batchSize < dst.length)
    (h2 : dst.length ≤ 2 * batchSize) :
    ∃ res, byteByByteReader.Read dst = some res ∧ res.n = 2 ∧ res.err = none ∧
      res.r.emitted = [1, 1] ∧ res.r.next.data = [] ∧
      res.dst.take 2 = 1 :: (dst.drop 1).take 1 ∧
      res.dst.drop batchSize = 2 :: dst.drop (batchSize + 1) := by
  have hb : 2 ≤ batchSize := by decide
  obtain ⟨k, hk⟩ : ∃ k, dst.length = k + 2 := ⟨dst.length - 2, by omega⟩
  have hs1 : 1 ≤ (chunk dst 0 (0 + batchSize)).length := by
    rw [chunk_length dst 0 (by omega)]; omega
  obtain ⟨dst1, hd1⟩ : ∃ dst1, ([1] : Bytes) ++ dst.drop 1 = dst1 := ⟨_, rfl⟩
  have hlen1 : dst1.length = dst.length := by
    rw [← hd1]; simp; omega
  have hs2 : 1 ≤ (chunk dst1 batchSize (batchSize + batchSize)).length := by
    rw [chunk_length dst1 batchSize (by omega)]; omega
  obtain ⟨dst2, hd2⟩ :
      ∃ dst2, dst1.take batchSize ++ [2] ++ dst1.drop (batchSize + 1) = dst2 := ⟨_, rfl⟩
  have hlen2 : dst2.length = dst.length := by
    rw [← hd2]; simp; omega
  have hrun : byteByByteReader.Read dst = some ⟨2, none, dst2,
      { next := { data := [], caps := [], final := .eof, eager := false },
        emitted := [1, 1] }⟩ := by
    unfold emitReader.Read
    have hi0 : 0 < dst.length := by omega
    have hi1 : batchSize < dst1.length := by omega
    have hi2 : ¬ batchSize + batchSize < dst2.length := by omega
    rw [hk, readLoop_step _ _ _ _ _ hi0]
    simp only [byteByByteReader, Reader_read_one 1 [2] [1] .eof _ hs1]
    simp only [List.take_zero, List.nil_append, Nat.zero_add, List.length_singleton,
      Option.isSome_none, Bool.false_eq_true, if_false, hd1]
    rw [readLoop_step _ _ _ _ _ hi1]
    simp only [Reader_read_one 2 [] [] .eof _ hs2]
    simp only [List.length_singleton, Option.isSome_none, Bool.false_eq_true, if_false, hd2]
    rw [readLoop_done _ _ _ _ _ hi2]
    rfl
  refine ⟨_, hrun, rfl, rfl, rfl, rfl, ?_, ?_⟩
  · show dst2.take 2 = 1 :: (dst.drop 1).take 1
    rw [← hd2, ← hd1]
    have : 2 ≤ (List.take batchSize ([1] ++ List.drop 1 dst)).length := by
      simp; omega
    rw [List.append_assoc, List.take_append_of_le_length this, List.take_take,
      Nat.min_eq_left hb]
    rfl
  · show dst2.drop batchSize = 2 :: dst.drop (batchSize + 1)
    rw [← hd2]
    have hl : (List.take batchSize dst1).length = batchSize := by
      simp; omega
    rw [List.append_assoc, List.drop_append_of_le_length (by omega), List.drop_of_length_le (by omega)]
    rw [← hd1]
    simp

/-- C29 (witness): a buffer of `batchSize + 1` zero bytes. -/
theorem C29_short_read_leaves_a_gap_witness :
    ∃ res, byteByByteReader.Read (List.replicate (batchSize + 1) 0) = some res ∧ res.n = 2 ∧
      res.err = none ∧ res.r.emitted = [1, 1] ∧ res.r.next.data = [] ∧
      res.dst.take 2 = 1 :: ((List.replicate (batchSize + 1) 0).drop 1).take 1 ∧
      res.dst.drop batchSize = 2 :: (List.replicate (batchSize + 1) 0).drop (batchSize + 1) :=
  C29_short_read_leaves_a_gap (List.replicate (batchSize + 1) 0)
    (by rw [List.length_replicate]; exact Nat.lt_succ_self _)
    (by rw [List.length_replicate]; decide)

/-! ## Theorems: the broadcaster -/

/-- C21 (failing input): start, subscribe once, let the loop register the subscriber, cancel
the context, let the loop pass once through `ctx.Done()`. The subscriber channel is closed, but
the mutex is still held, so a later `Publish` and a later `Subscribe` return nil; and the next
pass of the loop through `ctx.Done()` closes the closed channel again, which panics. Without a
subscriber nothing panics, and after two passes `Publish` and `Subscribe` still return nil. -/
theorem C21_cancelled_broadcaster_accepts_and_closes_twice :
    cancelledBroadcaster.chans.map (fun ch => ch.closed) = [true] ∧
      cancelledBroadcaster.isRunning = true ∧
      (cancelledBroadcaster.Publish 7).1 = .returned none ∧
      cancelledBroadcaster.Subscribe.1 = .returned (some 1, none) ∧
      (cancelledBroadcaster.loopPass .ctxDone).map (fun b => b.panicked) =
        some (some "close of closed channel") ∧
      idleCancelledBroadcaster.panicked = none ∧
      (idleCancelledBroadcaster.Publish 7).1 = .returned none ∧
      idleCancelledBroadcaster.Subscribe.1 = .returned (some 0, none) := by
  decide

theorem loopPass_keeps_lock {T : Type} (b b1 : Broadcaster T) (c : LoopCase)
    (h : b.loopPass c = some b1) : b1.isRunning = true ∧ b1.ensureIsRunning = none := by
  unfold Broadcaster.loopPass at h
  by_cases h0 : (!b.isRunning || b.panicked.isSome) = true
  · simp [h0] at h
  · have hr : b.isRunning = true := by
      cases hb : b.isRunning with
      | true => rfl
      | false => simp [hb] at h0
    simp only [h0, Bool.false_eq_true, if_false] at h
    have key : b1.isRunning = b.isRunning := by
      cases c <;> simp only at h <;> split at h <;>
        first
        | (cases h; done)
        | (simp only [Option.some.injEq] at h; subst h; rfl)
        | (split at h <;>
            first
            | (cases h; done)
            | (simp only [Option.some.injEq] at h; subst h; rfl))
    rw [Broadcaster.ensureIsRunning, key, hr]
    exact ⟨rfl, rfl⟩

/-- C23 (failing input): on a subscription whose channel was closed, by `Close` or by the
shutdown of the broadcaster, and holds no event, `Receive` returns the zero value with a nil
error while the context of the subscription is not done. -/
theorem C23_receive_on_closed_channel_returns_nil_error :
    unsubscribedBroadcaster.chans.map (fun ch => (ch.closed, ch.buf)) = [(true, [])] ∧
      unsubscribedBroadcaster.chans.map (fun ch => (subscription.Receive none ch false).1) =
        [.returned (none, none)] ∧
      cancelledBroadcaster.chans.map (fun ch => (ch.closed, ch.buf)) = [(true, [])] ∧
      cancelledBroadcaster.chans.map (fun ch => (subscription.Receive none ch false).1) =
        [.returned (none, none)] := by
  decide

theorem runOps_sublist {T : Type} (ops : List (ChanOp T)) : ∀ c : SubChan T,
    List.Sublist ((c.runOps ops).1 ++ (c.runOps ops).2.buf) (c.buf ++ ChanOp.offered ops) := by
  induction ops with
  | nil => intro c; simp [SubChan.runOps, ChanOp.offered]
  | cons op ops ih =>
    intro c
    cases op with
    | offer v =>
      simp only [SubChan.runOps, ChanOp.offered]
      refine (ih (c.offer v)).trans ?_
      unfold SubChan.offer
      split
      · simp
      · exact List.Sublist.append_left (List.sublist_cons_self _ _) _
    | take =>
      simp only [SubChan.runOps, ChanOp.offered, subscription.Receive]
      cases hb : c.buf with
      | nil =>
        by_cases hcl : c.closed = true
        · simpa [hcl, hb] using ih c
        · simpa [hcl, hb] using ih c
      | cons t rest =>
        simpa using ih { c with buf := rest }

theorem runOps_offers {T : Type} (vs : List T) : ∀ c : SubChan T, c.buf.length ≤ c.cap →
    (c.runOps (vs.map .offer)).1 = [] ∧
    (c.runOps (vs.map .offer)).2.buf = (c.buf ++ vs).take c.cap := by
  induction vs with
  | nil =>
    intro c hc
    simp [SubChan.runOps, List.take_of_length_le hc]
  | cons v vs ih =>
    intro c hc
    simp only [List.map_cons, SubChan.runOps]
    by_cases hlt : c.buf.length < c.cap
    · have ho : c.offer v = { c with buf := c.buf ++ [v] } := by simp [SubChan.offer, hlt]
      have h := ih (c.offer v) (by rw [ho]; simp; omega)
      rw [ho] at h ⊢
      simpa using h
    · have ho : c.offer v = c := by simp [SubChan.offer, hlt]
      have h := ih c hc
      rw [ho]
      refine ⟨h.1, ?_⟩
      rw [h.2, List.take_append_of_le_length (by omega),
        List.take_append_of_le_length (by omega)]

theorem runOps_drained {T : Type} (ops : List (ChanOp T)) : ∀ c : SubChan T, 1 ≤ c.cap →
    c.drained ops = true →
    (c.runOps ops).1 ++ (c.runOps ops).2.buf = c.buf ++ ChanOp.offered ops := by
  induction ops with
  | nil => intro c _ _; simp [SubChan.runOps, ChanOp.offered]
  | cons op ops ih =>
    intro c hcap hd
    cases op with
    | offer v =>
      simp only [SubChan.drained, Bool.and_eq_true, List.isEmpty_iff] at hd
      have ho : c.offer v = { c with buf := [v] } := by
        simp [SubChan.offer, hd.1]; omega
      simp only [SubChan.runOps, ChanOp.offered]
      rw [ho] at hd ⊢
      have h := ih { c with buf := [v] } hcap hd.2
      rw [h, hd.1]
      rfl
    | take =>
      simp only [SubChan.drained] at hd
      simp only [SubChan.runOps, ChanOp.offered]
      revert hd
      simp only [subscription.Receive]
      cases hb : c.buf with
      | nil =>
        by_cases hcl : c.closed = true
        · intro hd
          simpa [hcl, hb] using ih c hcap (by simpa [hcl] using hd)
        · intro hd
          simpa [hcl, hb] using ih c hcap (by simpa [hcl] using hd)
      | cons t rest =>
        intro hd
        simpa using ih { c with buf := rest } hcap (by simpa using hd)

theorem ready_iff {T : Type} (b : Broadcaster T) : b.ready = true ↔
    b.isRunning = true ∧ b.panicked = none ∧
    ∀ c ∈ b.chans, c.cap = 10 ∧ (c.registered = true → c.closed = false) := by
  unfold Broadcaster.ready
  simp only [Bool.and_eq_true, List.all_eq_true, Option.isNone_iff_eq_none,
    beq_iff_eq, Bool.not_eq_true', Bool.and_eq_false_imp, and_assoc]

theorem ready_any {T : Type} (b : Broadcaster T) (h : b.ready = true) :
    (b.chans.any fun ch => ch.registered && ch.closed) = false := by
  obtain ⟨_, _, h5⟩ := (ready_iff b).mp h
  rw [List.any_eq_false]
  intro c hc
  have := (h5 c hc).2
  cases hr : c.registered
  · simp
  · simp [this hr]

theorem publish_accept {T : Type} (b : Broadcaster T) (value : T) (h : b.ready = true)
    (hl : b.publish.length < b.queueSize) :
    b.Publish value = (.returned none, { b with publish := b.publish ++ [value] }) := by
  obtain ⟨h1, _, _⟩ := (ready_iff b).mp h
  simp [Broadcaster.Publish, Broadcaster.ensureIsRunning, h1, hl]

theorem publish_wait {T : Type} (b : Broadcaster T) (value : T) (h : b.ready = true)
    (hl : ¬ b.publish.length < b.queueSize) : b.Publish value = (.blocked, b) := by
  obtain ⟨h1, _, _⟩ := (ready_iff b).mp h
  simp [Broadcaster.Publish, Broadcaster.ensureIsRunning, h1, hl]

theorem pass_take {T : Type} (b : Broadcaster T) (value : T) (rest : List T)
    (h : b.ready = true) (hq : b.publish = value :: rest) :
    b.step (.loop .publish) =
      { b with publish := rest, chans := b.chans.map fun c =>
          if c.registered then
            (if c.buf.length < 10 then { c with buf := c.buf ++ [value] } else c)
          else c } := by
  obtain ⟨h1, h2, h5⟩ := (ready_iff b).mp h
  have hany := ready_any b h
  have hmap : b.chans.map (fun ch => if ch.registered then ch.offer value else ch) =
      b.chans.map (fun c =>
        if c.registered then
          (if c.buf.length < 10 then { c with buf := c.buf ++ [value] } else c)
        else c) := by
    apply List.map_congr_left
    intro c hc
    simp only [SubChan.offer, (h5 c hc).1]
  simp [Broadcaster.step, Broadcaster.loopPass, h1, h2, hq, hany, hmap]

theorem pass_idle {T : Type} (b : Broadcaster T) (h : b.ready = true) (hq : b.publish = []) :
    b.step (.loop .publish) = b := by
  obtain ⟨h1, h2, _⟩ := (ready_iff b).mp h
  simp [Broadcaster.step, Broadcaster.loopPass, h1, h2, hq]

theorem ready_pass_take {T : Type} (b : Broadcaster T) (value : T) (rest : List T)
    (h : b.ready = true) :
    ({ b with publish := rest, chans := b.chans.map fun c =>
        if c.registered then
          (if c.buf.length < 10 then { c with buf := c.buf ++ [value] } else c)
        else c } : Broadcaster T).ready = true := by
  rw [ready_iff]
  obtain ⟨h1, h2, h5⟩ := (ready_iff b).mp h
  refine ⟨h1, h2, ?_⟩
  intro c hc
  simp only [List.mem_map] at hc
  obtain ⟨c0, hc0, rfl⟩ := hc
  have := h5 c0 hc0
  by_cases hr : c0.registered = true
  · by_cases hl : c0.buf.length < 10
    · simpa [hr, hl] using this
    · simpa [hr, hl] using this
  · simpa [hr] using this

theorem round_publish_accept {T : Type} (s : Session T) (value : T) (h : s.b.ready = true)
    (hl : s.b.publish.length < s.b.queueSize) :
    s.round (.publish value) =
      { s with b := { s.b with publish := s.b.publish ++ [value] },
               published := s.published ++ [value] } := by
  simp only [Session.round, publish_accept s.b value h hl]

theorem round_publish_wait {T : Type} (s : Session T) (value : T) (h : s.b.ready = true)
    (hl : ¬ s.b.publish.length < s.b.queueSize) : s.round (.publish value) = s := by
  simp only [Session.round, publish_wait s.b value h hl]

theorem round_pass_take {T : Type} (s : Session T) (value : T) (rest : List T)
    (h : s.b.ready = true) (hq : s.b.publish = value :: rest) :
    s.round .pass =
      { s with b := { s.b with publish := rest, chans := s.b.chans.map fun c =>
          if c.registered then
            (if c.buf.length < 10 then { c with buf := c.buf ++ [value] } else c)
          else c } } := by
  simp only [Session.round, pass_take s.b value rest h hq]

theorem round_pass_idle {T : Type} (s : Session T) (h : s.b.ready = true)
    (hq : s.b.publish = []) : s.round .pass = s := by
  simp only [Session.round, pass_idle s.b h hq]

theorem receive_value {T : Type} (s : Session T) (j : Nat) (c : SubChan T) (t : T)
    (rest : List T) (hc : s.b.chans[j]? = some c) (hb : c.buf = t :: rest) :
    s.receive j =
      { s with b := { s.b with chans := s.b.chans.set j { c with buf := rest } },
               got := s.got ++ [(j, t)] } := by
  simp only [Session.receive, hc, subscription.Receive, hb]

theorem receive_empty {T : Type} (s : Session T) (j : Nat) (c : SubChan T)
    (hc : s.b.chans[j]? = some c) (hb : c.buf = []) : s.receive j = s := by
  simp only [Session.receive, hc, subscription.Receive, hb]
  cases c.closed <;> rfl

theorem receive_none {T : Type} (s : Session T) (j : Nat) (hc : s.b.chans[j]? = none) :
    s.receive j = s := by
  simp only [Session.receive, hc]

theorem receive_keeps {T : Type} (s : Session T) (j : Nat) (h : s.b.ready = true) :
    (s.receive j).b.ready = true ∧ (s.receive j).b.queueSize = s.b.queueSize ∧
    (s.receive j).b.publish = s.b.publish ∧ (s.receive j).published = s.published := by
  cases hc : s.b.chans[j]? with
  | none => rw [receive_none s j hc]; exact ⟨h, rfl, rfl, rfl⟩
  | some c =>
    cases hb : c.buf with
    | nil => rw [receive_empty s j c hc hb]; exact ⟨h, rfl, rfl, rfl⟩
    | cons t rest =>
      rw [receive_value s j c t rest hc hb]
      refine ⟨?_, rfl, rfl, rfl⟩
      rw [ready_iff] at h ⊢
      obtain ⟨h1, h2, h5⟩ := h
      refine ⟨h1, h2, ?_⟩
      intro x hx
      rcases List.mem_or_eq_of_mem_set hx with hm | rfl
      · exact h5 x hm
      · exact h5 c (List.getElem?_mem hc)

theorem receive_other {T : Type} (s : Session T) (i j : Nat) (hj : j ≠ i) :
    (s.receive j).b.chans[i]? = s.b.chans[i]? ∧ (s.receive j).receivedBy i = s.receivedBy i := by
  cases hcj : s.b.chans[j]? with
  | none => rw [receive_none s j hcj]; exact ⟨rfl, rfl⟩
  | some c =>
    cases hb : c.buf with
    | nil => rw [receive_empty s j c hcj hb]; exact ⟨rfl, rfl⟩
    | cons t rest =>
      rw [receive_value s j c t rest hcj hb]
      constructor
      · simp [List.getElem?_set, hj]
      · simp [Session.receivedBy, List.filter_append, hj]

theorem rounds_cons {T : Type} (s : Session T) (r : Round T) (rs : List (Round T)) :
    s.rounds (r :: rs) = (s.round r).rounds rs := rfl

theorem rounds_sim {T : Type} (i : Nat) (rs : List (Round T)) :
    ∀ (s : Session T) (ch : SubChan T) (F : List T) (size : Nat) (queue : List T),
    s.b.ready = true → s.b.chans[i]? = some ch → ch.registered = true →
    s.b.queueSize = size → s.b.publish = queue → F ++ queue = s.published →
    (s.rounds rs).b.chans[i]? = some (ch.runOps (Round.opsFor i size queue rs)).2 ∧
    (s.rounds rs).receivedBy i =
      s.receivedBy i ++ (ch.runOps (Round.opsFor i size queue rs)).1 ∧
    Session.drains i s rs = ch.drained (Round.opsFor i size queue rs) ∧
    (F ++ ChanOp.offered (Round.opsFor i size queue rs)) ++ (s.rounds rs).b.publish =
      (s.rounds rs).published := by
  induction rs with
  | nil =>
    intro s ch F size queue _ hc _ _ hq hF
    simp [Session.rounds, Round.opsFor, SubChan.runOps, Session.drains, SubChan.drained,
      ChanOp.offered, hc, hq, hF]
  | cons r rs ih =>
    intro s ch F size queue hready hc hreg hsz hq hF
    have hcap : ch.cap = 10 :=
      (((ready_iff s.b).mp hready).2.2 ch (List.getElem?_mem hc)).1
    cases r with
    | publish v =>
      have hd : Session.drains i s (.publish v :: rs) =
          Session.drains i (s.round (.publish v)) rs := by
        simp only [Session.drains, Bool.true_and]
      by_cases hl : queue.length < size
      · have hl' : s.b.publish.length < s.b.queueSize := by rw [hq, hsz]; exact hl
        have hs1 := round_publish_accept s v hready hl'
        have hops : Round.opsFor i size queue (.publish v :: rs) =
            Round.opsFor i size (queue ++ [v]) rs := by
          simp only [Round.opsFor, hl, if_true]
        obtain ⟨k1, k2, k3, k4⟩ := ih (s.round (.publish v)) ch F size (queue ++ [v])
          (by rw [hs1]; exact hready) (by rw [hs1]; exact hc) hreg
          (by rw [hs1]; exact hsz) (by rw [hs1]; simp only [hq])
          (by rw [hs1]; simp only [← hF, List.append_assoc])
        have hg : (s.round (.publish v)).receivedBy i = s.receivedBy i := by rw [hs1]; rfl
        rw [hg] at k2
        rw [hops, hd]
        exact ⟨k1, k2, k3, k4⟩
      · have hl' : ¬ s.b.publish.length < s.b.queueSize := by rw [hq, hsz]; exact hl
        have hs1 := round_publish_wait s v hready hl'
        have hops : Round.opsFor i size queue (.publish v :: rs) =
            Round.opsFor i size queue rs := by
          simp only [Round.opsFor, hl, if_false]
        rw [hops, hd, rounds_cons, hs1]
        exact ih s ch F size queue hready hc hreg hsz hq hF
    | pass =>
      cases queue with
      | nil =>
        have hs1 := round_pass_idle s hready hq
        have hops : Round.opsFor i size ([] : List T) (.pass :: rs) =
            Round.opsFor i size [] rs := by
          simp only [Round.opsFor]
        have hd : Session.drains i s (.pass :: rs) = Session.drains i s rs := by
          simp only [Session.drains, hs1, hq, List.isEmpty_nil, Bool.true_or, Bool.true_and]
        rw [hops, hd, rounds_cons, hs1]
        exact ih s ch F size [] hready hc hreg hsz hq hF
      | cons v rest =>
        have hs1 := round_pass_take s v rest hready hq
        have hoff : ch.offer v =
            (if ch.buf.length < 10 then { ch with buf := ch.buf ++ [v] } else ch) := by
          simp only [SubChan.offer, hcap]
        have hreg1 : (ch.offer v).registered = true := by
          rw [hoff]; split <;> exact hreg
        have hops : Round.opsFor i size (v :: rest) (.pass :: rs) =
            .offer v :: Round.opsFor i size rest rs := by
          simp only [Round.opsFor]
        have hd : Session.drains i s (.pass :: rs) =
            (ch.buf.isEmpty && Session.drains i (s.round .pass) rs) := by
          simp only [Session.drains, hq, hc, List.isEmpty_cons, Bool.false_or]
        obtain ⟨k1, k2, k3, k4⟩ := ih (s.round .pass) (ch.offer v) (F ++ [v]) size rest
          (by rw [hs1]; exact ready_pass_take s.b v rest hready)
          (by rw [hs1, hoff]; simp [List.getElem?_map, hc, hreg]) hreg1
          (by rw [hs1]; exact hsz) (by rw [hs1])
          (by rw [hs1]; simp only [← hF, List.append_assoc, List.singleton_append])
        have hg : (s.round .pass).receivedBy i = s.receivedBy i := by rw [hs1]; rfl
        rw [hg] at k2
        rw [hops, hd]
        refine ⟨?_, ?_, ?_, ?_⟩
        · rw [rounds_cons]; exact k1
        · rw [rounds_cons]; exact k2
        · simp only [SubChan.drained, k3]
        · rw [rounds_cons]
          simp only [ChanOp.offered]
          rw [← k4]
          simp only [List.append_assoc, List.singleton_append]
    | receive j =>
      have hd : Session.drains i s (.receive j :: rs) =
          Session.drains i (s.round (.receive j)) rs := by
        simp only [Session.drains, Bool.true_and]
      obtain ⟨hr1, hsz1, hq1, hp1⟩ := receive_keeps s j hready
      have hF1 : F ++ queue = (s.round (.receive j)).published := by
        show F ++ queue = (s.receive j).published
        rw [hp1]; exact hF
      by_cases hj : j = i
      · subst hj
        have hops : Round.opsFor j size queue (.receive j :: rs) =
            .take :: Round.opsFor j size queue rs := by
          simp only [Round.opsFor, if_true]
        cases hb : ch.buf with
        | nil =>
          have hs1 : s.round (.receive j) = s := receive_empty s j ch hc hb
          have hrecv : (subscription.Receive none ch false).2 = ch := by
            simp only [subscription.Receive, hb]
            cases ch.closed <;> rfl
          have hrun : ch.runOps (.take :: Round.opsFor j size queue rs) =
              ch.runOps (Round.opsFor j size queue rs) := by
            simp only [SubChan.runOps, subscription.Receive, hb]
            cases ch.closed <;> rfl
          obtain ⟨k1, k2, k3, k4⟩ := ih s ch F size queue hready hc hreg hsz hq hF
          rw [hops, hd, rounds_cons, hs1, hrun]
          refine ⟨k1, k2, ?_, ?_⟩
          · simp only [SubChan.drained, hrecv, k3]
          · simpa only [ChanOp.offered] using k4
        | cons t rest =>
          have hs1 : s.round (.receive j) =
              { s with b := { s.b with chans := s.b.chans.set j { ch with buf := rest } },
                       got := s.got ++ [(j, t)] } := receive_value s j ch t rest hc hb
          have hlt : j < s.b.chans.length := by
            rcases List.getElem?_eq_some_iff.mp hc with ⟨hlt, _⟩
            exact hlt
          have hc1 : (s.round (.receive j)).b.chans[j]? = some { ch with buf := rest } := by
            rw [hs1]
            simp [List.getElem?_set, hlt]
          have hrecv : (subscription.Receive none ch false).2 = { ch with buf := rest } := by
            simp only [subscription.Receive, hb]
          have hrun : ch.runOps (.take :: Round.opsFor j size queue rs) =
              (t :: (({ ch with buf := rest } : SubChan T).runOps
                  (Round.opsFor j size queue rs)).1,
                (({ ch with buf := rest } : SubChan T).runOps
                  (Round.opsFor j size queue rs)).2) := by
            simp only [SubChan.runOps, subscription.Receive, hb]
          have hgot : (s.round (.receive j)).receivedBy j = s.receivedBy j ++ [t] := by
            rw [hs1]
            simp [Session.receivedBy, List.filter_append]
          obtain ⟨k1, k2, k3, k4⟩ :=
            ih (s.round (.receive j)) { ch with buf := rest } F size queue hr1 hc1 hreg
              (hsz1.trans hsz) (hq1.trans hq) hF1
          rw [hgot] at k2
          rw [hops, hd, rounds_cons, hrun]
          refine ⟨k1, ?_, ?_, ?_⟩
          · rw [k2]; simp only [List.append_assoc, List.singleton_append]
          · simp only [SubChan.drained, hrecv, k3]
          · simpa only [ChanOp.offered] using k4
      · have hops : Round.opsFor i size queue (.receive j :: rs) =
            Round.opsFor i size queue rs := by
          simp only [Round.opsFor, hj, if_false]
        obtain ⟨hc1, hg1⟩ := receive_other s i j hj
        obtain ⟨k1, k2, k3, k4⟩ :=
          ih (s.round (.receive j)) ch F size queue hr1 (hc1.trans hc) hreg
            (hsz1.trans hsz) (hq1.trans hq) hF1
        have hg : (s.round (.receive j)).receivedBy i = s.receivedBy i := hg1
        rw [hg] at k2
        rw [hops, hd, rounds_cons]
        exact ⟨k1, k2, k3, k4⟩

theorem opsFor_no_receive {T : Type} (i size : Nat) (rs : List (Round T)) :
    ∀ queue : List T, (∀ r ∈ rs, r ≠ .receive i) →
    Round.opsFor i size queue rs =
      (ChanOp.offered (Round.opsFor i size queue rs)).map .offer := by
  induction rs with
  | nil => intro _ _; rfl
  | cons r rs ih =>
    intro queue h
    have ih1 := fun q => ih q (fun r hr => h r (List.mem_cons_of_mem _ hr))
    cases r with
    | publish v =>
      simp only [Round.opsFor]
      split
      · exact ih1 _
      · exact ih1 _
    | pass =>
      cases queue with
      | nil => simp only [Round.opsFor]; exact ih1 _
      | cons v rest =>
        simp only [Round.opsFor, ChanOp.offered, List.map_cons]
        rw [← ih1 rest]
    | receive j =>
      have hj : j ≠ i := fun e => h (.receive j) (List.mem_cons_self _ _) (by rw [e])
      simp only [Round.opsFor, hj, if_false]
      exact ih1 _

theorem cap_step {T : Type} (b : Broadcaster T) (a : Action T)
    (h : b.subscriberChannelSize = 10 ∧ ∀ c ∈ b.chans, c.cap = 10) :
    (b.step a).subscriberChannelSize = 10 ∧ ∀ c ∈ (b.step a).chans, c.cap = 10 := by
  obtain ⟨h1, h2⟩ := h
  have hmap : ∀ f : SubChan T → SubChan T, (∀ c, (f c).cap = c.cap) →
      ∀ c ∈ b.chans.map f, c.cap = 10 := by
    intro f hf c hc
    simp only [List.mem_map] at hc
    obtain ⟨c0, hc0, rfl⟩ := hc
    rw [hf, h2 c0 hc0]
  cases a with
  | start =>
    simp only [Broadcaster.step, Broadcaster.Start]
    split <;> exact ⟨h1, h2⟩
  | cancel => exact ⟨h1, h2⟩
  | publish v =>
    simp only [Broadcaster.step, Broadcaster.Publish]
    split
    · exact ⟨h1, h2⟩
    · split <;> exact ⟨h1, h2⟩
  | subscribe =>
    simp only [Broadcaster.step, Broadcaster.Subscribe]
    split
    · exact ⟨h1, h2⟩
    · split
      · refine ⟨h1, ?_⟩
        intro c hc
        simp only [List.mem_append, List.mem_singleton] at hc
        rcases hc with hc | rfl
        · exact h2 c hc
        · exact h1
      · exact ⟨h1, h2⟩
  | close id =>
    simp only [Broadcaster.step, subscription.Close]
    split <;> exact ⟨h1, h2⟩
  | loop c =>
    simp only [Broadcaster.step, Broadcaster.loopPass]
    split
    · exact ⟨h1, h2⟩
    · cases c with
      | ctxDone =>
        simp only
        split
        · exact ⟨h1, h2⟩
        · split
          · exact ⟨h1, h2⟩
          · exact ⟨h1, hmap _ (fun c => by split <;> rfl)⟩
      | publish =>
        simp only
        split
        · exact ⟨h1, h2⟩
        · split
          · exact ⟨h1, h2⟩
          · refine ⟨h1, hmap _ (fun c => ?_)⟩
            simp only [SubChan.offer]
            split
            · split <;> rfl
            · rfl
      | subscribe =>
        simp only
        split
        · exact ⟨h1, h2⟩
        · exact ⟨h1, hmap _ (fun c => by split <;> rfl)⟩
      | unsubscribe =>
        simp only
        split
        · exact ⟨h1, h2⟩
        · split
          · exact ⟨h1, h2⟩
          · exact ⟨h1, hmap _ (fun c => by split <;> rfl)⟩

theorem cap_run {T : Type} (steps : List (Action T)) : ∀ b : Broadcaster T,
    (b.subscriberChannelSize = 10 ∧ ∀ c ∈ b.chans, c.cap = 10) →
    ∀ c ∈ (b.run steps).chans, c.cap = 10 := by
  induction steps with
  | nil => intro b h; exact h.2
  | cons a rest ih =>
    intro b h
    exact ih (b.step a) (cap_step b a h)

/-- C22: every subscriber channel of a broadcaster made by `NewBroadcaster` has the capacity
10. On a running broadcaster with such channels and no closed channel in the map of the loop:
`Publish(value)` puts `value` at the end of the channel `publish` and returns nil while there
is room, and waits otherwise; a pass of the loop through its `publish` case takes the oldest
event `value` from that channel, appends it to the buffer of every registered channel that
holds fewer than 10 events and leaves every other channel as it is, so the event is dropped
for a registered channel that holds 10; a `Receive` on a channel that holds events returns
the oldest one. Let the channel at place `i` be registered with an empty buffer while nothing
waits in `publish`. After any list of `Publish` calls, passes and `Receive` calls, by
whichever subscribers, the published events are the events `fanned` that the loop has taken
followed by those still waiting; the events received by `i` followed by those in its buffer
are a sublist of `fanned`, hence of the published events; if `i` never receives, its buffer
holds the first 10 events of `fanned`; and if its buffer is empty at each pass that takes an
event, `i` has received or holds every event of `fanned`. -/
theorem C22_fan_out_keeps_order_and_drops_on_full {T : Type} (b : Broadcaster T)
    (rounds : List (Round T)) (i : Nat) (ch : SubChan T)
    (hready : b.ready = true) (hq : b.publish = []) (hch : b.chans[i]? = some ch)
    (hreg : ch.registered = true) (hbuf : ch.buf = []) :
    (∀ steps : List (Action T), ∀ c ∈ ((NewBroadcaster T).run steps).chans, c.cap = 10) ∧
    (∀ (b1 : Broadcaster T) (value : T) (p : List T) (g : List (Nat × T)),
      b1.ready = true →
      Session.round ⟨b1, p, g⟩ (.publish value) =
        (if b1.publish.length < b1.queueSize then
          ⟨{ b1 with publish := b1.publish ++ [value] }, p ++ [value], g⟩
        else ⟨b1, p, g⟩)) ∧
    (∀ (b1 : Broadcaster T) (value : T) (rest p : List T) (g : List (Nat × T)),
      b1.ready = true → b1.publish = value :: rest →
      Session.round ⟨b1, p, g⟩ .pass =
        ⟨{ b1 with publish := rest, chans := b1.chans.map fun c =>
            if c.registered then
              (if c.buf.length < 10 then { c with buf := c.buf ++ [value] } else c)
            else c }, p, g⟩) ∧
    (∀ (b1 : Broadcaster T) (j : Nat) (c : SubChan T) (t : T) (rest p : List T)
      (g : List (Nat × T)), b1.chans[j]? = some c → c.buf = t :: rest →
      Session.round ⟨b1, p, g⟩ (.receive j) =
        ⟨{ b1 with chans := b1.chans.set j { c with buf := rest } }, p, g ++ [(j, t)]⟩) ∧
    ∃ (ch1 : SubChan T) (fanned : List T),
      (Session.rounds ⟨b, [], []⟩ rounds).b.chans[i]? = some ch1 ∧
      fanned ++ (Session.rounds ⟨b, [], []⟩ rounds).b.publish =
        (Session.rounds ⟨b, [], []⟩ rounds).published ∧
      List.Sublist ((Session.rounds ⟨b, [], []⟩ rounds).receivedBy i ++ ch1.buf) fanned ∧
      List.Sublist ((Session.rounds ⟨b, [], []⟩ rounds).receivedBy i ++ ch1.buf)
        (Session.rounds ⟨b, [], []⟩ rounds).published ∧
      ((∀ r ∈ rounds, r ≠ .receive i) →
        (Session.rounds ⟨b, [], []⟩ rounds).receivedBy i = [] ∧
        ch1.buf = fanned.take 10) ∧
      (Session.drains i ⟨b, [], []⟩ rounds = true →
        (Session.rounds ⟨b, [], []⟩ rounds).receivedBy i ++ ch1.buf = fanned) := by
  have hcap : ch.cap = 10 :=
    (((ready_iff b).mp hready).2.2 ch (List.getElem?_mem hch)).1
  obtain ⟨k1, k2, k3, k4⟩ :=
    rounds_sim i rounds ⟨b, [], []⟩ ch [] b.queueSize [] hready hch hreg rfl hq rfl
  obtain ⟨ops, hops⟩ : ∃ ops, Round.opsFor i b.queueSize ([] : List T) rounds = ops := ⟨_, rfl⟩
  rw [hops] at k1 k2 k3 k4
  have hrec : (Session.rounds ⟨b, [], []⟩ rounds).receivedBy i = (ch.runOps ops).1 := by
    rw [k2]; rfl
  have hsub : List.Sublist ((ch.runOps ops).1 ++ (ch.runOps ops).2.buf)
      (ChanOp.offered ops) := by
    have h := runOps_sublist ops ch
    rw [hbuf, List.nil_append] at h
    exact h
  refine ⟨fun steps => cap_run steps (NewBroadcaster T) ⟨rfl, by simp [NewBroadcaster]⟩,
    ?_, ?_, ?_, (ch.runOps ops).2, ChanOp.offered ops, k1, ?_, ?_, ?_, ?_, ?_⟩
  · intro b1 value p g h1
    by_cases hl : b1.publish.length < b1.queueSize
    · rw [if_pos hl]
      exact round_publish_accept ⟨b1, p, g⟩ value h1 hl
    · rw [if_neg hl]
      exact round_publish_wait ⟨b1, p, g⟩ value h1 hl
  · intro b1 value rest p g h1 hq1
    exact round_pass_take ⟨b1, p, g⟩ value rest h1 hq1
  · intro b1 j c t rest p g hc hb
    exact receive_value ⟨b1, p, g⟩ j c t rest hc hb
  · simpa only [List.nil_append] using k4
  · rw [hrec]; exact hsub
  · rw [hrec, ← k4]
    simp only [List.nil_append]
    exact hsub.trans (List.sublist_append_left _ _)
  · intro hno
    have hall := opsFor_no_receive i b.queueSize rounds [] hno
    rw [hops] at hall
    have h := runOps_offers (ChanOp.offered ops) ch (by rw [hbuf]; exact Nat.zero_le _)
    rw [← hall, hbuf, hcap, List.nil_append] at h
    rw [hrec]
    exact h
  · intro hd
    rw [k3] at hd
    rw [hrec]
    have h := runOps_drained ops ch (by rw [hcap]; decide) hd
    rw [hbuf, List.nil_append] at h
    exact h

set_option maxRecDepth 100000 in
/-- C22 (witness): two registered subscribers on a broadcaster made by `NewBroadcaster`. Twelve
events are published two at a time; the first subscriber receives after each pass of the
loop and gets all twelve, the second never receives and holds the first ten. -/
theorem C22_fan_out_keeps_order_and_drops_on_full_witness :
    (∃ ch1, (Session.rounds ⟨twoSubscribers, [], []⟩ fastAndSlow).b.chans[1]? = some ch1 ∧
      (Session.rounds ⟨twoSubscribers, [], []⟩ fastAndSlow).receivedBy 1 = [] ∧
      ch1.buf = (List.range 12).take 10) ∧
    (∃ ch0, (Session.rounds ⟨twoSubscribers, [], []⟩ fastAndSlow).b.chans[0]? = some ch0 ∧
      (Session.rounds ⟨twoSubscribers, [], []⟩ fastAndSlow).receivedBy 0 ++ ch0.buf =
        List.range 12) := by
  have hp : (Session.rounds ⟨twoSubscribers, [], []⟩ fastAndSlow).published = List.range 12 := by
    decide
  have hw : (Session.rounds ⟨twoSubscribers, [], []⟩ fastAndSlow).b.publish = [] := rfl
  constructor
  · obtain ⟨ch1, fanned, h1, hf, _, _, h5, _⟩ :=
      (C22_fan_out_keeps_order_and_drops_on_full twoSubscribers fastAndSlow 1
        ⟨1, [], 10, false, true⟩ (by decide) (by decide) (by decide) rfl rfl).2.2.2.2
    rw [hw, List.append_nil, hp] at hf
    subst hf
    exact ⟨ch1, h1, (h5 (by decide)).1, (h5 (by decide)).2⟩
  · obtain ⟨ch0, fanned, h1, hf, _, _, _, h6⟩ :=
      (C22_fan_out_keeps_order_and_drops_on_full twoSubscribers fastAndSlow 0
        ⟨0, [], 10, false, true⟩ (by decide) (by decide) (by decide) rfl rfl).2.2.2.2
    rw [hw, List.append_nil, hp] at hf
    subst hf
    exact ⟨ch0, h1, h6 (by decide)⟩

/-! ## Theorems: the duplex engine -/

/-- C27 (counterexample): once the first copy direction has ended, `Duplex` can return while
the second direction has not exited. -/
theorem C27_duplex_returns_while_one_half_runs :
    (Duplex.run (Duplex.start false) [.copyEnds1, .wake]).map
      (fun s => (s.returned, s.exited1, s.exited2)) = some (true, true, false) := by
  decide

theorem Duplex_step_inv (s s1 : DuplexState) (st : DuplexStep)
    (hi : (s.ctxDone = true ↔ (s.exited1 = true ∨ s.exited2 = true ∨ s.parentDone = true)) ∧
      (s.returned = true → s.ctxDone = true))
    (h : Duplex.step s st = some s1) :
    (s1.ctxDone = true ↔ (s1.exited1 = true ∨ s1.exited2 = true ∨ s1.parentDone = true)) ∧
      (s1.returned = true → s1.ctxDone = true) := by
  obtain ⟨h1, h2⟩ := hi
  cases st <;> simp only [Duplex.step] at h <;> split at h <;>
    first
    | (cases h; done)
    | (simp only [Option.some.injEq] at h; subst h; simp_all)

theorem Duplex_run_inv (steps : List DuplexStep) : ∀ (s s1 : DuplexState),
    ((s.ctxDone = true ↔ (s.exited1 = true ∨ s.exited2 = true ∨ s.parentDone = true)) ∧
      (s.returned = true → s.ctxDone = true)) →
    Duplex.run s steps = some s1 →
    (s1.ctxDone = true ↔ (s1.exited1 = true ∨ s1.exited2 = true ∨ s1.parentDone = true)) ∧
      (s1.returned = true → s1.ctxDone = true) := by
  induction steps with
  | nil =>
    intro s s1 hi h
    simp only [Duplex.run, Option.some.injEq] at h
    subst h
    exact hi
  | cons st rest ih =>
    intro s s1 hi h
    simp only [Duplex.run] at h
    cases hs : Duplex.step s st with
    | none => simp [hs] at h
    | some s2 =>
      simp only [hs] at h
      exact ih s2 s1 (Duplex_step_inv s s2 st hi hs) h

theorem Duplex_run_append (a b : List DuplexStep) : ∀ s : DuplexState,
    Duplex.run s (a ++ b) = (Duplex.run s a).bind (fun s1 => Duplex.run s1 b) := by
  induction a with
  | nil => intro s; rfl
  | cons st rest ih =>
    intro s
    simp only [List.cons_append, Duplex.run]
    cases Duplex.step s st with
    | none => rfl
    | some s1 => exact ih s1

/-- C27 (amended): let `s` be a state that a call of `Duplex` reaches. If `Duplex` has returned
in `s`, one of the two copy directions has exited or the context passed in is done. If it has
not returned, its receive on `ctx.Done()` completes in `s`, and `Duplex` returns, exactly when
one of the two directions has exited or the context passed in is done; the other direction
need not have exited. So `Duplex` does not return before either trigger, returns after the
first direction alone, after the second alone, and after a cancelled context alone. -/
theorem C27_duplex_returns_after_either_half (parentDone : Bool) (steps : List DuplexStep)
    (s : DuplexState) (h : Duplex.run (Duplex.start parentDone) steps = some s) :
    (s.returned = true → s.exited1 = true ∨ s.exited2 = true ∨ s.parentDone = true) ∧
    Duplex.step s .wake =
      (if !s.returned && (s.exited1 || s.exited2 || s.parentDone) then
        some { s with returned := true }
      else none) ∧
    Duplex.run (Duplex.start parentDone) (steps ++ [.wake]) =
      (if !s.returned && (s.exited1 || s.exited2 || s.parentDone) then
        some { s with returned := true }
      else none) ∧
    Duplex.run (Duplex.start false) [.wake] = none ∧
    Duplex.run (Duplex.start false) [.copyEnds1, .wake] =
      some ⟨true, false, false, true, true⟩ ∧
    Duplex.run (Duplex.start false) [.copyEnds2, .wake] =
      some ⟨false, true, false, true, true⟩ ∧
    Duplex.run (Duplex.start false) [.parentCancel, .wake] =
      some ⟨false, false, true, true, true⟩ ∧
    Duplex.run (Duplex.start true) [.wake] = some ⟨false, false, true, true, true⟩ := by
  have hinv := Duplex_run_inv steps (Duplex.start parentDone) s
    (by cases parentDone <;> simp [Duplex.start]) h
  have hwake : Duplex.step s .wake =
      (if !s.returned && (s.exited1 || s.exited2 || s.parentDone) then
        some { s with returned := true }
      else none) := by
    obtain ⟨h1, h2⟩ := hinv
    rcases s with ⟨e1, e2, pd, cd, r⟩
    simp only [Duplex.step]
    cases e1 <;> cases e2 <;> cases pd <;> cases cd <;> cases r <;> simp_all
  refine ⟨fun hr => hinv.1.mp (hinv.2 hr), hwake, ?_, by decide, by decide, by decide,
    by decide, by decide⟩
  rw [Duplex_run_append, h, ← hwake]
  simp only [Option.bind, Duplex.run]
  cases Duplex.step s .wake <;> rfl

/-- C27 (witness): after the second direction alone has ended, the receive of `Duplex`
completes; and in the state in which `Duplex` has then returned the second direction has
exited while the first has not. -/
theorem C27_duplex_returns_after_either_half_witness :
    Duplex.step ⟨false, true, false, true, false⟩ .wake =
      some ⟨false, true, false, true, true⟩ ∧
    ((⟨false, true, false, true, true⟩ : DuplexState).exited1 = true ∨
      (⟨false, true, false, true, true⟩ : DuplexState).exited2 = true ∨
      (⟨false, true, false, true, true⟩ : DuplexState).parentDone = true) ∧
    (⟨false, true, false, true, true⟩ : DuplexState).exited1 = false :=
  ⟨(C27_duplex_returns_after_either_half false [.copyEnds2]
      ⟨false, true, false, true, false⟩ (by decide)).2.1,
    (C27_duplex_returns_after_either_half false [.copyEnds2, .wake]
      ⟨false, true, false, true, true⟩ (by decide)).1 rfl,
    rfl⟩

end Rotox
